import Mathlib

/-!
# String predicates of `validator.go`

A shallow embedding of the Go package `validator` and of the parts of the Go
standard library its predicates call (`unicode/utf8`, `regexp`, `strconv`),
followed by theorems about the predicates.

* A Go `string` is a list of bytes; it need not be valid UTF-8.
* `regexp` reads its input rune by rune with `utf8.DecodeRuneInString`; the
  patterns of the package are written as terms of `Regex`.
* A slice or index expression that would be out of range makes the embedded
  function return `none`.
-/

namespace Validator

/-! ## Go strings and UTF-8 -/

/-- One byte of a Go string. -/
abbrev Byte := Fin 256

/-- A Go `string`: a sequence of bytes, not necessarily valid UTF-8. -/
abbrev GoString := List Byte

/-- The constant `utf8.RuneError`, U+FFFD. -/
def RuneError : Nat := 0xFFFD

/-- The table `acceptRanges` of `unicode/utf8`: the allowed range of the second
byte of a sequence, by leading byte. -/
def acceptRange (s0 : Nat) : Nat × Nat :=
  if s0 = 0xE0 then (0xA0, 0xBF)
  else if s0 = 0xED then (0x80, 0x9F)
  else if s0 = 0xF0 then (0x90, 0xBF)
  else if s0 = 0xF4 then (0x80, 0x8F)
  else (0x80, 0xBF)

/-- The table `first` of `unicode/utf8`, for a leading byte from `0xC2` to `0xF4`:
the length of the sequence it starts. -/
def runeSize (s0 : Nat) : Nat :=
  if s0 < 0xE0 then 2 else if s0 < 0xF0 then 3 else 4

/-- The function `utf8.DecodeRuneInString`: the first rune of `s` and its width in
bytes. An empty string gives `(RuneError, 0)`, an invalid encoding
`(RuneError, 1)`. The masks and shifts of the original are written with `%`
and `*`; the bytes `s[1]`, `s[2]`, `s[3]` are read after the test `n < sz`, so
they exist. -/
def DecodeRuneInString (s : GoString) : Nat × Nat :=
  let n := s.length
  if n < 1 then (RuneError, 0)
  else
    let s0 := (s.getD 0 0).val
    if s0 < 0x80 then (s0, 1)
    else if s0 < 0xC2 ∨ 0xF5 ≤ s0 then (RuneError, 1)
    else
      let sz := runeSize s0
      let accept := acceptRange s0
      if n < sz then (RuneError, 1)
      else
        let s1 := (s.getD 1 0).val
        if s1 < accept.1 ∨ accept.2 < s1 then (RuneError, 1)
        else if sz ≤ 2 then ((s0 % 32) * 64 + s1 % 64, 2)
        else
          let s2 := (s.getD 2 0).val
          if s2 < 0x80 ∨ 0xBF < s2 then (RuneError, 1)
          else if sz ≤ 3 then ((s0 % 16) * 4096 + (s1 % 64) * 64 + s2 % 64, 3)
          else
            let s3 := (s.getD 3 0).val
            if s3 < 0x80 ∨ 0xBF < s3 then (RuneError, 1)
            else ((s0 % 8) * 262144 + (s1 % 64) * 4096 + (s2 % 64) * 64 + s3 % 64, 4)

/-- The conversion `string(r)` of a rune to a string: its UTF-8 encoding, and
the encoding of U+FFFD for a surrogate or a value above U+10FFFF. -/
def EncodeRune (r : Nat) : GoString :=
  if r < 0x80 then [Fin.ofNat r]
  else if r < 0x800 then [Fin.ofNat (0xC0 + r / 64), Fin.ofNat (0x80 + r % 64)]
  else if (0xD800 ≤ r ∧ r ≤ 0xDFFF) ∨ 0x10FFFF < r then [0xEF, 0xBF, 0xBD]
  else if r < 0x10000 then
    [Fin.ofNat (0xE0 + r / 4096), Fin.ofNat (0x80 + r / 64 % 64), Fin.ofNat (0x80 + r % 64)]
  else
    [Fin.ofNat (0xF0 + r / 262144), Fin.ofNat (0x80 + r / 4096 % 64),
      Fin.ofNat (0x80 + r / 64 % 64), Fin.ofNat (0x80 + r % 64)]

/-- A string literal of the Go source as a Go string (its UTF-8 bytes). -/
def goStr (s : String) : GoString :=
  s.toList.flatMap (fun c => EncodeRune c.toNat)

/-- The runes of `s` in order, each with the bytes it was decoded from; the first
argument counts the bytes still to skip because they belong to the rune
decoded last. -/
def tokensAux : Nat → GoString → List (Nat × GoString)
  | _, [] => []
  | k + 1, _ :: rest => tokensAux k rest
  | 0, b :: rest =>
    let d := DecodeRuneInString (b :: rest)
    (d.1, (b :: rest).take d.2) :: tokensAux (d.2 - 1) rest

/-- The runes of `s`, each with its bytes: what a loop of `DecodeRuneInString`
over `s` reads. -/
def tokens (s : GoString) : List (Nat × GoString) := tokensAux 0 s

/-- The runes of `s`, as `regexp` and `range` see them. -/
def runes (s : GoString) : List Nat := (tokens s).map Prod.fst

/-! ## Regular expressions -/

/-- The regular expressions the package uses. A class is a list of inclusive
rune ranges, possibly negated, possibly matched case-insensitively (`(?i)`).
`bol` is `^` and `eol` is `$`, both without the multi-line flag: start and end
of the text. -/
inductive Regex where
  | empty : Regex
  | cls (fold neg : Bool) (ranges : List (Nat × Nat)) : Regex
  | cat (a b : Regex) : Regex
  | alt (a b : Regex) : Regex
  | star (a : Regex) : Regex
  | bol : Regex
  | eol : Regex
  deriving Repr

namespace Regex

/-- The expression `a+`. -/
def plus (a : Regex) : Regex := cat a (star a)

/-- The expression `a?`. -/
def opt (a : Regex) : Regex := alt a empty

/-- The expression `a{n}`. -/
def rep : Nat → Regex → Regex
  | 0, _ => empty
  | n + 1, a => cat a (rep n a)

/-- A literal character. -/
def lit (fold : Bool) (c : Nat) : Regex := cls fold false [(c, c)]

/-- The concatenation of the expressions of a list, in order. -/
def seq : List Regex → Regex
  | [] => empty
  | a :: rest => cat a (seq rest)

/-- The expression `^a$`. -/
def anchored (a : Regex) : Regex := cat bol (cat a eol)

/-- The literal text `s`, case-sensitive. -/
def text (s : String) : Regex := seq (s.toList.map (fun c => lit false c.toNat))

end Regex

/-- Whether `r` lies in one of the ranges. -/
def inRanges (ranges : List (Nat × Nat)) (r : Nat) : Bool :=
  ranges.any (fun p => decide (p.1 ≤ r ∧ r ≤ p.2))

/-- The orbit of `r` under `unicode.SimpleFold`, for every rune whose orbit
contains an ASCII character: a letter and its other case, with U+212A (Kelvin
sign) in the orbit of `K` and U+017F (long s) in the orbit of `S`. Any other
rune is mapped to itself alone, which is exact for classes whose ranges are
ASCII, as all classes of the package are. -/
def simpleFoldOrbit (r : Nat) : List Nat :=
  if r = 0x4B ∨ r = 0x6B ∨ r = 0x212A then [0x4B, 0x6B, 0x212A]
  else if r = 0x53 ∨ r = 0x73 ∨ r = 0x17F then [0x53, 0x73, 0x17F]
  else if 0x41 ≤ r ∧ r ≤ 0x5A then [r, r + 32]
  else if 0x61 ≤ r ∧ r ≤ 0x7A then [r, r - 32]
  else [r]

/-- Whether the rune `r` matches the class. -/
def classMem (fold neg : Bool) (ranges : List (Nat × Nat)) (r : Nat) : Bool :=
  xor neg (if fold then (simpleFoldOrbit r).any (inRanges ranges) else inRanges ranges r)

/-- The iteration of a star: the positions reachable by matching `f` any number
of times, more iterations first (the star is greedy). An iteration that consumes
nothing is dropped; it reaches no new position. -/
def starEnds (f : List Nat → List (List Nat)) : Nat → List Nat → List (List Nat)
  | 0, t => [t]
  | fuel + 1, t =>
    ((f t).filter (fun u => decide (u.length < t.length))).flatMap (starEnds f fuel) ++ [t]

/-- The backtracking matcher. The text has `n` runes in all, `t` is what is left
of it at the current position; the result lists what is left after each way of
matching `re` here, in order of preference (leftmost-first, as in `regexp`). -/
def Regex.ends (n : Nat) : Regex → List Nat → List (List Nat)
  | .empty, t => [t]
  | .cls fold neg ranges, t =>
    match t with
    | [] => []
    | r :: t1 => if classMem fold neg ranges r then [t1] else []
  | .cat a b, t => (Regex.ends n a t).flatMap (Regex.ends n b)
  | .alt a b, t => Regex.ends n a t ++ Regex.ends n b t
  | .star a, t => starEnds (Regex.ends n a) t.length t
  | .bol, t => if t.length = n then [t] else []
  | .eol, t => if t.length = 0 then [t] else []

/-- The method `(*Regexp).MatchString`: whether some substring of `s` matches. -/
def MatchString (re : Regex) (s : GoString) : Bool :=
  let rs := runes s
  rs.tails.any (fun t => !(re.ends rs.length t).isEmpty)

/-- The loop of `(*Regexp).ReplaceAllString` over the runes of the text, with
their bytes. `skip` counts the runes still inside the match found last and
`prevEnd` says that a match ended exactly here, where an empty match gets no
replacement. -/
def replaceAux (re : Regex) (n : Nat) (repl : GoString) :
    Nat → Bool → List (Nat × GoString) → GoString
  | _, prevEnd, [] =>
    if !prevEnd && !(re.ends n []).isEmpty then repl else []
  | k + 1, _, _ :: ts => replaceAux re n repl k true ts
  | 0, prevEnd, tok :: ts =>
    match (re.ends n ((tok :: ts).map Prod.fst)).head? with
    | none => tok.2 ++ replaceAux re n repl 0 false ts
    | some u =>
      let cnt := (ts.length + 1) - u.length
      if cnt = 0 then
        (if prevEnd then [] else repl) ++ tok.2 ++ replaceAux re n repl 0 false ts
      else repl ++ replaceAux re n repl (cnt - 1) true ts

/-- The method `(*Regexp).ReplaceAllString` for a replacement without `$`: every
leftmost match in `src`, found from the end of the one before, is replaced
by `repl`. -/
def ReplaceAllString (re : Regex) (src repl : GoString) : GoString :=
  let ts := tokens src
  replaceAux re ts.length repl 0 false ts

/-! ## The patterns of the package -/

/-- The range `a-b` of a class. -/
def rng (a b : Char) : Nat × Nat := (a.toNat, b.toNat)

/-- The single characters of a class, one range each. -/
def chars (s : String) : List (Nat × Nat) := s.toList.map (fun c => (c.toNat, c.toNat))

/-- The class `[0-9]`. -/
def digit : Regex := .cls false false [rng '0' '9']

/-- The class `[0-9a-fA-F]`. -/
def hexDigit : Regex := .cls false false [rng '0' '9', rng 'a' 'f', rng 'A' 'F']

/-- The class `[0-9A-F]` under `(?i)`. -/
def hexFold : Regex := .cls true false [rng '0' '9', rng 'A' 'F']

/-- The literal `-` under `(?i)`. -/
def dashFold : Regex := .lit true 0x2D

/-- The class `[A-Z0-9]` under `(?i)`. -/
def alnumFold : Regex := .cls true false [rng 'A' 'Z', rng '0' '9']

/-- The class `[A-Z0-9-]` under `(?i)`. -/
def alnumDashFold : Regex := .cls true false ([rng 'A' 'Z', rng '0' '9'] ++ chars "-")

/-- The class `[A-Z0-9!#$%&'*+/=?^_{|}~-]` under `(?i)`; the pattern is a raw
string literal of the Go source, which cannot hold a backquote. -/
def localFold : Regex :=
  .cls true false ([rng 'A' 'Z', rng '0' '9'] ++ chars "!#$%&'*+/=?^_\x7b|\x7d~-")

/-- A label of the domain, `[A-Z0-9](?:[A-Z0-9-]*[A-Z0-9])?` under `(?i)`. -/
def emailLabel : Regex :=
  .seq [alnumFold, .opt (.seq [.star alnumDashFold, alnumFold])]

/-- The pattern `email`:
`(?i)[A-Z0-9!#$%&'*+/=?^_{|}~-]+(?:\.[A-Z0-9!#$%&'*+/=?^_{|}~-]+)*@(?:[A-Z0-9](?:[A-Z0-9-]*[A-Z0-9])?\.)+[A-Z0-9](?:[A-Z0-9-]*[A-Z0-9])?`,
without anchors. -/
def email : Regex :=
  .seq [.plus localFold,
    .star (.seq [.lit true 0x2E, .plus localFold]),
    .lit true 0x40,
    .plus (.seq [emailLabel, .lit true 0x2E]),
    emailLabel]

/-- The pattern `hexcolor`: `^#?([0-9a-fA-F]{3}|[0-9a-fA-F]{6})$`. -/
def hexcolor : Regex :=
  .anchored (.seq [.opt (.lit false 0x23), .alt (.rep 3 hexDigit) (.rep 6 hexDigit)])

/-- The pattern `possibleISBNv10`: `^(?:[0-9]{9}X|[0-9]{10})$`. -/
def possibleISBNv10 : Regex :=
  .anchored (.alt (.seq [.rep 9 digit, .lit false 0x58]) (.rep 10 digit))

/-- The pattern `possibleISBNv13`: `^(?:[0-9]{13})$`. -/
def possibleISBNv13 : Regex :=
  .anchored (.rep 13 digit)

/-- The pattern `uuidv3`:
`(?i)^[0-9A-F]{8}-[0-9A-F]{4}-3[0-9A-F]{3}-[0-9A-F]{4}-[0-9A-F]{12}$`. -/
def uuidv3 : Regex :=
  .anchored (.seq [.rep 8 hexFold, dashFold, .rep 4 hexFold, dashFold,
    .lit true 0x33, .rep 3 hexFold, dashFold, .rep 4 hexFold, dashFold, .rep 12 hexFold])

/-- The pattern `uuidv4`:
`(?i)^[0-9A-F]{8}-[0-9A-F]{4}-4[0-9A-F]{3}-[89AB][0-9A-F]{3}-[0-9A-F]{12}$`. -/
def uuidv4 : Regex :=
  .anchored (.seq [.rep 8 hexFold, dashFold, .rep 4 hexFold, dashFold,
    .lit true 0x34, .rep 3 hexFold, dashFold,
    .cls true false (chars "89AB"), .rep 3 hexFold, dashFold, .rep 12 hexFold])

/-- The pattern `uuidv5`:
`(?i)^[0-9A-F]{8}-[0-9A-F]{4}-5[0-9A-F]{3}-[89AB][0-9A-F]{3}-[0-9A-F]{12}$`. -/
def uuidv5 : Regex :=
  .anchored (.seq [.rep 8 hexFold, dashFold, .rep 4 hexFold, dashFold,
    .lit true 0x35, .rep 3 hexFold, dashFold,
    .cls true false (chars "89AB"), .rep 3 hexFold, dashFold, .rep 12 hexFold])

/-- The pattern `uuidvAll`:
`(?i)^[0-9A-F]{8}-[0-9A-F]{4}-[0-9A-F]{4}-[0-9A-F]{4}-[0-9A-F]{12}$`. -/
def uuidvAll : Regex :=
  .anchored (.seq [.rep 8 hexFold, dashFold, .rep 4 hexFold, dashFold,
    .rep 4 hexFold, dashFold, .rep 4 hexFold, dashFold, .rep 12 hexFold])

/-- The pattern `creditCard`:
`^(?:4[0-9]{12}(?:[0-9]{3})?|5[1-5][0-9]{14}|6(?:011|5[0-9][0-9])[0-9]{12}|3[47][0-9]{13}|3(?:0[0-5]|[68][0-9])[0-9]{11}|(?:2131|1800|35\d{3})\d{11})$`. -/
def creditCard : Regex :=
  .anchored
    (.alt (.seq [.text "4", .rep 12 digit, .opt (.rep 3 digit)])
      (.alt (.seq [.text "5", .cls false false [rng '1' '5'], .rep 14 digit])
        (.alt (.seq [.text "6", .alt (.text "011") (.seq [.text "5", digit, digit]),
            .rep 12 digit])
          (.alt (.seq [.text "3", .cls false false (chars "47"), .rep 13 digit])
            (.alt (.seq [.text "3",
                .alt (.seq [.text "0", .cls false false [rng '0' '5']])
                  (.seq [.cls false false (chars "68"), digit]),
                .rep 11 digit])
              (.seq [.alt (.text "2131") (.alt (.text "1800") (.seq [.text "35", .rep 3 digit])),
                .rep 11 digit]))))))

/-- The pattern of `reAlpha`: `^[[:alpha:]]+$`, where `[[:alpha:]]` is `[A-Za-z]`. -/
def reAlpha : Regex := .anchored (.plus (.cls false false [rng 'A' 'Z', rng 'a' 'z']))

/-- The pattern of `reAlphanumeric`: `^[[:alnum:]]+$`, where `[[:alnum:]]` is
`[0-9A-Za-z]`. -/
def reAlphanumeric : Regex :=
  .anchored (.plus (.cls false false [rng '0' '9', rng 'A' 'Z', rng 'a' 'z']))

/-- The pattern of `reAscii`: `^[[:ascii:]]+$`, where `[[:ascii:]]` is `[\x00-\x7F]`. -/
def reAscii : Regex := .anchored (.plus (.cls false false [(0x00, 0x7F)]))

/-- The pattern of `reHexadecimal`: `^[[:xdigit:]]+$`, where `[[:xdigit:]]` is
`[0-9A-Fa-f]`. -/
def reHexadecimal : Regex :=
  .anchored (.plus (.cls false false [rng '0' '9', rng 'A' 'F', rng 'a' 'f']))

/-- The pattern of `sanitizeISBN`: `[\s-]+`, where `\s` is `[\t\n\f\r ]`. -/
def sanitizeISBN : Regex :=
  .plus (.cls false false [(0x09, 0x0A), (0x0C, 0x0D), (0x20, 0x20), (0x2D, 0x2D)])

/-- The pattern of `sanitizeCreditCard`: `[^0-9]+`. -/
def sanitizeCreditCard : Regex := .plus (.cls false true [rng '0' '9'])

/-! ## The package `strconv` -/

/-- The errors of `strconv`: `ErrSyntax` and `ErrRange`. -/
inductive NumError where
  | ErrSyntax : NumError
  | ErrRange : NumError
  deriving DecidableEq, Repr

/-- The function `strconv.ParseBool`: the value and the error, `none` for `nil`. -/
def ParseBool (str : GoString) : Bool × Option NumError :=
  if str ∈ [goStr "1", goStr "t", goStr "T", goStr "true", goStr "TRUE", goStr "True"] then
    (true, none)
  else if str ∈ [goStr "0", goStr "f", goStr "F", goStr "false", goStr "FALSE", goStr "False"] then
    (false, none)
  else (false, some .ErrSyntax)

/-- The loop of `strconv.ParseUint` for base 10 and 64 bits: a byte that is no
digit is a syntax error, a value above `2^64 - 1` a range error. -/
def parseUintLoop : Nat → GoString → Nat × Option NumError
  | n, [] => (n, none)
  | n, c :: rest =>
    if ¬ (0x30 ≤ c.val ∧ c.val ≤ 0x39) then (0, some .ErrSyntax)
    else if (2 ^ 64 - 1) / 10 + 1 ≤ n then (2 ^ 64 - 1, some .ErrRange)
    else
      let n1 := n * 10 + (c.val - 0x30)
      if 2 ^ 64 - 1 < n1 then (2 ^ 64 - 1, some .ErrRange)
      else parseUintLoop n1 rest

/-- The call `strconv.ParseUint(s, 10, 64)`. -/
def ParseUint (s : GoString) : Nat × Option NumError :=
  if s = [] then (0, some .ErrSyntax) else parseUintLoop 0 s

/-- The call `strconv.ParseInt(s, 10, 0)` with a 64-bit `int`. -/
def ParseInt (s : GoString) : Int × Option NumError :=
  match s with
  | [] => (0, some .ErrSyntax)
  | c :: rest =>
    let neg := decide (c.val = 0x2D)
    let body := if c.val = 0x2B ∨ c.val = 0x2D then rest else s
    let (un, err) := ParseUint body
    if err = some .ErrSyntax then (0, err)
    else if !neg && decide (2 ^ 63 ≤ un) then (2 ^ 63 - 1, some .ErrRange)
    else if neg && decide (2 ^ 63 < un) then (-(2 ^ 63), some .ErrRange)
    else (if neg then -(un : Int) else (un : Int), none)

/-- The fast path of `strconv.Atoi`: the digits of a short string; the byte
subtraction `ch -= '0'` wraps around. -/
def atoiLoop : Int → GoString → Option Int
  | n, [] => some n
  | n, ch :: rest =>
    let d := (ch.val + 256 - 0x30) % 256
    if 9 < d then none else atoiLoop (n * 10 + (d : Int)) rest

/-- The function `strconv.Atoi` with a 64-bit `int`: the value and the error,
`none` for `nil`. -/
def Atoi (s : GoString) : Int × Option NumError :=
  match s with
  | [] => ParseInt s
  | c :: rest =>
    if s.length < 19 then
      let signed := decide (c.val = 0x2D ∨ c.val = 0x2B)
      let body := if signed then rest else s
      if signed && decide (body.length < 1) then (0, some .ErrSyntax)
      else
        match atoiLoop 0 body with
        | none => (0, some .ErrSyntax)
        | some n => (if c.val = 0x2D then -n else n, none)
    else ParseInt s

/-! ## The packages `strings` and `net`, and `strconv.ParseFloat` -/

/-- The function `strings.Map` for a mapping without negative results: every rune
of `s` gives its image. A rune that is its own image keeps its bytes; a changed
rune is written in UTF-8, and so is the image of `RuneError` for a byte that is no
valid encoding. -/
def Map (mapping : Nat → Nat) (s : GoString) : GoString :=
  (tokens s).flatMap (fun t =>
    if mapping t.1 = t.1 ∧ ¬ (t.1 = RuneError ∧ t.2.length = 1) then t.2
    else EncodeRune (mapping t.1))

/-- The function `strings.ToLower`. An ASCII string without an upper-case letter is
returned as it is, any other ASCII string with `c += 'a' - 'A'` on its upper-case
letters; a string with a byte from `0x80` on goes through `Map(unicode.ToLower, s)`.
The table `unicode.ToLower` is the parameter `lower`. -/
def ToLower (lower : Nat → Nat) (s : GoString) : GoString :=
  let isASCII := s.all (fun c => decide (c.val < 0x80))
  let hasUpper := s.any (fun c => decide (0x41 ≤ c.val ∧ c.val ≤ 0x5A))
  if isASCII then
    if !hasUpper then s
    else s.map (fun c =>
      if 0x41 ≤ c.val ∧ c.val ≤ 0x5A then Fin.ofNat ((c.val + 0x20) % 256) else c)
  else Map lower s

/-- The function `strings.ToUpper`, like `ToLower` with `c -= 'a' - 'A'` on the
lower-case letters; the table `unicode.ToUpper` is the parameter `upper`. -/
def ToUpper (upper : Nat → Nat) (s : GoString) : GoString :=
  let isASCII := s.all (fun c => decide (c.val < 0x80))
  let hasLower := s.any (fun c => decide (0x61 ≤ c.val ∧ c.val ≤ 0x7A))
  if isASCII then
    if !hasLower then s
    else s.map (fun c =>
      if 0x61 ≤ c.val ∧ c.val ≤ 0x7A then Fin.ofNat ((c.val + 256 - 0x20) % 256) else c)
  else Map upper s

/-- The error of `strconv.ParseFloat(s, 64)`, `none` for `nil`. On the empty
string `special` finds no infinity and no NaN (`len(s) == 0`) and `readFloat` gives
up at its first test (`i >= len(s)`), which is a syntax error. What the function
does with a non-empty string is the parameter `atof`. -/
def ParseFloat (atof : GoString → Option NumError) (s : GoString) : Option NumError :=
  if s.length = 0 then some .ErrSyntax else atof s

/-- The loop of `net.ParseIP`: the first `.` or `:` of the string decides which
parser reads the whole string `s`; a string with neither is no address (`nil`,
here `none`). The two parsers are parameters. -/
def parseIPLoop (parseIPv4 parseIPv6 : GoString → Option (List Byte)) (s : GoString) :
    GoString → Option (List Byte)
  | [] => none
  | c :: rest =>
    if c.val = 0x2E then parseIPv4 s
    else if c.val = 0x3A then parseIPv6 s
    else parseIPLoop parseIPv4 parseIPv6 s rest

/-- The function `net.ParseIP`. -/
def ParseIP (parseIPv4 parseIPv6 : GoString → Option (List Byte)) (s : GoString) :
    Option (List Byte) :=
  parseIPLoop parseIPv4 parseIPv6 s s

/-- The method `IP.To4`: a 4-byte address as it is, a 16-byte address that is an
IPv4 address in IPv6 form (ten zero bytes, `0xff`, `0xff`) by its last four
bytes, `nil` otherwise. -/
def To4 (ip : List Byte) : Option (List Byte) :=
  if ip.length = 4 then some ip
  else if ip.length = 16 ∧ (ip.take 10).all (fun b => decide (b.val = 0)) = true ∧
      ip[10]? = some 0xFF ∧ ip[11]? = some 0xFF then
    some ((ip.drop 12).take 4)
  else none

/-! ## The predicates of `validator.go` -/

/-- The function `IsAlpha`. -/
def IsAlpha (s : GoString) : Bool := MatchString reAlpha s

/-- The function `IsAlphanumeric`. -/
def IsAlphanumeric (s : GoString) : Bool := MatchString reAlphanumeric s

/-- The function `IsAscii`. -/
def IsAscii (s : GoString) : Bool := MatchString reAscii s

/-- The function `IsHexadecimal`. -/
def IsHexadecimal (s : GoString) : Bool := MatchString reHexadecimal s

/-- The function `IsCreditCard`: both branches return false. -/
def IsCreditCard (s : GoString) : Bool :=
  let sanitized := ReplaceAllString sanitizeCreditCard s []
  if !MatchString creditCard sanitized then false
  else false

/-- The function `IsFloat`. -/
def IsFloat (atof : GoString → Option NumError) (s : GoString) : Bool :=
  if ParseFloat atof s ≠ none then false else true

/-- The function `IsIP`. -/
def IsIP (parseIPv4 parseIPv6 : GoString → Option (List Byte)) (s : GoString) : Bool :=
  if ParseIP parseIPv4 parseIPv6 s = none then false else true

/-- The function `IsIPv4`. -/
def IsIPv4 (parseIPv4 parseIPv6 : GoString → Option (List Byte)) (s : GoString) : Bool :=
  match ParseIP parseIPv4 parseIPv6 s with
  | none => false
  | some ip => if To4 ip ≠ none then true else false

/-- The function `IsLength`. -/
def IsLength (_s : GoString) : Bool := false

/-- The function `IsDate`. -/
def IsDate (_s : GoString) : Bool := false

/-- The function `IsIn`. -/
def IsIn (s : GoString) : List GoString → Bool
  | [] => false
  | t :: w => if t = s then true else IsIn s w

/-- The function `IsLowerCase`. -/
def IsLowerCase (lower : Nat → Nat) (s : GoString) : Bool := ToLower lower s = s

/-- The function `IsNull`. -/
def IsNull (s : GoString) : Bool := s = []

/-- The function `IsUpperCase`. -/
def IsUpperCase (upper : Nat → Nat) (s : GoString) : Bool := ToUpper upper s = s

/-- The statement `for i, d := range s`: the byte offset and the rune of every
iteration. -/
def rangeAux : Nat → List (Nat × GoString) → List (Nat × Nat)
  | _, [] => []
  | i, tok :: ts => (i, tok.1) :: rangeAux (i + tok.2.length) ts

/-- The pairs `(i, d)` of `for i, d := range s`. -/
def rangeString (s : GoString) : List (Nat × Nat) := rangeAux 0 (tokens s)

/-- The slice expression `s[:hi]`, which panics when `hi > len(s)`. -/
def sliceTo (s : GoString) (hi : Nat) : Option GoString :=
  if hi ≤ s.length then some (s.take hi) else none

/-- The function `IsEmail`. -/
def IsEmail (s : GoString) : Bool := MatchString email s

/-- The function `IsBool`. -/
def IsBool (s : GoString) : Bool :=
  if (ParseBool s).2 ≠ none then false else true

/-- The function `IsInt`. -/
def IsInt (s : GoString) : Bool :=
  if (Atoi s).2 ≠ none then false else true

/-- The function `IsISBNv10`; `none` stands for a run-time panic. -/
def IsISBNv10 (s : GoString) : Option Bool :=
  let sanitized := ReplaceAllString sanitizeISBN s []
  if !MatchString possibleISBNv10 sanitized then some false
  else do
    let head ← sliceTo sanitized 9
    let checksum : Int :=
      (rangeString head).foldl
        (fun checksum p => checksum + ((p.1 : Int) + 1) * (Atoi (EncodeRune p.2)).1) 0
    let c ← sanitized[9]?
    let last := EncodeRune c.val
    let checksum : Int :=
      if last = goStr "X" then checksum + 100 else checksum + 10 * (Atoi last).1
    if checksum.tmod 11 = 0 then some true else some false

/-- The function `IsISBNv13`; `none` stands for a run-time panic. -/
def IsISBNv13 (s : GoString) : Option Bool :=
  let sanitized := ReplaceAllString sanitizeISBN s []
  if !MatchString possibleISBNv13 sanitized then some false
  else do
    let factor : List Int := [1, 3]
    let c ← sanitized[12]?
    let checkdigit := (Atoi (EncodeRune c.val)).1
    let head ← sliceTo sanitized 12
    let checksum ← (rangeString head).foldlM
      (fun (checksum : Int) p => do
        let f ← factor[p.1 % 2]?
        pure (checksum + f * (Atoi (EncodeRune p.2)).1)) (0 : Int)
    let result := (10 - checksum.tmod 10).tmod 10
    if checkdigit - result = 0 then some true else some false

/-- The function `IsISBN`: `IsISBNv10(s) || IsISBNv13(s)`, the right operand
evaluated only when the left one is false. -/
def IsISBN (s : GoString) : Option Bool := do
  let a ← IsISBNv10 s
  if a then pure true else IsISBNv13 s

/-- The function `IsHexColor`. -/
def IsHexColor (s : GoString) : Bool := MatchString hexcolor s

/-- The function `IsUUID`. -/
def IsUUID (s : GoString) : Bool := MatchString uuidvAll s

/-- The function `IsUUIDv3`. -/
def IsUUIDv3 (s : GoString) : Bool := MatchString uuidv3 s

/-- The function `IsUUIDv4`. -/
def IsUUIDv4 (s : GoString) : Bool := MatchString uuidv4 s

/-- The function `IsUUIDv5`. -/
def IsUUIDv5 (s : GoString) : Bool := MatchString uuidv5 s

/-! ## Vocabulary of the statements -/

/-- A leading byte of a sequence of two to four bytes. -/
def IsLead (b : Byte) : Prop := 0xC2 ≤ b.val ∧ b.val < 0xF5

/-- A continuation byte. -/
def IsCont (c : Byte) : Prop := 0x80 ≤ c.val ∧ c.val ≤ 0xBF

/-- A second byte the leading byte `b` accepts. -/
def IsSecond (b c : Byte) : Prop :=
  (acceptRange b.val).1 ≤ c.val ∧ c.val ≤ (acceptRange b.val).2

instance (b : Byte) : Decidable (IsLead b) := by unfold IsLead; infer_instance

instance (c : Byte) : Decidable (IsCont c) := by unfold IsCont; infer_instance

instance (b c : Byte) : Decidable (IsSecond b c) := by unfold IsSecond; infer_instance

/-- The language of an expression without anchors: the rune sequences it
matches, whatever stands around them. -/
def Lang : Regex → List Nat → Prop
  | .empty, w => w = []
  | .cls fold neg ranges, w => ∃ r, w = [r] ∧ classMem fold neg ranges r = true
  | .cat a b, w => ∃ u v, w = u ++ v ∧ Lang a u ∧ Lang b v
  | .alt a b, w => Lang a w ∨ Lang b w
  | .star a, w => ∃ ws : List (List Nat), w = ws.flatten ∧ ∀ x ∈ ws, Lang a x
  | .bol, _ => False
  | .eol, _ => False

/-- Whether the expression has no `^` and no `$`. -/
def anchorFree : Regex → Bool
  | .empty => true
  | .cls _ _ _ => true
  | .cat a b => anchorFree a && anchorFree b
  | .alt a b => anchorFree a && anchorFree b
  | .star a => anchorFree a
  | .bol => false
  | .eol => false

/-- A hyphen or an ASCII whitespace character: space, tab, newline, form feed,
carriage return. -/
def isSeparator (b : Byte) : Bool :=
  b.val = 0x2D || b.val = 0x20 || b.val = 0x09 || b.val = 0x0A || b.val = 0x0C || b.val = 0x0D

/-- The string without its hyphens and ASCII whitespace characters. -/
def strip (s : GoString) : GoString := s.filter (fun b => !isSeparator b)

/-- Every class of the expression holds ASCII runes only. -/
def ClassesAscii : Regex → Prop
  | .empty => True
  | .cls fold neg ranges => ∀ r, classMem fold neg ranges r = true → r < 0x80
  | .cat a b => ClassesAscii a ∧ ClassesAscii b
  | .alt a b => ClassesAscii a ∧ ClassesAscii b
  | .star a => ClassesAscii a
  | .bol => True
  | .eol => True

/-- The classes of an expression that is a sequence of classes, in order. -/
def shape : Regex → Option (List (Nat → Bool))
  | .empty => some []
  | .cls fold neg ranges => some [classMem fold neg ranges]
  | .cat a b =>
    match shape a, shape b with
    | some x, some y => some (x ++ y)
    | _, _ => none
  | _ => none

/-- A hexadecimal digit: `0-9`, `a-f` or `A-F`. -/
def isHexDigit (b : Byte) : Bool :=
  (0x30 ≤ b.val && b.val ≤ 0x39) || (0x61 ≤ b.val && b.val ≤ 0x66) ||
    (0x41 ≤ b.val && b.val ≤ 0x46)

/-- A decimal digit. -/
def isDigit (b : Byte) : Bool := 0x30 ≤ b.val && b.val ≤ 0x39

/-- The value of a decimal digit. -/
def digitVal (b : Byte) : Nat := b.val - 0x30

/-- The value of an ISBN-10 check character: `X` counts as 10. -/
def checkVal (b : Byte) : Nat := if b = 0x58 then 10 else b.val - 0x30

/-- No class of the expression holds `RuneError`, the rune an invalid byte is
read as. -/
def ClassesValid : Regex → Prop
  | .empty => True
  | .cls fold neg ranges => classMem fold neg ranges RuneError = false
  | .cat a b => ClassesValid a ∧ ClassesValid b
  | .alt a b => ClassesValid a ∧ ClassesValid b
  | .star a => ClassesValid a
  | .bol => True
  | .eol => True

/-- An ASCII letter. -/
def isLetter (b : Byte) : Bool :=
  (0x41 ≤ b.val && b.val ≤ 0x5A) || (0x61 ≤ b.val && b.val ≤ 0x7A)

/-- The lower-case form of an ASCII letter, any other byte unchanged. -/
def asciiLower (b : Byte) : Byte :=
  if 0x41 ≤ b.val ∧ b.val ≤ 0x5A then Fin.ofNat (b.val + 0x20) else b

/-- The number a string of decimal digits denotes. -/
def natVal (s : GoString) : Nat := s.foldl (fun n c => n * 10 + (c.val - 0x30)) 0

/-- The integer a sign and a string of decimal digits denote. -/
def intVal (sign body : GoString) : Int :=
  if sign = goStr "-" then -(natVal body : Int) else (natVal body : Int)

/-! # Theorems -/

/-! ## UTF-8 decoding -/


theorem runeSize_eq (s0 : Nat) :
    (runeSize s0 = 2 ↔ s0 < 0xE0) ∧ (runeSize s0 = 3 ↔ (0xE0 ≤ s0 ∧ s0 < 0xF0)) ∧
      (runeSize s0 = 4 ↔ 0xF0 ≤ s0) := by
  unfold runeSize; split_ifs <;> omega

theorem acceptRange_bounds (s0 : Nat) :
    0x80 ≤ (acceptRange s0).1 ∧ (acceptRange s0).2 ≤ 0xBF ∧
      (s0 = 0xE0 → 0xA0 ≤ (acceptRange s0).1) ∧ (s0 = 0xF0 → 0x90 ≤ (acceptRange s0).1) := by
  unfold acceptRange; split_ifs <;> dsimp only <;> omega

theorem IsSecond.isCont {b c : Byte} (h : IsSecond b c) : IsCont c := by
  have := acceptRange_bounds b.val
  unfold IsSecond at h; unfold IsCont; omega

theorem decode_nil : DecodeRuneInString [] = (RuneError, 0) := by
  simp [DecodeRuneInString]

theorem decode_ascii (b : Byte) (rest : GoString) (h : b.val < 0x80) :
    DecodeRuneInString (b :: rest) = (b.val, 1) := by
  simp [DecodeRuneInString, h]

theorem decode_badLead (b : Byte) (rest : GoString) (h : 0x80 ≤ b.val) (h1 : ¬ IsLead b) :
    DecodeRuneInString (b :: rest) = (RuneError, 1) := by
  have h2 : ¬ b.val < 128 := by omega
  have h3 : b.val < 194 ∨ 245 ≤ b.val := by unfold IsLead at h1; omega
  simp [DecodeRuneInString, h2, h3]

theorem decode_short1 (b : Byte) (h : IsLead b) :
    DecodeRuneInString [b] = (RuneError, 1) := by
  have h2 : ¬ b.val < 128 := by unfold IsLead at h; omega
  have h3 : ¬ (b.val < 194 ∨ 245 ≤ b.val) := by unfold IsLead at h; omega
  have h4 : 1 < runeSize b.val := by have := runeSize_eq b.val; unfold runeSize at *; split_ifs <;> omega
  simp [DecodeRuneInString, h2, h3, h4]

theorem lead_facts {b : Byte} (h : IsLead b) :
    ¬ b.val < 128 ∧ ¬ (b.val < 194 ∨ 245 ≤ b.val) ∧ 2 ≤ runeSize b.val ∧ runeSize b.val ≤ 4 := by
  have := runeSize_eq b.val
  unfold IsLead at h
  refine ⟨by omega, by omega, ?_, ?_⟩ <;> (unfold runeSize; split_ifs <;> omega)

theorem decode_bad1 (b b1 : Byte) (rest : GoString) (h : IsLead b) (h1 : ¬ IsSecond b b1) :
    DecodeRuneInString (b :: b1 :: rest) = (RuneError, 1) := by
  obtain ⟨h2, h3, h4, h5⟩ := lead_facts h
  have h6 : b1.val < (acceptRange b.val).1 ∨ (acceptRange b.val).2 < b1.val := by
    unfold IsSecond at h1; omega
  simp only [DecodeRuneInString, List.length_cons, List.getD_cons_zero, List.getD_cons_succ,
    h2, h3, h6, if_true, if_false, ite_self]
  split_ifs <;> first | rfl | (exfalso; omega)

theorem decode_two (b b1 : Byte) (rest : GoString) (h : IsLead b) (hb : b.val < 0xE0)
    (h1 : IsSecond b b1) :
    DecodeRuneInString (b :: b1 :: rest) = ((b.val % 32) * 64 + b1.val % 64, 2) := by
  obtain ⟨h2, h3, h4, h5⟩ := lead_facts h
  have h6 : ¬ (b1.val < (acceptRange b.val).1 ∨ (acceptRange b.val).2 < b1.val) := by
    unfold IsSecond at h1; omega
  have h7 : runeSize b.val = 2 := (runeSize_eq b.val).1.2 hb
  simp [DecodeRuneInString, h2, h3, h6, h7]

theorem decode_short2 (b b1 : Byte) (h : IsLead b) (hb : 0xE0 ≤ b.val) :
    DecodeRuneInString [b, b1] = (RuneError, 1) := by
  obtain ⟨h2, h3, h4, h5⟩ := lead_facts h
  have h7 : 2 < runeSize b.val := by
    have := runeSize_eq b.val; omega
  simp [DecodeRuneInString, h2, h3, h7]

theorem decode_bad2 (b b1 b2 : Byte) (rest : GoString) (h : IsLead b) (hb : 0xE0 ≤ b.val)
    (h2 : ¬ IsCont b2) :
    DecodeRuneInString (b :: b1 :: b2 :: rest) = (RuneError, 1) := by
  obtain ⟨h3, h4, h5, h6⟩ := lead_facts h
  have h7 : ¬ runeSize b.val ≤ 2 := by
    have := runeSize_eq b.val; omega
  have h8 : b2.val < 128 ∨ 191 < b2.val := by unfold IsCont at h2; omega
  simp only [DecodeRuneInString, List.length_cons, List.getD_cons_zero, List.getD_cons_succ,
    h3, h4, h7, h8, if_true, if_false, ite_self]
  split_ifs <;> first | rfl | (exfalso; omega)

theorem decode_three (b b1 b2 : Byte) (rest : GoString) (h : IsLead b) (hb : 0xE0 ≤ b.val)
    (hb1 : b.val < 0xF0) (h1 : IsSecond b b1) (h2 : IsCont b2) :
    DecodeRuneInString (b :: b1 :: b2 :: rest) =
      ((b.val % 16) * 4096 + (b1.val % 64) * 64 + b2.val % 64, 3) := by
  obtain ⟨h3, h4, h5, h6⟩ := lead_facts h
  have h7 : runeSize b.val = 3 := (runeSize_eq b.val).2.1.2 ⟨hb, hb1⟩
  have h8 : ¬ (b2.val < 128 ∨ 191 < b2.val) := by unfold IsCont at h2; omega
  have h9 : ¬ (b1.val < (acceptRange b.val).1 ∨ (acceptRange b.val).2 < b1.val) := by
    unfold IsSecond at h1; omega
  simp [DecodeRuneInString, h3, h4, h7, h8, h9]

theorem decode_short3 (b b1 b2 : Byte) (h : IsLead b) (hb : 0xF0 ≤ b.val) :
    DecodeRuneInString [b, b1, b2] = (RuneError, 1) := by
  obtain ⟨h2, h3, h4, h5⟩ := lead_facts h
  have h7 : runeSize b.val = 4 := (runeSize_eq b.val).2.2.2 hb
  simp [DecodeRuneInString, h2, h3, h7]

theorem decode_bad3 (b b1 b2 b3 : Byte) (rest : GoString) (h : IsLead b) (hb : 0xF0 ≤ b.val)
    (h2 : ¬ IsCont b3) :
    DecodeRuneInString (b :: b1 :: b2 :: b3 :: rest) = (RuneError, 1) := by
  obtain ⟨h3, h4, h5, h6⟩ := lead_facts h
  have h7 : runeSize b.val = 4 := (runeSize_eq b.val).2.2.2 hb
  have h8 : b3.val < 128 ∨ 191 < b3.val := by unfold IsCont at h2; omega
  simp only [DecodeRuneInString, List.length_cons, List.getD_cons_zero, List.getD_cons_succ,
    h3, h4, h7, h8, if_true, if_false, ite_self]
  split_ifs <;> first | rfl | (exfalso; omega)

theorem decode_four (b b1 b2 b3 : Byte) (rest : GoString) (h : IsLead b) (hb : 0xF0 ≤ b.val)
    (h1 : IsSecond b b1) (h2 : IsCont b2) (h3 : IsCont b3) :
    DecodeRuneInString (b :: b1 :: b2 :: b3 :: rest) =
      ((b.val % 8) * 262144 + (b1.val % 64) * 4096 + (b2.val % 64) * 64 + b3.val % 64, 4) := by
  obtain ⟨h4, h5, _, _⟩ := lead_facts h
  have h7 : runeSize b.val = 4 := (runeSize_eq b.val).2.2.2 hb
  have h8 : ¬ (b2.val < 128 ∨ 191 < b2.val) := by unfold IsCont at h2; omega
  have h9 : ¬ (b1.val < (acceptRange b.val).1 ∨ (acceptRange b.val).2 < b1.val) := by
    unfold IsSecond at h1; omega
  have h10 : ¬ (b3.val < 128 ∨ 191 < b3.val) := by unfold IsCont at h3; omega
  simp [DecodeRuneInString, h4, h5, h7, h8, h9, h10]

/-- Appending `y` does not change the first rune of a non-empty `x` when that rune
is no error, or when `y` does not start with a continuation byte. -/
theorem decode_append (x y : GoString) (hx : x ≠ [])
    (h : (DecodeRuneInString x).1 ≠ RuneError ∨ ∀ c ∈ y.head?, ¬ IsCont c) :
    DecodeRuneInString (x ++ y) = DecodeRuneInString x := by
  have hy : ∀ b, IsLead b → (DecodeRuneInString x).1 = RuneError →
      DecodeRuneInString (b :: y) = (RuneError, 1) := by
    intro b hb hx1
    rcases y with _ | ⟨c, y⟩
    · exact decode_short1 b hb
    · have hc : ¬ IsCont c := by
        rcases h with h | h
        · exact absurd hx1 h
        · exact h c (by simp)
      exact decode_bad1 b c y hb (fun h2 => hc h2.isCont)
  have hy2 : ∀ b b1, IsLead b → 0xE0 ≤ b.val → IsSecond b b1 →
      (DecodeRuneInString x).1 = RuneError →
      DecodeRuneInString (b :: b1 :: y) = (RuneError, 1) := by
    intro b b1 hb hb1 _ hx1
    rcases y with _ | ⟨c, y⟩
    · exact decode_short2 b b1 hb hb1
    · have hc : ¬ IsCont c := by
        rcases h with h | h
        · exact absurd hx1 h
        · exact h c (by simp)
      exact decode_bad2 b b1 c y hb hb1 hc
  have hy3 : ∀ b b1 b2, IsLead b → 0xF0 ≤ b.val →
      (DecodeRuneInString x).1 = RuneError →
      DecodeRuneInString (b :: b1 :: b2 :: y) = (RuneError, 1) := by
    intro b b1 b2 hb hb1 hx1
    rcases y with _ | ⟨c, y⟩
    · exact decode_short3 b b1 b2 hb hb1
    · have hc : ¬ IsCont c := by
        rcases h with h | h
        · exact absurd hx1 h
        · exact h c (by simp)
      exact decode_bad3 b b1 b2 c y hb hb1 hc
  rcases x with _ | ⟨b, x1⟩
  · exact absurd rfl hx
  by_cases ha : b.val < 0x80
  · rw [List.cons_append, decode_ascii _ _ ha, decode_ascii _ _ ha]
  by_cases hl : IsLead b
  swap
  · rw [List.cons_append, decode_badLead _ _ (by omega) hl, decode_badLead _ _ (by omega) hl]
  rcases x1 with _ | ⟨b1, x2⟩
  · have e := decode_short1 b hl
    rw [e]; exact hy b hl (by rw [e])
  by_cases h1 : IsSecond b b1
  swap
  · simp only [List.cons_append]
    rw [decode_bad1 _ _ _ hl h1, decode_bad1 _ _ _ hl h1]
  by_cases hb2 : b.val < 0xE0
  · simp only [List.cons_append]
    rw [decode_two _ _ _ hl hb2 h1, decode_two _ _ _ hl hb2 h1]
  rcases x2 with _ | ⟨b2, x3⟩
  · have e := decode_short2 b b1 hl (by omega)
    rw [e]; exact hy2 b b1 hl (by omega) h1 (by rw [e])
  by_cases h2 : IsCont b2
  swap
  · simp only [List.cons_append]
    rw [decode_bad2 _ _ _ _ hl (by omega) h2, decode_bad2 _ _ _ _ hl (by omega) h2]
  by_cases hb3 : b.val < 0xF0
  · simp only [List.cons_append]
    rw [decode_three _ _ _ _ hl (by omega) hb3 h1 h2, decode_three _ _ _ _ hl (by omega) hb3 h1 h2]
  rcases x3 with _ | ⟨b3, x4⟩
  · have e := decode_short3 b b1 b2 hl (by omega)
    rw [e]; exact hy3 b b1 b2 hl (by omega) (by rw [e])
  by_cases h3 : IsCont b3
  · simp only [List.cons_append]
    rw [decode_four _ _ _ _ _ hl (by omega) h1 h2 h3, decode_four _ _ _ _ _ hl (by omega) h1 h2 h3]
  · simp only [List.cons_append]
    rw [decode_bad3 _ _ _ _ _ hl (by omega) h3, decode_bad3 _ _ _ _ _ hl (by omega) h3]

/-- The results of the decoder, by the bytes it reads. -/
theorem decode_cases (s : GoString) :
    (s = [] ∧ DecodeRuneInString s = (RuneError, 0)) ∨
    (∃ b rest, s = b :: rest ∧ b.val < 0x80 ∧ DecodeRuneInString s = (b.val, 1)) ∨
    (∃ b rest, s = b :: rest ∧ 0x80 ≤ b.val ∧ DecodeRuneInString s = (RuneError, 1)) ∨
    (∃ b b1 rest, s = b :: b1 :: rest ∧ IsLead b ∧ b.val < 0xE0 ∧ IsSecond b b1 ∧
      DecodeRuneInString s = ((b.val % 32) * 64 + b1.val % 64, 2)) ∨
    (∃ b b1 b2 rest, s = b :: b1 :: b2 :: rest ∧ IsLead b ∧ 0xE0 ≤ b.val ∧ b.val < 0xF0 ∧
      IsSecond b b1 ∧ IsCont b2 ∧
      DecodeRuneInString s = ((b.val % 16) * 4096 + (b1.val % 64) * 64 + b2.val % 64, 3)) ∨
    (∃ b b1 b2 b3 rest, s = b :: b1 :: b2 :: b3 :: rest ∧ IsLead b ∧ 0xF0 ≤ b.val ∧
      IsSecond b b1 ∧ IsCont b2 ∧ IsCont b3 ∧
      DecodeRuneInString s =
        ((b.val % 8) * 262144 + (b1.val % 64) * 4096 + (b2.val % 64) * 64 + b3.val % 64, 4)) := by
  rcases s with _ | ⟨b, x1⟩
  · exact Or.inl ⟨rfl, decode_nil⟩
  by_cases ha : b.val < 0x80
  · exact Or.inr (Or.inl ⟨b, x1, rfl, ha, decode_ascii _ _ ha⟩)
  by_cases hl : IsLead b
  swap
  · exact Or.inr (Or.inr (Or.inl ⟨_, _, rfl, by omega, decode_badLead _ _ (by omega) hl⟩))
  rcases x1 with _ | ⟨b1, x2⟩
  · exact Or.inr (Or.inr (Or.inl ⟨_, _, rfl, by omega, decode_short1 b hl⟩))
  by_cases h1 : IsSecond b b1
  swap
  · exact Or.inr (Or.inr (Or.inl ⟨_, _, rfl, by omega, decode_bad1 _ _ _ hl h1⟩))
  by_cases hb2 : b.val < 0xE0
  · exact Or.inr (Or.inr (Or.inr (Or.inl
      ⟨b, b1, x2, rfl, hl, hb2, h1, decode_two _ _ _ hl hb2 h1⟩)))
  rcases x2 with _ | ⟨b2, x3⟩
  · exact Or.inr (Or.inr (Or.inl ⟨_, _, rfl, by omega, decode_short2 b b1 hl (by omega)⟩))
  by_cases h2 : IsCont b2
  swap
  · exact Or.inr (Or.inr (Or.inl ⟨_, _, rfl, by omega, decode_bad2 _ _ _ _ hl (by omega) h2⟩))
  by_cases hb3 : b.val < 0xF0
  · exact Or.inr (Or.inr (Or.inr (Or.inr (Or.inl
      ⟨b, b1, b2, x3, rfl, hl, by omega, hb3, h1, h2,
        decode_three _ _ _ _ hl (by omega) hb3 h1 h2⟩))))
  rcases x3 with _ | ⟨b3, x4⟩
  · exact Or.inr (Or.inr (Or.inl ⟨_, _, rfl, by omega, decode_short3 b b1 b2 hl (by omega)⟩))
  by_cases h3 : IsCont b3
  · exact Or.inr (Or.inr (Or.inr (Or.inr (Or.inr
      ⟨b, b1, b2, b3, x4, rfl, hl, by omega, h1, h2, h3,
        decode_four _ _ _ _ _ hl (by omega) h1 h2 h3⟩))))
  · exact Or.inr (Or.inr (Or.inl ⟨_, _, rfl, by omega, decode_bad3 _ _ _ _ _ hl (by omega) h3⟩))

theorem decode_width_pos (b : Byte) (rest : GoString) :
    1 ≤ (DecodeRuneInString (b :: rest)).2 := by
  rcases decode_cases (b :: rest) with ⟨h, _⟩ | ⟨_, _, _, _, e⟩ | ⟨_, _, _, _, e⟩ |
    ⟨_, _, _, _, _, _, _, e⟩ | ⟨_, _, _, _, _, _, _, _, _, _, e⟩ |
    ⟨_, _, _, _, _, _, _, _, _, _, _, e⟩
  · exact absurd h (by simp)
  all_goals simp [e]

theorem decode_width_le (s : GoString) : (DecodeRuneInString s).2 ≤ s.length := by
  rcases decode_cases s with ⟨_, e⟩ | ⟨_, _, rfl, _, e⟩ | ⟨_, _, rfl, _, e⟩ |
    ⟨_, _, _, rfl, _, _, _, e⟩ | ⟨_, _, _, _, rfl, _, _, _, _, _, e⟩ |
    ⟨_, _, _, _, _, rfl, _, _, _, _, _, e⟩
  all_goals simp [e]

/-- A rune decoded from a first byte from `0x80` on is itself from `0x80` on, and so
are all the bytes it is decoded from. -/
theorem decode_high (b : Byte) (rest : GoString) (h : 0x80 ≤ b.val) :
    0x80 ≤ (DecodeRuneInString (b :: rest)).1 ∧
      ∀ c ∈ (b :: rest).take (DecodeRuneInString (b :: rest)).2, 0x80 ≤ c.val := by
  rcases decode_cases (b :: rest) with ⟨h0, _⟩ | ⟨_, _, h0, _, e⟩ | ⟨_, _, h0, _, e⟩ |
    ⟨_, _, _, h0, hl, _, h1, e⟩ | ⟨_, _, _, _, h0, hl, _, _, h1, h2, e⟩ |
    ⟨_, _, _, _, _, h0, hl, _, h1, h2, h3, e⟩
  · exact absurd h0 (by simp)
  all_goals
    simp only [List.cons.injEq] at h0
    obtain ⟨rfl, rfl⟩ := h0
    rw [e]
  · omega
  · exact ⟨by simp [RuneError], by simpa using h⟩
  · have := h1.isCont
    unfold IsLead IsCont at *
    refine ⟨by dsimp only; omega, fun c hc => ?_⟩
    simp at hc
    rcases hc with rfl | rfl <;> omega
  · have := h1.isCont
    have := acceptRange_bounds b.val
    unfold IsLead IsCont IsSecond at *
    refine ⟨by dsimp only; omega, fun c hc => ?_⟩
    simp at hc
    rcases hc with rfl | rfl | rfl <;> omega
  · have := h1.isCont
    have := acceptRange_bounds b.val
    unfold IsLead IsCont IsSecond at *
    refine ⟨by dsimp only; omega, fun c hc => ?_⟩
    simp at hc
    rcases hc with rfl | rfl | rfl | rfl <;> omega

/-- A rune that is no error does not start with a continuation byte. -/
theorem decode_first (b : Byte) (rest : GoString)
    (h : (DecodeRuneInString (b :: rest)).1 ≠ RuneError) : ¬ IsCont b := by
  rcases decode_cases (b :: rest) with ⟨h0, _⟩ | ⟨_, _, h0, _, e⟩ | ⟨_, _, h0, _, e⟩ |
    ⟨_, _, _, h0, hl, _, h1, e⟩ | ⟨_, _, _, _, h0, hl, _, _, h1, h2, e⟩ |
    ⟨_, _, _, _, _, h0, hl, _, h1, h2, h3, e⟩
  · exact absurd h0 (by simp)
  all_goals
    simp only [List.cons.injEq] at h0
    obtain ⟨rfl, rfl⟩ := h0
    try unfold IsLead at hl
    unfold IsCont
    first | omega | (rw [e] at h; exact absurd rfl h)


/-! ## Runes of a string -/

theorem tokensAux_drop (k : Nat) (s : GoString) : tokensAux k s = tokensAux 0 (s.drop k) := by
  induction s generalizing k with
  | nil => simp [tokensAux]
  | cons b rest ih =>
    cases k with
    | zero => simp
    | succ k => simp only [tokensAux, List.drop_succ_cons]; exact ih k

theorem tokens_nil : tokens [] = [] := rfl

/-- The loop over the runes of a non-empty string: decode one rune, go on after
its bytes. -/
theorem tokens_cons (b : Byte) (rest : GoString) :
    tokens (b :: rest) =
      ((DecodeRuneInString (b :: rest)).1, (b :: rest).take (DecodeRuneInString (b :: rest)).2) ::
        tokens ((b :: rest).drop (DecodeRuneInString (b :: rest)).2) := by
  have h := decode_width_pos b rest
  obtain ⟨k, hk⟩ : ∃ k, (DecodeRuneInString (b :: rest)).2 = k + 1 := ⟨_, (Nat.sub_add_cancel h).symm⟩
  simp only [tokens, tokensAux]
  rw [tokensAux_drop, hk]
  simp

theorem drop_decode_length_lt (b : Byte) (rest : GoString) :
    ((b :: rest).drop (DecodeRuneInString (b :: rest)).2).length < (b :: rest).length := by
  have h := decode_width_pos b rest
  simp only [List.length_drop, List.length_cons]
  omega

theorem tokens_ascii_cons (b : Byte) (rest : GoString) (h : b.val < 0x80) :
    tokens (b :: rest) = (b.val, [b]) :: tokens rest := by
  rw [tokens_cons, decode_ascii b rest h]; simp

/-- The bytes of the runes of `s`, put together, are `s`. -/
theorem tokens_bytes (s : GoString) : (tokens s).flatMap Prod.snd = s := by
  generalize h : s.length = n
  induction n using Nat.strong_induction_on generalizing s with
  | _ n ih =>
    rcases s with _ | ⟨b, rest⟩
    · rfl
    · rw [tokens_cons, List.flatMap_cons]
      rw [ih _ (by rw [← h]; exact drop_decode_length_lt b rest) _ rfl]
      exact List.take_append_drop _ _

/-- The runes of an ASCII string are its bytes. -/
theorem tokens_of_ascii (s : GoString) (h : ∀ b ∈ s, b.val < 0x80) :
    tokens s = s.map (fun b => (b.val, [b])) := by
  induction s with
  | nil => rfl
  | cons b rest ih =>
    rw [tokens_ascii_cons b rest (h b (by simp)), ih (fun c hc => h c (by simp [hc]))]
    rfl

theorem runes_of_ascii (s : GoString) (h : ∀ b ∈ s, b.val < 0x80) :
    runes s = s.map (fun b => b.val) := by
  simp [runes, tokens_of_ascii s h]

/-- A string whose runes are all ASCII is ASCII. -/
theorem ascii_of_runes (s : GoString) (h : ∀ r ∈ runes s, r < 0x80) : ∀ b ∈ s, b.val < 0x80 := by
  generalize hn : s.length = n
  induction n using Nat.strong_induction_on generalizing s with
  | _ n ih =>
    rcases s with _ | ⟨b, rest⟩
    · simp
    · by_cases hb : b.val < 0x80
      · rw [runes, tokens_ascii_cons b rest hb] at h
        have := ih rest.length (by rw [← hn]; simp) rest
          (fun r hr => h r (by simp only [List.map_cons, List.mem_cons]; right; exact hr)) rfl
        intro c hc
        rcases List.mem_cons.1 hc with rfl | hc
        · exact hb
        · exact this c hc
      · have h1 := (decode_high b rest (by omega)).1
        have h2 := h (DecodeRuneInString (b :: rest)).1 (by rw [runes, tokens_cons]; simp)
        omega

/-- The runes of `s` are the ASCII runes `w` exactly when the bytes of `s` are. -/
theorem runes_eq_ascii (s : GoString) (w : List Nat) (hw : ∀ r ∈ w, r < 0x80) :
    runes s = w ↔ s.map (fun b => b.val) = w := by
  constructor
  · intro h
    rw [← h, runes_of_ascii s (ascii_of_runes s (by rw [h]; exact hw))]
  · intro h
    rw [← h, runes_of_ascii s]
    intro b hb
    exact hw _ (by rw [← h]; exact List.mem_map_of_mem _ hb)

/-- The runes of `x ++ y` are those of `x`, then those of `y`, when `y` does not
start with a continuation byte. -/
theorem tokens_append (x y : GoString) (h : ∀ c ∈ y.head?, ¬ IsCont c) :
    tokens (x ++ y) = tokens x ++ tokens y := by
  generalize hn : x.length = n
  induction n using Nat.strong_induction_on generalizing x with
  | _ n ih =>
    rcases x with _ | ⟨b, rest⟩
    · rfl
    · have e := decode_append (b :: rest) y (by simp) (Or.inr h)
      have hle := decode_width_le (b :: rest)
      rw [List.cons_append, tokens_cons, ← List.cons_append, e, tokens_cons,
        List.take_append_of_le_length hle, List.drop_append_of_le_length hle,
        ih _ (by rw [← hn]; exact drop_decode_length_lt b rest) _ rfl]
      rfl

/-- A run of runes without an error at the start of `y` is still there when
`q` is appended. -/
theorem runes_append_stable (w : List Nat) (hw : ∀ r ∈ w, r ≠ RuneError) (y q : GoString)
    (rest : List Nat) (h : runes y = w ++ rest) : ∃ rest1, runes (y ++ q) = w ++ rest1 := by
  induction w generalizing y with
  | nil => exact ⟨_, rfl⟩
  | cons r w ih =>
    rcases y with _ | ⟨b, y1⟩
    · simp [runes, tokens_nil] at h
    · rw [runes, tokens_cons] at h
      simp only [List.map_cons, List.cons_append, List.cons.injEq] at h
      obtain ⟨h1, h2⟩ := h
      have hr : (DecodeRuneInString (b :: y1)).1 ≠ RuneError := by
        rw [h1]; exact hw r (by simp)
      have e := decode_append (b :: y1) q (by simp) (Or.inl hr)
      have hle := decode_width_le (b :: y1)
      obtain ⟨rest1, h3⟩ := ih (fun r hr => hw r (by simp [hr])) _ h2
      refine ⟨rest1, ?_⟩
      rw [List.cons_append, runes, tokens_cons, ← List.cons_append, e, List.map_cons, h1,
        List.drop_append_of_le_length hle]
      rw [runes] at h3
      rw [h3]; rfl

/-- The runes after a given position are the runes of a suffix of the string. -/
theorem runes_split (a w : List Nat) (s : GoString) (h : runes s = a ++ w) :
    ∃ x y, s = x ++ y ∧ runes y = w := by
  induction a generalizing s with
  | nil => exact ⟨[], s, rfl, h⟩
  | cons r a ih =>
    rcases s with _ | ⟨b, s1⟩
    · simp [runes, tokens_nil] at h
    · rw [runes, tokens_cons] at h
      simp only [List.map_cons, List.cons_append, List.cons.injEq] at h
      obtain ⟨x, y, h1, h2⟩ := ih _ h.2
      refine ⟨(b :: s1).take (DecodeRuneInString (b :: s1)).2 ++ x, y, ?_, h2⟩
      rw [List.append_assoc, ← h1, List.take_append_drop]


/-! ## The matcher and the language of an expression -/

theorem mem_starEnds_sound (f : List Nat → List (List Nat)) (P : List Nat → Prop)
    (hf : ∀ t u, u ∈ f t → ∃ w, P w ∧ t = w ++ u) (fuel : Nat) (t u : List Nat)
    (h : u ∈ starEnds f fuel t) :
    ∃ ws : List (List Nat), (∀ x ∈ ws, P x) ∧ t = ws.flatten ++ u := by
  induction fuel generalizing t with
  | zero =>
    simp only [starEnds, List.mem_singleton] at h
    exact ⟨[], by simp, by simp [h]⟩
  | succ fuel ih =>
    simp only [starEnds, List.mem_append, List.mem_flatMap, List.mem_filter,
      List.mem_singleton] at h
    rcases h with ⟨v, ⟨hv, _⟩, hu⟩ | h
    · obtain ⟨w, hw, rfl⟩ := hf t v hv
      obtain ⟨ws, hws, rfl⟩ := ih v hu
      refine ⟨w :: ws, ?_, by simp⟩
      intro x hx
      rcases List.mem_cons.1 hx with rfl | hx
      · exact hw
      · exact hws x hx
    · exact ⟨[], by simp, by simp [h]⟩

theorem mem_starEnds_self (f : List Nat → List (List Nat)) (fuel : Nat) (t : List Nat) :
    t ∈ starEnds f fuel t := by
  cases fuel <;> simp [starEnds]

theorem mem_starEnds_complete (f : List Nat → List (List Nat)) (P : List Nat → Prop)
    (hf : ∀ t u w, P w → t = w ++ u → u ∈ f t) (ws : List (List Nat)) (hws : ∀ x ∈ ws, P x)
    (u : List Nat) (fuel : Nat) (hfuel : (ws.flatten ++ u).length ≤ fuel) :
    u ∈ starEnds f fuel (ws.flatten ++ u) := by
  induction ws generalizing fuel with
  | nil => simpa using mem_starEnds_self f fuel u
  | cons x ws ih =>
    have hx := hws x (by simp)
    have hws1 : ∀ y ∈ ws, P y := fun y hy => hws y (by simp [hy])
    rcases x with _ | ⟨r, x⟩
    · simpa using ih hws1 fuel (by simpa using hfuel)
    · cases fuel with
      | zero => simp at hfuel
      | succ fuel =>
        simp only [starEnds, List.mem_append, List.mem_flatMap, List.mem_filter]
        left
        refine ⟨ws.flatten ++ u, ⟨hf _ _ _ hx (by simp), by simp; omega⟩, ?_⟩
        apply ih hws1
        simp only [List.flatten_cons, List.cons_append, List.length_cons, List.append_assoc,
          List.length_append] at hfuel ⊢
        omega

/-- What the matcher returns for an expression without anchors: the text with a
word of the language taken off its front. -/
theorem mem_ends_iff (n : Nat) (re : Regex) (h : anchorFree re = true) (t u : List Nat) :
    u ∈ re.ends n t ↔ ∃ w, Lang re w ∧ t = w ++ u := by
  induction re generalizing t u with
  | empty => simp [Regex.ends, Lang, eq_comm]
  | cls fold neg ranges =>
    rcases t with _ | ⟨r, t1⟩
    · simp only [Regex.ends, Lang, List.not_mem_nil, false_iff]
      rintro ⟨w, ⟨r, rfl, _⟩, hw⟩
      simp at hw
    · simp only [Regex.ends, Lang]
      constructor
      · intro hu
        split at hu
        · rename_i hc
          exact ⟨[r], ⟨r, rfl, hc⟩, by simp at hu; simp [hu]⟩
        · simp at hu
      · rintro ⟨w, ⟨r1, rfl, hc⟩, hw⟩
        simp only [List.singleton_append, List.cons.injEq] at hw
        obtain ⟨rfl, rfl⟩ := hw
        simp [hc]
  | cat a b iha ihb =>
    simp only [anchorFree, Bool.and_eq_true] at h
    simp only [Regex.ends, List.mem_flatMap, Lang]
    constructor
    · rintro ⟨v, hv, hu⟩
      obtain ⟨w1, h1, rfl⟩ := (iha h.1 _ _).1 hv
      obtain ⟨w2, h2, rfl⟩ := (ihb h.2 _ _).1 hu
      exact ⟨w1 ++ w2, ⟨w1, w2, rfl, h1, h2⟩, by simp⟩
    · rintro ⟨w, ⟨w1, w2, rfl, h1, h2⟩, rfl⟩
      exact ⟨w2 ++ u, (iha h.1 _ _).2 ⟨w1, h1, by simp⟩, (ihb h.2 _ _).2 ⟨w2, h2, rfl⟩⟩
  | alt a b iha ihb =>
    simp only [anchorFree, Bool.and_eq_true] at h
    simp only [Regex.ends, List.mem_append, Lang, iha h.1, ihb h.2]
    constructor
    · rintro (⟨w, h1, h2⟩ | ⟨w, h1, h2⟩)
      · exact ⟨w, Or.inl h1, h2⟩
      · exact ⟨w, Or.inr h1, h2⟩
    · rintro ⟨w, h1 | h1, h2⟩
      · exact Or.inl ⟨w, h1, h2⟩
      · exact Or.inr ⟨w, h1, h2⟩
  | star a iha =>
    simp only [anchorFree] at h
    simp only [Regex.ends, Lang]
    constructor
    · intro hu
      obtain ⟨ws, h1, h2⟩ := mem_starEnds_sound _ (Lang a) (fun t u hu => (iha h t u).1 hu) _ _ _ hu
      exact ⟨ws.flatten, ⟨ws, rfl, h1⟩, h2⟩
    · rintro ⟨w, ⟨ws, rfl, h1⟩, rfl⟩
      exact mem_starEnds_complete _ (Lang a) (fun t u w hw ht => (iha h t u).2 ⟨w, hw, ht⟩)
        ws h1 u _ (le_refl _)
  | bol => simp [anchorFree] at h
  | eol => simp [anchorFree] at h

/-- An anchored pattern matches when the whole text is in the language. -/
theorem MatchString_anchored (body : Regex) (h : anchorFree body = true) (s : GoString) :
    MatchString (.anchored body) s = true ↔ Lang body (runes s) := by
  simp only [MatchString, Regex.anchored, List.any_eq_true, List.mem_tails, Bool.not_eq_true',
    List.isEmpty_eq_false, ne_eq, ← List.length_pos, List.length_pos_iff_exists_mem]
  constructor
  · rintro ⟨t, ht, u, hu⟩
    simp only [Regex.ends, List.mem_flatMap] at hu
    obtain ⟨t1, ht1, u1, hu1, hu2⟩ := hu
    split at ht1
    · rename_i hlen
      simp only [List.mem_singleton] at ht1
      subst ht1
      have := ht.eq_of_length hlen
      subst this
      split at hu2
      · rename_i hu1len
        have : u1 = [] := List.length_eq_zero.1 hu1len
        subst this
        obtain ⟨w, hw, hw2⟩ := (mem_ends_iff _ body h _ _).1 hu1
        simpa [hw2] using hw
      · simp at hu2
    · simp at ht1
  · intro hl
    refine ⟨runes s, List.suffix_refl _, [], ?_⟩
    simp only [Regex.ends, List.mem_flatMap]
    refine ⟨runes s, by simp, [], (mem_ends_iff _ body h _ _).2 ⟨runes s, hl, by simp⟩, by simp⟩

/-- A pattern without anchors matches when some run of runes of the text is in
its language. -/
theorem MatchString_free (re : Regex) (h : anchorFree re = true) (s : GoString) :
    MatchString re s = true ↔ ∃ a w b, runes s = a ++ (w ++ b) ∧ Lang re w := by
  simp only [MatchString, List.any_eq_true, List.mem_tails, Bool.not_eq_true',
    List.isEmpty_eq_false, ne_eq, ← List.length_pos, List.length_pos_iff_exists_mem]
  constructor
  · rintro ⟨t, ⟨a, ha⟩, u, hu⟩
    obtain ⟨w, hw, rfl⟩ := (mem_ends_iff _ re h _ _).1 hu
    exact ⟨a, w, u, ha.symm, hw⟩
  · rintro ⟨a, w, b, hs, hw⟩
    exact ⟨w ++ b, ⟨a, hs.symm⟩, b, (mem_ends_iff _ re h _ _).2 ⟨w, hw, rfl⟩⟩


/-! ## Languages of repeated classes -/

theorem Lang_cls (fold neg : Bool) (ranges : List (Nat × Nat)) (w : List Nat) :
    Lang (.cls fold neg ranges) w ↔ ∃ r, w = [r] ∧ classMem fold neg ranges r = true := by
  simp [Lang]

theorem Lang_star_cls (fold neg : Bool) (ranges : List (Nat × Nat)) (w : List Nat) :
    Lang (.star (.cls fold neg ranges)) w ↔ ∀ r ∈ w, classMem fold neg ranges r = true := by
  simp only [Lang]
  constructor
  · rintro ⟨ws, rfl, h⟩ r hr
    obtain ⟨x, hx, hrx⟩ := List.mem_flatten.1 hr
    obtain ⟨r1, rfl, hc⟩ := h x hx
    simp only [List.mem_singleton] at hrx
    subst hrx
    exact hc
  · intro h
    refine ⟨w.map (fun r => [r]), ?_, ?_⟩
    · induction w with
      | nil => rfl
      | cons r w ih => simp [← ih (fun r hr => h r (by simp [hr]))]
    · intro x hx
      obtain ⟨r, hr, rfl⟩ := List.mem_map.1 hx
      exact ⟨r, rfl, h r hr⟩

theorem Lang_plus_cls (fold neg : Bool) (ranges : List (Nat × Nat)) (w : List Nat) :
    Lang (.plus (.cls fold neg ranges)) w ↔
      w ≠ [] ∧ ∀ r ∈ w, classMem fold neg ranges r = true := by
  rw [Regex.plus]
  simp only [Lang.eq_3, Lang_star_cls, Lang_cls]
  constructor
  · rintro ⟨u, v, rfl, ⟨r, rfl, hr⟩, hv⟩
    refine ⟨by simp, ?_⟩
    intro x hx
    simp only [List.singleton_append, List.mem_cons] at hx
    rcases hx with rfl | hx
    · exact hr
    · exact hv x hx
  · rintro ⟨hne, h⟩
    rcases w with _ | ⟨r, w⟩
    · exact absurd rfl hne
    · exact ⟨[r], w, rfl, ⟨r, rfl, h r (by simp)⟩, fun x hx => h x (by simp [hx])⟩

/-! ## Deleting the matches of a repeated class -/

/-- Replacing every match of `[class]+` by the empty string keeps the bytes of
`keep`, when a rune of the class has no byte to keep and any other rune has
only bytes to keep. -/
theorem replaceAux_delete (fold neg : Bool) (ranges : List (Nat × Nat)) (keep : Byte → Bool)
    (n : Nat) (ts : List (Nat × GoString))
    (hgood : ∀ tok ∈ ts, (classMem fold neg ranges tok.1 = true → tok.2.filter keep = []) ∧
      (classMem fold neg ranges tok.1 = false → tok.2.filter keep = tok.2))
    (k : Nat) (flag : Bool) (hk : ∀ tok ∈ ts.take k, classMem fold neg ranges tok.1 = true) :
    replaceAux (.plus (.cls fold neg ranges)) n [] k flag ts = (ts.flatMap Prod.snd).filter keep := by
  have hfree : anchorFree (.plus (.cls fold neg ranges)) = true := rfl
  induction ts generalizing k flag with
  | nil => cases k <;> simp [replaceAux]
  | cons tok ts ih =>
    have hgood1 : ∀ tok ∈ ts, (classMem fold neg ranges tok.1 = true → tok.2.filter keep = []) ∧
        (classMem fold neg ranges tok.1 = false → tok.2.filter keep = tok.2) :=
      fun x hx => hgood x (by simp [hx])
    cases k with
    | succ k =>
      have h1 := hk tok (by simp)
      rw [replaceAux, ih hgood1 k true (fun x hx => hk x (by simp [hx]))]
      simp [(hgood tok (by simp)).1 h1]
    | zero =>
      rw [replaceAux]
      split
      · rename_i hnone
        have hemp : (Regex.plus (.cls fold neg ranges)).ends n ((tok :: ts).map Prod.fst) = [] := by
          simpa using hnone
        have hc : classMem fold neg ranges tok.1 = false := by
          by_contra hc
          have hc : classMem fold neg ranges tok.1 = true := by simpa using hc
          have : ts.map Prod.fst ∈
              (Regex.plus (.cls fold neg ranges)).ends n ((tok :: ts).map Prod.fst) :=
            (mem_ends_iff n _ hfree _ _).2
              ⟨[tok.1], (Lang_plus_cls _ _ _ _).2 ⟨by simp, by simpa using hc⟩, by simp⟩
          rw [hemp] at this
          simp at this
        rw [ih hgood1 0 false (by simp)]
        simp [(hgood tok (by simp)).2 hc]
      · rename_i u hsome
        have hu : u ∈ (Regex.plus (.cls fold neg ranges)).ends n ((tok :: ts).map Prod.fst) :=
          List.mem_of_mem_head? hsome
        obtain ⟨w, hw, hwu⟩ := (mem_ends_iff n _ hfree _ _).1 hu
        obtain ⟨hne, hall⟩ := (Lang_plus_cls _ _ _ _).1 hw
        rcases w with _ | ⟨r, w⟩
        · exact absurd rfl hne
        simp only [List.map_cons, List.cons_append, List.cons.injEq] at hwu
        obtain ⟨rfl, hts⟩ := hwu
        have hlen : ts.length = w.length + u.length := by
          rw [← List.length_map ts Prod.fst, hts, List.length_append]
        have hcnt : ts.length + 1 - u.length = w.length + 1 := by omega
        simp only [hcnt, Nat.add_one_ne_zero, if_false, Nat.add_sub_cancel, List.nil_append]
        rw [ih hgood1 w.length true]
        · simp [(hgood tok (by simp)).1 (hall _ (by simp))]
        · intro x hx
          have : x.1 ∈ w := by
            have h2 : (ts.take w.length).map Prod.fst = w := by
              rw [List.map_take, hts, List.take_left']
              rfl
            rw [← h2]
            exact List.mem_map_of_mem _ hx
          exact hall _ (by simp [this])

/-- A rune of a string is an ASCII byte, or it is from `0x80` on and so are its
bytes. -/
theorem tokens_shape (s : GoString) :
    ∀ tok ∈ tokens s, (∃ b : Byte, b.val < 0x80 ∧ tok = (b.val, [b])) ∨
      (0x80 ≤ tok.1 ∧ ∀ c ∈ tok.2, 0x80 ≤ c.val) := by
  generalize hn : s.length = n
  induction n using Nat.strong_induction_on generalizing s with
  | _ n ih =>
    rcases s with _ | ⟨b, rest⟩
    · simp [tokens_nil]
    · intro tok htok
      rw [tokens_cons] at htok
      rcases List.mem_cons.1 htok with rfl | htok
      · by_cases hb : b.val < 0x80
        · left
          refine ⟨b, hb, ?_⟩
          rw [decode_ascii b rest hb]; simp
        · right
          exact decode_high b rest (by omega)
      · exact ih _ (by rw [← hn]; exact drop_decode_length_lt b rest) _ rfl tok htok

/-- The sanitizer of the ISBN predicates deletes the hyphens and the ASCII
whitespace characters, and nothing else. -/
theorem sanitizeISBN_eq (s : GoString) : ReplaceAllString sanitizeISBN s [] = strip s := by
  unfold ReplaceAllString sanitizeISBN strip
  dsimp only
  rw [replaceAux_delete false false _ (fun b => !isSeparator b) _ _ _ 0 false (by simp),
    tokens_bytes]
  intro tok htok
  rcases tokens_shape s tok htok with ⟨b, hb, rfl⟩ | ⟨h1, h2⟩
  · have : classMem false false [(0x09, 0x0A), (0x0C, 0x0D), (0x20, 0x20), (0x2D, 0x2D)] b.val
        = isSeparator b := by
      rw [Bool.eq_iff_iff]
      simp [classMem, inRanges, isSeparator]
      omega
    rw [this]
    constructor
    · intro h; simp [h]
    · intro h; simp [h]
  · constructor
    · intro h
      simp [classMem, inRanges] at h
      omega
    · intro _
      rw [List.filter_eq_self]
      intro c hc
      have := h2 c hc
      simp only [isSeparator, Bool.not_eq_true', Bool.or_eq_false_iff, decide_eq_false_iff_not]
      omega


/-! ## Patterns over ASCII classes -/

theorem Lang_ascii (re : Regex) (h : ClassesAscii re) (w : List Nat) (hw : Lang re w) :
    ∀ r ∈ w, r < 0x80 := by
  induction re generalizing w with
  | empty => simp only [Lang] at hw; simp [hw]
  | cls fold neg ranges =>
    obtain ⟨r, rfl, hr⟩ := hw
    intro x hx
    simp only [List.mem_singleton] at hx
    subst hx
    exact h _ hr
  | cat a b iha ihb =>
    obtain ⟨u, v, rfl, hu, hv⟩ := hw
    intro x hx
    rcases List.mem_append.1 hx with hx | hx
    · exact iha h.1 u hu x hx
    · exact ihb h.2 v hv x hx
  | alt a b iha ihb =>
    rcases hw with hw | hw
    · exact iha h.1 w hw
    · exact ihb h.2 w hw
  | star a iha =>
    obtain ⟨ws, rfl, hws⟩ := hw
    intro x hx
    obtain ⟨y, hy, hxy⟩ := List.mem_flatten.1 hx
    exact iha h y (hws y hy) x hxy
  | bol => exact absurd hw (by simp [Lang])
  | eol => exact absurd hw (by simp [Lang])

/-- An anchored pattern over ASCII classes matches when the bytes of the text are
in the language. -/
theorem MatchString_anchored_ascii (body : Regex) (h : anchorFree body = true)
    (ha : ClassesAscii body) (s : GoString) :
    MatchString (.anchored body) s = true ↔ Lang body (s.map (fun b => b.val)) := by
  rw [MatchString_anchored body h]
  constructor
  · intro hl
    rw [(runes_eq_ascii s _ (Lang_ascii body ha _ hl)).1 rfl]
    exact hl
  · intro hl
    rw [(runes_eq_ascii s _ (Lang_ascii body ha _ hl)).2 rfl]
    exact hl

/-- The language of a sequence of classes: one rune of each class, in order. -/
theorem Lang_of_shape (re : Regex) (cs : List (Nat → Bool)) (h : shape re = some cs)
    (w : List Nat) : Lang re w ↔ List.Forall₂ (fun c r => c r = true) cs w := by
  induction re generalizing cs w with
  | empty =>
    simp only [shape, Option.some.injEq] at h
    subst h
    simp [Lang]
  | cls fold neg ranges =>
    simp only [shape, Option.some.injEq] at h
    subst h
    simp only [Lang, List.forall₂_cons_left_iff, List.forall₂_nil_left_iff]
    constructor
    · rintro ⟨r, rfl, hr⟩
      exact ⟨r, [], hr, rfl, rfl⟩
    · rintro ⟨r, u, hr, rfl, rfl⟩
      exact ⟨r, rfl, hr⟩
  | cat a b iha ihb =>
    simp only [shape] at h
    split at h
    · rename_i x y hx hy
      simp only [Option.some.injEq] at h
      subst h
      simp only [Lang, iha x hx, ihb y hy]
      constructor
      · rintro ⟨u, v, rfl, hu, hv⟩
        exact List.rel_append hu hv
      · intro hf
        refine ⟨w.take x.length, w.drop x.length, (List.take_append_drop _ _).symm, ?_, ?_⟩
        · simpa using List.forall₂_take x.length hf
        · simpa using List.forall₂_drop x.length hf
    · simp at h
  | alt a b _ _ => simp [shape] at h
  | star a _ => simp [shape] at h
  | bol => simp [shape] at h
  | eol => simp [shape] at h


/-- An anchored sequence of ASCII classes matches the strings that have one
byte of each class, in order. -/
theorem MatchString_shape (body : Regex) (cs : List (Nat → Bool)) (h : shape body = some cs)
    (hf : anchorFree body = true) (ha : ClassesAscii body) (s : GoString) :
    MatchString (.anchored body) s = true ↔ List.Forall₂ (fun c b => c b.val = true) cs s := by
  rw [MatchString_anchored_ascii body hf ha, Lang_of_shape body cs h,
    List.forall₂_map_right_iff]


theorem any_simpleFoldOrbit (p : Nat → Bool) (r : Nat) :
    (simpleFoldOrbit r).any p = true ↔
      p r = true ∨ (0x41 ≤ r ∧ r ≤ 0x5A ∧ p (r + 32) = true) ∨
        (0x61 ≤ r ∧ r ≤ 0x7A ∧ p (r - 32) = true) ∨
        (r = 0x212A ∧ (p 0x4B = true ∨ p 0x6B = true)) ∨
        ((r = 0x4B ∨ r = 0x6B) ∧ p 0x212A = true) ∨
        (r = 0x17F ∧ (p 0x53 = true ∨ p 0x73 = true)) ∨
        ((r = 0x53 ∨ r = 0x73) ∧ p 0x17F = true) := by
  unfold simpleFoldOrbit
  split_ifs with h1 h2 h3 h4
  · rcases h1 with rfl | rfl | rfl <;> simp <;> tauto
  · rcases h2 with rfl | rfl | rfl <;> simp <;> tauto
  · simp only [List.any_cons, List.any_nil, Bool.or_false, Bool.or_eq_true]
    constructor
    · rintro (h | h)
      · exact Or.inl h
      · exact Or.inr (Or.inl ⟨h3.1, h3.2, h⟩)
    · rintro (h | ⟨_, _, h⟩ | ⟨_, _, h⟩ | ⟨h, _⟩ | ⟨h, _⟩ | ⟨h, _⟩ | ⟨h, _⟩)
      · exact Or.inl h
      · exact Or.inr h
      all_goals omega
  · simp only [List.any_cons, List.any_nil, Bool.or_false, Bool.or_eq_true]
    constructor
    · rintro (h | h)
      · exact Or.inl h
      · exact Or.inr (Or.inr (Or.inl ⟨h4.1, h4.2, h⟩))
    · rintro (h | ⟨_, _, h⟩ | ⟨_, _, h⟩ | ⟨h, _⟩ | ⟨h, _⟩ | ⟨h, _⟩ | ⟨h, _⟩)
      · exact Or.inl h
      · omega
      · exact Or.inr h
      all_goals omega
  · simp only [List.any_cons, List.any_nil, Bool.or_false]
    constructor
    · exact Or.inl
    · rintro (h | ⟨_, _, h⟩ | ⟨_, _, h⟩ | ⟨h, _⟩ | ⟨h, _⟩ | ⟨h, _⟩ | ⟨h, _⟩)
      · exact h
      all_goals omega

theorem inRanges_cons (p : Nat × Nat) (rs : List (Nat × Nat)) (r : Nat) :
    inRanges (p :: rs) r = true ↔ (p.1 ≤ r ∧ r ≤ p.2) ∨ inRanges rs r = true := by
  simp [inRanges]

theorem inRanges_nil (r : Nat) : inRanges [] r = true ↔ False := by
  simp [inRanges]

theorem classMem_plain (ranges : List (Nat × Nat)) (r : Nat) :
    classMem false false ranges r = true ↔ inRanges ranges r = true := by
  simp [classMem]

theorem classMem_fold (ranges : List (Nat × Nat)) (r : Nat) :
    classMem true false ranges r = true ↔ (simpleFoldOrbit r).any (inRanges ranges) = true := by
  simp [classMem]

theorem classMem_hexFold (r : Nat) :
    classMem true false [rng '0' '9', rng 'A' 'F'] r = true ↔
      (0x30 ≤ r ∧ r ≤ 0x39) ∨ (0x41 ≤ r ∧ r ≤ 0x46) ∨ (0x61 ≤ r ∧ r ≤ 0x66) := by
  simp only [classMem_fold, any_simpleFoldOrbit, inRanges_cons, inRanges_nil, rng]
  simp only [Char.reduceToNat, or_false]
  constructor <;> intro h <;> omega


theorem ClassesAscii_rep (a : Regex) (h : ClassesAscii a) (n : Nat) :
    ClassesAscii (.rep n a) := by
  induction n with
  | zero => simp [Regex.rep, ClassesAscii]
  | succ n ih => exact ⟨h, ih⟩

theorem ClassesAscii_seq (l : List Regex) (h : ∀ a ∈ l, ClassesAscii a) :
    ClassesAscii (.seq l) := by
  induction l with
  | nil => simp [Regex.seq, ClassesAscii]
  | cons a l ih => exact ⟨h a (by simp), ih (fun b hb => h b (by simp [hb]))⟩

theorem chars_89AB : chars "89AB" = [(0x38, 0x38), (0x39, 0x39), (0x41, 0x41), (0x42, 0x42)] := by
  decide

theorem classMem_variant (r : Nat) :
    classMem true false (chars "89AB") r = true ↔
      r = 0x38 ∨ r = 0x39 ∨ r = 0x41 ∨ r = 0x42 ∨ r = 0x61 ∨ r = 0x62 := by
  constructor
  · intro h
    simp only [chars_89AB, classMem_fold, any_simpleFoldOrbit, inRanges_cons, inRanges_nil,
      or_false] at h
    omega
  · intro h
    rcases h with rfl | rfl | rfl | rfl | rfl | rfl <;> decide

theorem classMem_litFold (c r : Nat) (hc : c < 0x41 ∨ (0x5A < c ∧ c < 0x61) ∨ (0x7A < c ∧ c < 0x80)) :
    classMem true false [(c, c)] r = true ↔ r = c := by
  simp only [classMem_fold, any_simpleFoldOrbit, inRanges_cons, inRanges_nil, or_false]
  constructor <;> intro h <;> omega

theorem ClassesAscii_hexFold : ClassesAscii hexFold := by
  intro r hr
  have := (classMem_hexFold r).1 hr
  omega

theorem ClassesAscii_litFold (c : Nat)
    (hc : c < 0x41 ∨ (0x5A < c ∧ c < 0x61) ∨ (0x7A < c ∧ c < 0x80)) :
    ClassesAscii (.lit true c) := by
  intro r hr
  have := (classMem_litFold c r hc).1 hr
  omega

/-- A list of classes given position by position. -/
theorem forall₂_map_range (n : Nat) (f : Nat → Nat → Bool) (s : GoString) :
    List.Forall₂ (fun c b => c b.val = true) ((List.range n).map f) s ↔
      s.length = n ∧ ∀ i (h : i < s.length), f i (s.get ⟨i, h⟩).val = true := by
  rw [List.forall₂_iff_get]
  simp only [List.length_map, List.length_range, List.get_eq_getElem, List.getElem_map,
    List.getElem_range]
  constructor
  · rintro ⟨h1, h2⟩
    exact ⟨h1.symm, fun i h => h2 i (by omega) h⟩
  · rintro ⟨h1, h2⟩
    exact ⟨h1.symm, fun i _ h => h2 i h⟩

/-- The class of `uuidv4` at each of its 36 positions. -/
theorem shape_uuidv4 :
    shape (.seq [.rep 8 hexFold, dashFold, .rep 4 hexFold, dashFold,
      .lit true 0x34, .rep 3 hexFold, dashFold,
      .cls true false (chars "89AB"), .rep 3 hexFold, dashFold, .rep 12 hexFold]) =
    some ((List.range 36).map (fun i =>
      if i = 8 ∨ i = 13 ∨ i = 18 ∨ i = 23 then classMem true false [(0x2D, 0x2D)]
      else if i = 14 then classMem true false [(0x34, 0x34)]
      else if i = 19 then classMem true false (chars "89AB")
      else classMem true false [rng '0' '9', rng 'A' 'F'])) := by
  rfl

theorem IsUUIDv4_iff_aux (s : GoString) :
    IsUUIDv4 s = true ↔
      s.length = 36 ∧ ∀ i (h : i < s.length),
        (if i = 8 ∨ i = 13 ∨ i = 18 ∨ i = 23 then classMem true false [(0x2D, 0x2D)]
          else if i = 14 then classMem true false [(0x34, 0x34)]
          else if i = 19 then classMem true false (chars "89AB")
          else classMem true false [rng '0' '9', rng 'A' 'F']) (s.get ⟨i, h⟩).val = true := by
  unfold IsUUIDv4 uuidv4
  rw [MatchString_shape _ _ shape_uuidv4 rfl, forall₂_map_range]
  apply ClassesAscii_seq
  simp only [List.mem_cons, List.mem_singleton, List.not_mem_nil, or_false, forall_eq_or_imp,
    forall_eq]
  have hd := ClassesAscii_litFold 0x2D (by omega)
  have hh := ClassesAscii_hexFold
  refine ⟨ClassesAscii_rep _ hh _, hd, ClassesAscii_rep _ hh _, hd,
    ClassesAscii_litFold 0x34 (by omega), ClassesAscii_rep _ hh _, hd, ?_,
    ClassesAscii_rep _ hh _, hd, ClassesAscii_rep _ hh _⟩
  intro r hr
  have := (classMem_variant r).1 hr
  omega


theorem isHexDigit_iff (b : Byte) :
    isHexDigit b = true ↔
      (0x30 ≤ b.val ∧ b.val ≤ 0x39) ∨ (0x41 ≤ b.val ∧ b.val ≤ 0x46) ∨
        (0x61 ≤ b.val ∧ b.val ≤ 0x66) := by
  simp only [isHexDigit, Bool.or_eq_true, Bool.and_eq_true, decide_eq_true_eq]
  constructor <;> intro h <;> omega


/-- The class of `uuidv3` at each of its 36 positions. -/
theorem shape_uuidv3 :
    shape (.seq [.rep 8 hexFold, dashFold, .rep 4 hexFold, dashFold,
      .lit true 0x33, .rep 3 hexFold, dashFold, .rep 4 hexFold, dashFold, .rep 12 hexFold]) =
    some ((List.range 36).map (fun i =>
      if i = 8 ∨ i = 13 ∨ i = 18 ∨ i = 23 then classMem true false [(0x2D, 0x2D)]
      else if i = 14 then classMem true false [(0x33, 0x33)]
      else classMem true false [rng '0' '9', rng 'A' 'F'])) := by
  rfl

theorem IsUUIDv3_iff_aux (s : GoString) :
    IsUUIDv3 s = true ↔
      s.length = 36 ∧ ∀ i (h : i < s.length),
        (if i = 8 ∨ i = 13 ∨ i = 18 ∨ i = 23 then classMem true false [(0x2D, 0x2D)]
          else if i = 14 then classMem true false [(0x33, 0x33)]
          else classMem true false [rng '0' '9', rng 'A' 'F']) (s.get ⟨i, h⟩).val = true := by
  unfold IsUUIDv3 uuidv3
  rw [MatchString_shape _ _ shape_uuidv3 rfl, forall₂_map_range]
  apply ClassesAscii_seq
  simp only [List.mem_cons, List.mem_singleton, List.not_mem_nil, or_false, forall_eq_or_imp,
    forall_eq]
  have hd := ClassesAscii_litFold 0x2D (by omega)
  have hh := ClassesAscii_hexFold
  exact ⟨ClassesAscii_rep _ hh _, hd, ClassesAscii_rep _ hh _, hd,
    ClassesAscii_litFold 0x33 (by omega), ClassesAscii_rep _ hh _, hd,
    ClassesAscii_rep _ hh _, hd, ClassesAscii_rep _ hh _⟩


theorem Lang_empty (w : List Nat) : Lang .empty w ↔ w = [] := by simp [Lang]

theorem Lang_cat (a b : Regex) (w : List Nat) :
    Lang (.cat a b) w ↔ ∃ u v, w = u ++ v ∧ Lang a u ∧ Lang b v := by simp [Lang]

theorem Lang_alt (a b : Regex) (w : List Nat) : Lang (.alt a b) w ↔ Lang a w ∨ Lang b w := by
  simp [Lang]

theorem Lang_opt (a : Regex) (w : List Nat) : Lang (.opt a) w ↔ Lang a w ∨ w = [] := by
  simp [Regex.opt, Lang]

theorem Lang_seq_nil (w : List Nat) : Lang (.seq []) w ↔ w = [] := by simp [Regex.seq, Lang]

theorem Lang_seq_cons (a : Regex) (l : List Regex) (w : List Nat) :
    Lang (.seq (a :: l)) w ↔ ∃ u v, w = u ++ v ∧ Lang a u ∧ Lang (.seq l) v := by
  simp [Regex.seq, Lang]

theorem Lang_seq_single (a : Regex) (w : List Nat) : Lang (.seq [a]) w ↔ Lang a w := by
  simp [Regex.seq, Lang]

/-- The language of `[class]{k}`: the words of `k` runes of the class. -/
theorem Lang_rep_cls (fold neg : Bool) (ranges : List (Nat × Nat)) (k : Nat) (w : List Nat) :
    Lang (.rep k (.cls fold neg ranges)) w ↔
      w.length = k ∧ ∀ r ∈ w, classMem fold neg ranges r = true := by
  induction k generalizing w with
  | zero =>
    simp only [Regex.rep, Lang_empty]
    constructor
    · rintro rfl; simp
    · rintro ⟨h, _⟩; exact List.length_eq_zero.1 h
  | succ k ih =>
    simp only [Regex.rep, Lang_cat, Lang_cls, ih]
    constructor
    · rintro ⟨u, v, rfl, ⟨r, rfl, hr⟩, hv, hall⟩
      refine ⟨by simp [hv], ?_⟩
      intro x hx
      simp only [List.singleton_append, List.mem_cons] at hx
      rcases hx with rfl | hx
      · exact hr
      · exact hall x hx
    · rintro ⟨hlen, hall⟩
      rcases w with _ | ⟨r, w⟩
      · simp at hlen
      · exact ⟨[r], w, rfl, ⟨r, rfl, hall r (by simp)⟩, by simpa using hlen,
          fun x hx => hall x (by simp [hx])⟩

theorem classMem_hexDigit (b : Byte) :
    classMem false false [rng '0' '9', rng 'a' 'f', rng 'A' 'F'] b.val = isHexDigit b := by
  rw [Bool.eq_iff_iff, isHexDigit_iff]
  simp only [classMem_plain, inRanges_cons, inRanges_nil, rng, Char.reduceToNat, or_false]
  constructor <;> intro h <;> omega

theorem ClassesAscii_hexDigit : ClassesAscii hexDigit := by
  intro r hr
  simp only [classMem_plain, inRanges_cons, inRanges_nil, rng, Char.reduceToNat, or_false] at hr
  omega

theorem ClassesAscii_lit (c : Nat) (hc : c < 0x80) : ClassesAscii (.lit false c) := by
  intro r hr
  simp only [classMem_plain, inRanges_cons, inRanges_nil, or_false] at hr
  omega

theorem classMem_lit (c r : Nat) : classMem false false [(c, c)] r = true ↔ r = c := by
  simp only [classMem_plain, inRanges_cons, inRanges_nil, or_false]
  omega

/-- The strings of exactly 3 or 6 hexadecimal digits. -/
theorem Lang_hex36 (t : GoString) :
    Lang (.alt (.rep 3 hexDigit) (.rep 6 hexDigit)) (t.map (fun b => b.val)) ↔
      (t.length = 3 ∨ t.length = 6) ∧ ∀ b ∈ t, isHexDigit b = true := by
  simp only [Lang_alt, hexDigit, Lang_rep_cls, List.length_map, List.mem_map,
    forall_exists_index, and_imp, forall_apply_eq_imp_iff₂, classMem_hexDigit]
  tauto

theorem IsHexColor_iff_aux (s : GoString) :
    IsHexColor s = true ↔
      ∃ body : GoString, (s = body ∨ s = 0x23 :: body) ∧
        (body.length = 3 ∨ body.length = 6) ∧ ∀ b ∈ body, isHexDigit b = true := by
  unfold IsHexColor hexcolor
  rw [MatchString_anchored_ascii _ (by rfl)]
  swap
  · apply ClassesAscii_seq
    simp only [List.mem_cons, List.mem_singleton, List.not_mem_nil, or_false, forall_eq_or_imp,
      forall_eq]
    exact ⟨⟨ClassesAscii_lit _ (by omega), trivial⟩,
      ClassesAscii_rep _ ClassesAscii_hexDigit _, ClassesAscii_rep _ ClassesAscii_hexDigit _⟩
  rw [Lang_seq_cons]
  simp only [Lang_seq_single, Lang_opt, Regex.lit, Lang_cls, classMem_lit]
  constructor
  · rintro ⟨u, v, huv, hu, hv⟩
    rcases hu with ⟨r, rfl, rfl⟩ | rfl
    · rcases s with _ | ⟨b, t⟩
      · simp at huv
      · simp only [List.map_cons, List.singleton_append, List.cons.injEq] at huv
        obtain ⟨hb, rfl⟩ := huv
        refine ⟨t, Or.inr ?_, (Lang_hex36 t).1 hv⟩
        have : b = 0x23 := Fin.ext (by simpa using hb)
        rw [this]
    · simp only [List.nil_append] at huv
      subst huv
      exact ⟨s, Or.inl rfl, (Lang_hex36 s).1 hv⟩
  · rintro ⟨body, rfl | rfl, h⟩
    · exact ⟨[], _, rfl, Or.inr rfl, (Lang_hex36 _).2 h⟩
    · exact ⟨[0x23], body.map (fun b => b.val), by simp; rfl, Or.inl ⟨0x23, rfl, rfl⟩,
        (Lang_hex36 _).2 h⟩


theorem isDigit_iff (b : Byte) : isDigit b = true ↔ 0x30 ≤ b.val ∧ b.val ≤ 0x39 := by
  simp [isDigit]

theorem classMem_digit (b : Byte) : classMem false false [rng '0' '9'] b.val = isDigit b := by
  rw [Bool.eq_iff_iff, isDigit_iff]
  simp only [classMem_plain, inRanges_cons, inRanges_nil, rng, Char.reduceToNat, or_false]

theorem ClassesAscii_digit : ClassesAscii digit := by
  intro r hr
  simp only [classMem_plain, inRanges_cons, inRanges_nil, rng, Char.reduceToNat, or_false] at hr
  omega

theorem EncodeRune_ascii (b : Byte) (h : b.val < 0x80) : EncodeRune b.val = [b] := by
  simp only [EncodeRune, h, if_true, Fin.ofNat, List.cons.injEq, and_true]
  apply Fin.ext
  simp only [Nat.succ_eq_add_one, Nat.reduceAdd]
  omega

/-- The conversion of one decimal digit. -/
theorem Atoi_digit (c : Byte) (h : isDigit c = true) :
    Atoi [c] = ((c.val : Int) - 0x30, none) := by
  rw [isDigit_iff] at h
  have h2 : (c.val + 208) % 256 = c.val - 0x30 := by omega
  have h3 : ¬ 9 < c.val - 48 := by omega
  have h4 : c.val ≠ 0x2D := by omega
  have h5 : c.val ≠ 0x2B := by omega
  simp [Atoi, atoiLoop, h2, h3, h4, h5]
  omega

/-- The conversion of a character that is no digit gives 0, with an error or, for
a sign alone, a syntax error. -/
theorem Atoi_nondigit (c : Byte) (h : isDigit c = false) : (Atoi [c]).1 = 0 := by
  have h0 : ¬ (0x30 ≤ c.val ∧ c.val ≤ 0x39) := by
    intro h1; rw [← isDigit_iff, h] at h1; exact absurd h1 (by simp)
  by_cases h1 : c.val = 0x2D
  · simp [Atoi, h1]
  by_cases h2 : c.val = 0x2B
  · simp [Atoi, h2]
  · have h3 : 9 < (c.val + 208) % 256 := by omega
    simp [Atoi, atoiLoop, h1, h2, h3]


theorem shape_isbn10X :
    shape (.seq [.rep 9 digit, .lit false 0x58]) =
      some [classMem false false [rng '0' '9'], classMem false false [rng '0' '9'],
        classMem false false [rng '0' '9'], classMem false false [rng '0' '9'],
        classMem false false [rng '0' '9'], classMem false false [rng '0' '9'],
        classMem false false [rng '0' '9'], classMem false false [rng '0' '9'],
        classMem false false [rng '0' '9'], classMem false false [(0x58, 0x58)]] := by
  rfl

theorem shape_isbn10 :
    shape (.rep 10 digit) =
      some [classMem false false [rng '0' '9'], classMem false false [rng '0' '9'],
        classMem false false [rng '0' '9'], classMem false false [rng '0' '9'],
        classMem false false [rng '0' '9'], classMem false false [rng '0' '9'],
        classMem false false [rng '0' '9'], classMem false false [rng '0' '9'],
        classMem false false [rng '0' '9'], classMem false false [rng '0' '9']] := by
  rfl

/-- The strings `possibleISBNv10` matches: nine digits and a digit or `X`. -/
theorem isbn10_match (t : GoString) :
    MatchString possibleISBNv10 t = true ↔
      ∃ b0 b1 b2 b3 b4 b5 b6 b7 b8 b9 : Byte, t = [b0, b1, b2, b3, b4, b5, b6, b7, b8, b9] ∧
        isDigit b0 = true ∧ isDigit b1 = true ∧ isDigit b2 = true ∧ isDigit b3 = true ∧
        isDigit b4 = true ∧ isDigit b5 = true ∧ isDigit b6 = true ∧ isDigit b7 = true ∧
        isDigit b8 = true ∧ (isDigit b9 = true ∨ b9 = 0x58) := by
  unfold possibleISBNv10
  rw [MatchString_anchored_ascii _ (by rfl)]
  swap
  · exact ⟨ClassesAscii_seq _ (by
      simp only [List.mem_cons, List.mem_singleton, List.not_mem_nil, or_false,
        forall_eq_or_imp, forall_eq]
      exact ⟨ClassesAscii_rep _ ClassesAscii_digit _, ClassesAscii_lit _ (by omega)⟩),
      ClassesAscii_rep _ ClassesAscii_digit _⟩
  rw [Lang_alt, Lang_of_shape _ _ shape_isbn10X, Lang_of_shape _ _ shape_isbn10,
    List.forall₂_map_right_iff, List.forall₂_map_right_iff]
  simp only [List.forall₂_cons_left_iff, List.forall₂_nil_left_iff, classMem_digit, classMem_lit]
  constructor
  · rintro (⟨b0, _, h0, ⟨b1, _, h1, ⟨b2, _, h2, ⟨b3, _, h3, ⟨b4, _, h4, ⟨b5, _, h5,
      ⟨b6, _, h6, ⟨b7, _, h7, ⟨b8, _, h8, ⟨b9, _, h9, rfl, rfl⟩, rfl⟩, rfl⟩, rfl⟩, rfl⟩, rfl⟩,
      rfl⟩, rfl⟩, rfl⟩, rfl⟩ | ⟨b0, _, h0, ⟨b1, _, h1, ⟨b2, _, h2, ⟨b3, _, h3, ⟨b4, _, h4,
      ⟨b5, _, h5, ⟨b6, _, h6, ⟨b7, _, h7, ⟨b8, _, h8, ⟨b9, _, h9, rfl, rfl⟩, rfl⟩, rfl⟩, rfl⟩,
      rfl⟩, rfl⟩, rfl⟩, rfl⟩, rfl⟩, rfl⟩)
    · exact ⟨b0, b1, b2, b3, b4, b5, b6, b7, b8, b9, rfl, h0, h1, h2, h3, h4, h5, h6, h7, h8,
        Or.inr (Fin.ext (by simpa using h9))⟩
    · exact ⟨b0, b1, b2, b3, b4, b5, b6, b7, b8, b9, rfl, h0, h1, h2, h3, h4, h5, h6, h7, h8,
        Or.inl h9⟩
  · rintro ⟨b0, b1, b2, b3, b4, b5, b6, b7, b8, b9, rfl, h0, h1, h2, h3, h4, h5, h6, h7, h8,
      h9 | rfl⟩
    · right
      exact ⟨b0, _, h0, ⟨b1, _, h1, ⟨b2, _, h2, ⟨b3, _, h3, ⟨b4, _, h4, ⟨b5, _, h5,
      ⟨b6, _, h6, ⟨b7, _, h7, ⟨b8, _, h8, ⟨b9, _, h9, rfl, rfl⟩, rfl⟩, rfl⟩, rfl⟩, rfl⟩, rfl⟩,
      rfl⟩, rfl⟩, rfl⟩, rfl⟩
    · left
      exact ⟨b0, _, h0, ⟨b1, _, h1, ⟨b2, _, h2, ⟨b3, _, h3, ⟨b4, _, h4, ⟨b5, _, h5,
      ⟨b6, _, h6, ⟨b7, _, h7, ⟨b8, _, h8, ⟨0x58, _, rfl, rfl, rfl⟩, rfl⟩, rfl⟩, rfl⟩, rfl⟩, rfl⟩,
      rfl⟩, rfl⟩, rfl⟩, rfl⟩


theorem isDigit_lt (b : Byte) (h : isDigit b = true) : b.val < 0x80 := by
  rw [isDigit_iff] at h; omega

theorem tmod_natCast (n k : Nat) : ((n : Int).tmod (k : Int) = 0) ↔ n % k = 0 := by
  rw [Int.tmod_eq_emod (Int.ofNat_nonneg n) (Int.ofNat_nonneg k)]
  norm_cast

theorem rangeAux_ascii_cons (i : Nat) (b : Byte) (rest : GoString) (h : b.val < 0x80) :
    rangeAux i (tokens (b :: rest)) = (i, b.val) :: rangeAux (i + 1) (tokens rest) := by
  rw [tokens_ascii_cons b rest h]; rfl

theorem rangeAux_tokens_nil (i : Nat) : rangeAux i (tokens []) = [] := rfl

/-- The checksum loop of `IsISBNv10` on a string the pattern has accepted. -/
theorem IsISBNv10_eval (s : GoString) (b0 b1 b2 b3 b4 b5 b6 b7 b8 b9 : Byte)
    (hs : strip s = [b0, b1, b2, b3, b4, b5, b6, b7, b8, b9])
    (h0 : isDigit b0 = true) (h1 : isDigit b1 = true) (h2 : isDigit b2 = true)
    (h3 : isDigit b3 = true) (h4 : isDigit b4 = true) (h5 : isDigit b5 = true)
    (h6 : isDigit b6 = true) (h7 : isDigit b7 = true) (h8 : isDigit b8 = true)
    (h9 : isDigit b9 = true ∨ b9 = 0x58) :
    IsISBNv10 s = some (decide ((1 * (b0.val - 0x30) + 2 * (b1.val - 0x30) + 3 * (b2.val - 0x30)
      + 4 * (b3.val - 0x30) + 5 * (b4.val - 0x30) + 6 * (b5.val - 0x30) + 7 * (b6.val - 0x30)
      + 8 * (b7.val - 0x30) + 9 * (b8.val - 0x30)
      + 10 * (if b9 = 0x58 then 10 else b9.val - 0x30)) % 11 = 0)) := by
  have hm : MatchString possibleISBNv10 [b0, b1, b2, b3, b4, b5, b6, b7, b8, b9] = true :=
    (isbn10_match _).2 ⟨b0, b1, b2, b3, b4, b5, b6, b7, b8, b9, rfl, h0, h1, h2, h3, h4, h5, h6, h7,
      h8, h9⟩
  have a0 := isDigit_lt _ h0
  have a1 := isDigit_lt _ h1
  have a2 := isDigit_lt _ h2
  have a3 := isDigit_lt _ h3
  have a4 := isDigit_lt _ h4
  have a5 := isDigit_lt _ h5
  have a6 := isDigit_lt _ h6
  have a7 := isDigit_lt _ h7
  have a8 := isDigit_lt _ h8
  have a9 : b9.val < 0x80 := by
    rcases h9 with h9 | rfl
    · exact isDigit_lt _ h9
    · decide
  have hX : goStr "X" = [0x58] := by decide
  unfold IsISBNv10
  simp only [sanitizeISBN_eq, hs, hm, Bool.not_true, Bool.false_eq_true, if_false, sliceTo,
    List.length_cons, List.length_nil, Nat.reduceAdd, Nat.reduceLeDiff, if_true, List.take_succ_cons,
    List.take_zero, rangeString, rangeAux_ascii_cons, a0, a1, a2, a3, a4, a5, a6, a7, a8,
    rangeAux_tokens_nil, List.foldl_cons, List.foldl_nil, EncodeRune_ascii, Atoi_digit, h0, h1, h2, h3, h4,
    h5, h6, h7, h8, Option.bind_eq_bind, Option.some_bind, a9, hX, List.cons.injEq, and_true,
    Option.bind_some]
  have g9 : [b0, b1, b2, b3, b4, b5, b6, b7, b8, b9][9]? = some b9 := rfl
  rw [g9, Option.some_bind, EncodeRune_ascii b9 a9]
  rw [isDigit_iff] at h0 h1 h2 h3 h4 h5 h6 h7 h8
  rcases h9 with h9 | rfl
  · have hne : b9 ≠ 0x58 := by
      rintro rfl
      exact absurd h9 (by decide)
    rw [Atoi_digit b9 h9]
    rw [isDigit_iff] at h9
    simp only [List.cons.injEq, hne, and_true, if_false]
    have e : (0 + ((0 : Nat) + 1 : Int) * ((b0.val : Int) - 48) + (((1 : Nat) : Int) + 1) * ((b1.val : Int) - 48)
        + (((2 : Nat) : Int) + 1) * ((b2.val : Int) - 48) + (((3 : Nat) : Int) + 1) * ((b3.val : Int) - 48)
        + (((4 : Nat) : Int) + 1) * ((b4.val : Int) - 48) + (((5 : Nat) : Int) + 1) * ((b5.val : Int) - 48)
        + (((6 : Nat) : Int) + 1) * ((b6.val : Int) - 48) + (((7 : Nat) : Int) + 1) * ((b7.val : Int) - 48)
        + (((8 : Nat) : Int) + 1) * ((b8.val : Int) - 48) + 10 * ((b9.val : Int) - 48))
        = ((1 * (b0.val - 0x30) + 2 * (b1.val - 0x30) + 3 * (b2.val - 0x30)
      + 4 * (b3.val - 0x30) + 5 * (b4.val - 0x30) + 6 * (b5.val - 0x30) + 7 * (b6.val - 0x30)
      + 8 * (b7.val - 0x30) + 9 * (b8.val - 0x30) + 10 * (b9.val - 0x30) : Nat) : Int) := by
      omega
    rw [e, show (11 : Int) = ((11 : Nat) : Int) from rfl]
    simp only [tmod_natCast]
    generalize (1 * (b0.val - 0x30) + 2 * (b1.val - 0x30) + 3 * (b2.val - 0x30)
      + 4 * (b3.val - 0x30) + 5 * (b4.val - 0x30) + 6 * (b5.val - 0x30) + 7 * (b6.val - 0x30)
      + 8 * (b7.val - 0x30) + 9 * (b8.val - 0x30) + 10 * (b9.val - 0x30)) = N
    by_cases hc : N % 11 = 0 <;> simp [hc]
  · simp only [if_true]
    have e : (0 + ((0 : Nat) + 1 : Int) * ((b0.val : Int) - 48) + (((1 : Nat) : Int) + 1) * ((b1.val : Int) - 48)
        + (((2 : Nat) : Int) + 1) * ((b2.val : Int) - 48) + (((3 : Nat) : Int) + 1) * ((b3.val : Int) - 48)
        + (((4 : Nat) : Int) + 1) * ((b4.val : Int) - 48) + (((5 : Nat) : Int) + 1) * ((b5.val : Int) - 48)
        + (((6 : Nat) : Int) + 1) * ((b6.val : Int) - 48) + (((7 : Nat) : Int) + 1) * ((b7.val : Int) - 48)
        + (((8 : Nat) : Int) + 1) * ((b8.val : Int) - 48) + 100)
        = ((1 * (b0.val - 0x30) + 2 * (b1.val - 0x30) + 3 * (b2.val - 0x30)
      + 4 * (b3.val - 0x30) + 5 * (b4.val - 0x30) + 6 * (b5.val - 0x30) + 7 * (b6.val - 0x30)
      + 8 * (b7.val - 0x30) + 9 * (b8.val - 0x30) + 10 * 10 : Nat) : Int) := by
      omega
    rw [e, show (11 : Int) = ((11 : Nat) : Int) from rfl]
    simp only [tmod_natCast]
    generalize (1 * (b0.val - 0x30) + 2 * (b1.val - 0x30) + 3 * (b2.val - 0x30)
      + 4 * (b3.val - 0x30) + 5 * (b4.val - 0x30) + 6 * (b5.val - 0x30) + 7 * (b6.val - 0x30)
      + 8 * (b7.val - 0x30) + 9 * (b8.val - 0x30) + 10 * 10) = N
    by_cases hc : N % 11 = 0 <;> simp [hc]


/-- The predicate `IsISBNv10` answers false when the pattern rejects the sanitized string. -/
theorem IsISBNv10_reject (s : GoString) (h : MatchString possibleISBNv10 (strip s) = false) :
    IsISBNv10 s = some false := by
  unfold IsISBNv10
  simp [sanitizeISBN_eq, h]

theorem IsISBNv10_iff_aux (s : GoString) :
    IsISBNv10 s = some true ↔
      ∃ b0 b1 b2 b3 b4 b5 b6 b7 b8 b9 : Byte,
        strip s = [b0, b1, b2, b3, b4, b5, b6, b7, b8, b9] ∧
        isDigit b0 = true ∧ isDigit b1 = true ∧ isDigit b2 = true ∧ isDigit b3 = true ∧
        isDigit b4 = true ∧ isDigit b5 = true ∧ isDigit b6 = true ∧ isDigit b7 = true ∧
        isDigit b8 = true ∧ (isDigit b9 = true ∨ b9 = 0x58) ∧
        (1 * digitVal b0 + 2 * digitVal b1 + 3 * digitVal b2 + 4 * digitVal b3 +
          5 * digitVal b4 + 6 * digitVal b5 + 7 * digitVal b6 + 8 * digitVal b7 +
          9 * digitVal b8 + 10 * checkVal b9) % 11 = 0 := by
  constructor
  · intro h
    cases hm : MatchString possibleISBNv10 (strip s) with
    | false =>
      rw [IsISBNv10_reject s hm] at h
      exact absurd h (by simp)
    | true =>
      obtain ⟨b0, b1, b2, b3, b4, b5, b6, b7, b8, b9, hs, h0, h1, h2, h3, h4, h5, h6, h7, h8, h9⟩ :=
        (isbn10_match _).1 hm
      rw [IsISBNv10_eval s b0 b1 b2 b3 b4 b5 b6 b7 b8 b9 hs h0 h1 h2 h3 h4 h5 h6 h7 h8 h9] at h
      simp only [Option.some.injEq, decide_eq_true_eq] at h
      exact ⟨b0, b1, b2, b3, b4, b5, b6, b7, b8, b9, hs, h0, h1, h2, h3, h4, h5, h6, h7, h8, h9, h⟩
  · rintro ⟨b0, b1, b2, b3, b4, b5, b6, b7, b8, b9, hs, h0, h1, h2, h3, h4, h5, h6, h7, h8, h9, h⟩
    rw [IsISBNv10_eval s b0 b1 b2 b3 b4 b5 b6 b7 b8 b9 hs h0 h1 h2 h3 h4 h5 h6 h7 h8 h9]
    simp only [Option.some.injEq, decide_eq_true_eq]
    exact h


theorem shape_isbn13 :
    shape (.rep 13 digit) =
      some [classMem false false [rng '0' '9'], classMem false false [rng '0' '9'], classMem false false [rng '0' '9'], classMem false false [rng '0' '9'], classMem false false [rng '0' '9'], classMem false false [rng '0' '9'], classMem false false [rng '0' '9'], classMem false false [rng '0' '9'], classMem false false [rng '0' '9'], classMem false false [rng '0' '9'], classMem false false [rng '0' '9'], classMem false false [rng '0' '9'], classMem false false [rng '0' '9']] := by
  rfl

/-- The strings `possibleISBNv13` matches: thirteen digits. -/
theorem isbn13_match (t : GoString) :
    MatchString possibleISBNv13 t = true ↔
      ∃ b0 b1 b2 b3 b4 b5 b6 b7 b8 b9 b10 b11 b12 : Byte,
        t = [b0, b1, b2, b3, b4, b5, b6, b7, b8, b9, b10, b11, b12] ∧
        isDigit b0 = true ∧ isDigit b1 = true ∧ isDigit b2 = true ∧ isDigit b3 = true ∧
        isDigit b4 = true ∧ isDigit b5 = true ∧ isDigit b6 = true ∧ isDigit b7 = true ∧
        isDigit b8 = true ∧ isDigit b9 = true ∧ isDigit b10 = true ∧ isDigit b11 = true ∧
        isDigit b12 = true := by
  unfold possibleISBNv13
  rw [MatchString_shape _ _ shape_isbn13 (by rfl) (ClassesAscii_rep _ ClassesAscii_digit _)]
  simp only [List.forall₂_cons_left_iff, List.forall₂_nil_left_iff, classMem_digit]
  constructor
  · rintro ⟨b0, _, h0, ⟨b1, _, h1, ⟨b2, _, h2, ⟨b3, _, h3, ⟨b4, _, h4, ⟨b5, _, h5, ⟨b6, _, h6, ⟨b7, _, h7, ⟨b8, _, h8, ⟨b9, _, h9, ⟨b10, _, h10, ⟨b11, _, h11, ⟨b12, _, h12, rfl, rfl⟩, rfl⟩, rfl⟩, rfl⟩, rfl⟩, rfl⟩, rfl⟩, rfl⟩, rfl⟩, rfl⟩, rfl⟩, rfl⟩, rfl⟩
    exact ⟨b0, b1, b2, b3, b4, b5, b6, b7, b8, b9, b10, b11, b12, rfl, h0, h1, h2, h3, h4, h5, h6, h7, h8, h9, h10, h11, h12⟩
  · rintro ⟨b0, b1, b2, b3, b4, b5, b6, b7, b8, b9, b10, b11, b12, rfl, h0, h1, h2, h3, h4, h5, h6, h7, h8, h9, h10, h11, h12⟩
    exact ⟨b0, _, h0, ⟨b1, _, h1, ⟨b2, _, h2, ⟨b3, _, h3, ⟨b4, _, h4, ⟨b5, _, h5, ⟨b6, _, h6, ⟨b7, _, h7, ⟨b8, _, h8, ⟨b9, _, h9, ⟨b10, _, h10, ⟨b11, _, h11, ⟨b12, _, h12, rfl, rfl⟩, rfl⟩, rfl⟩, rfl⟩, rfl⟩, rfl⟩, rfl⟩, rfl⟩, rfl⟩, rfl⟩, rfl⟩, rfl⟩, rfl⟩

theorem tmod_cast (n k : Nat) : (n : Int).tmod (k : Int) = ((n % k : Nat) : Int) := by
  rw [Int.tmod_eq_emod (Int.ofNat_nonneg n) (Int.ofNat_nonneg k)]
  norm_cast

/-- The predicate `IsISBNv13` answers false when the pattern rejects the sanitized string. -/
theorem IsISBNv13_reject (s : GoString) (h : MatchString possibleISBNv13 (strip s) = false) :
    IsISBNv13 s = some false := by
  unfold IsISBNv13
  simp [sanitizeISBN_eq, h]

/-- The checksum loop of `IsISBNv13` on a string the pattern has accepted. -/
theorem IsISBNv13_eval (s : GoString) (b0 b1 b2 b3 b4 b5 b6 b7 b8 b9 b10 b11 b12 : Byte)
    (hs : strip s = [b0, b1, b2, b3, b4, b5, b6, b7, b8, b9, b10, b11, b12])
    (h0 : isDigit b0 = true)
    (h1 : isDigit b1 = true)
    (h2 : isDigit b2 = true)
    (h3 : isDigit b3 = true)
    (h4 : isDigit b4 = true)
    (h5 : isDigit b5 = true)
    (h6 : isDigit b6 = true)
    (h7 : isDigit b7 = true)
    (h8 : isDigit b8 = true)
    (h9 : isDigit b9 = true)
    (h10 : isDigit b10 = true)
    (h11 : isDigit b11 = true)
    (h12 : isDigit b12 = true) :
    IsISBNv13 s = some (decide (b12.val - 0x30 =
      (10 - (1 * (b0.val - 0x30) + 3 * (b1.val - 0x30) + 1 * (b2.val - 0x30) + 3 * (b3.val - 0x30) + 1 * (b4.val - 0x30) + 3 * (b5.val - 0x30) + 1 * (b6.val - 0x30) + 3 * (b7.val - 0x30) + 1 * (b8.val - 0x30) + 3 * (b9.val - 0x30) + 1 * (b10.val - 0x30) + 3 * (b11.val - 0x30)) % 10) % 10)) := by
  have hm : MatchString possibleISBNv13 [b0, b1, b2, b3, b4, b5, b6, b7, b8, b9, b10, b11, b12] = true :=
    (isbn13_match _).2 ⟨b0, b1, b2, b3, b4, b5, b6, b7, b8, b9, b10, b11, b12, rfl, h0, h1, h2, h3, h4, h5, h6, h7, h8, h9, h10, h11, h12⟩
  have a0 := isDigit_lt _ h0
  have a1 := isDigit_lt _ h1
  have a2 := isDigit_lt _ h2
  have a3 := isDigit_lt _ h3
  have a4 := isDigit_lt _ h4
  have a5 := isDigit_lt _ h5
  have a6 := isDigit_lt _ h6
  have a7 := isDigit_lt _ h7
  have a8 := isDigit_lt _ h8
  have a9 := isDigit_lt _ h9
  have a10 := isDigit_lt _ h10
  have a11 := isDigit_lt _ h11
  have a12 := isDigit_lt _ h12
  have g12 : [b0, b1, b2, b3, b4, b5, b6, b7, b8, b9, b10, b11, b12][12]? = some b12 := rfl
  unfold IsISBNv13
  simp only [sanitizeISBN_eq, hs, hm, Bool.not_true, Bool.false_eq_true, if_false, sliceTo,
    List.length_cons, List.length_nil, Nat.reduceAdd, Nat.reduceLeDiff, if_true,
    List.take_succ_cons, List.take_zero, rangeString, rangeAux_ascii_cons,
    a0, a1, a2, a3, a4, a5, a6, a7, a8, a9, a10, a11,
    rangeAux_tokens_nil, List.foldlM_cons, List.foldlM_nil, EncodeRune_ascii, Atoi_digit,
    h0, h1, h2, h3, h4, h5, h6, h7, h8, h9, h10, h11, h12,
    Option.bind_eq_bind, Option.some_bind, a12, g12, Option.bind_some, Option.pure_def]
  have f0 : ([1, 3] : List Int)[0 % 2]? = some 1 := rfl
  have f1 : ([1, 3] : List Int)[1 % 2]? = some 3 := rfl
  have f2 : ([1, 3] : List Int)[2 % 2]? = some 1 := rfl
  have f3 : ([1, 3] : List Int)[3 % 2]? = some 3 := rfl
  have f4 : ([1, 3] : List Int)[4 % 2]? = some 1 := rfl
  have f5 : ([1, 3] : List Int)[5 % 2]? = some 3 := rfl
  have f6 : ([1, 3] : List Int)[6 % 2]? = some 1 := rfl
  have f7 : ([1, 3] : List Int)[7 % 2]? = some 3 := rfl
  have f8 : ([1, 3] : List Int)[8 % 2]? = some 1 := rfl
  have f9 : ([1, 3] : List Int)[9 % 2]? = some 3 := rfl
  have f10 : ([1, 3] : List Int)[10 % 2]? = some 1 := rfl
  have f11 : ([1, 3] : List Int)[11 % 2]? = some 3 := rfl
  simp only [f0, f1, f2, f3, f4, f5, f6, f7, f8, f9, f10, f11, Option.some_bind]
  rw [isDigit_iff] at h0 h1 h2 h3 h4 h5 h6 h7 h8 h9 h10 h11 h12
  have e : (0 + 1 * ((b0.val : Int) - 48) + 3 * ((b1.val : Int) - 48) + 1 * ((b2.val : Int) - 48) + 3 * ((b3.val : Int) - 48) + 1 * ((b4.val : Int) - 48) + 3 * ((b5.val : Int) - 48) + 1 * ((b6.val : Int) - 48) + 3 * ((b7.val : Int) - 48) + 1 * ((b8.val : Int) - 48) + 3 * ((b9.val : Int) - 48) + 1 * ((b10.val : Int) - 48) + 3 * ((b11.val : Int) - 48))
      = ((1 * (b0.val - 0x30) + 3 * (b1.val - 0x30) + 1 * (b2.val - 0x30) + 3 * (b3.val - 0x30) + 1 * (b4.val - 0x30) + 3 * (b5.val - 0x30) + 1 * (b6.val - 0x30) + 3 * (b7.val - 0x30) + 1 * (b8.val - 0x30) + 3 * (b9.val - 0x30) + 1 * (b10.val - 0x30) + 3 * (b11.val - 0x30) : Nat) : Int) := by
    omega
  rw [e, show (10 : Int) = ((10 : Nat) : Int) from rfl, tmod_cast]
  generalize 1 * (b0.val - 0x30) + 3 * (b1.val - 0x30) + 1 * (b2.val - 0x30) + 3 * (b3.val - 0x30) + 1 * (b4.val - 0x30) + 3 * (b5.val - 0x30) + 1 * (b6.val - 0x30) + 3 * (b7.val - 0x30) + 1 * (b8.val - 0x30) + 3 * (b9.val - 0x30) + 1 * (b10.val - 0x30) + 3 * (b11.val - 0x30) = N
  have e2 : (((10 : Nat) : Int) - ((N % 10 : Nat) : Int)) = ((10 - N % 10 : Nat) : Int) := by
    omega
  rw [e2, tmod_cast]
  by_cases hc : b12.val - 0x30 = (10 - N % 10) % 10
  · have : ((b12.val : Int) - 48 - (((10 - N % 10) % 10 : Nat) : Int)) = 0 := by omega
    rw [if_pos this, decide_eq_true hc]
  · have : ¬ ((b12.val : Int) - 48 - (((10 - N % 10) % 10 : Nat) : Int)) = 0 := by omega
    rw [if_neg this, decide_eq_false hc]


theorem IsISBNv13_iff_aux (s : GoString) :
    IsISBNv13 s = some true ↔
      ∃ b0 b1 b2 b3 b4 b5 b6 b7 b8 b9 b10 b11 b12 : Byte,
        strip s = [b0, b1, b2, b3, b4, b5, b6, b7, b8, b9, b10, b11, b12] ∧
        isDigit b0 = true ∧ isDigit b1 = true ∧ isDigit b2 = true ∧ isDigit b3 = true ∧
        isDigit b4 = true ∧ isDigit b5 = true ∧ isDigit b6 = true ∧ isDigit b7 = true ∧
        isDigit b8 = true ∧ isDigit b9 = true ∧ isDigit b10 = true ∧ isDigit b11 = true ∧
        isDigit b12 = true ∧
        digitVal b12 = (10 - (1 * digitVal b0 + 3 * digitVal b1 + 1 * digitVal b2 + 3 * digitVal b3 +
          1 * digitVal b4 + 3 * digitVal b5 + 1 * digitVal b6 + 3 * digitVal b7 +
          1 * digitVal b8 + 3 * digitVal b9 + 1 * digitVal b10 + 3 * digitVal b11) % 10) % 10 := by
  constructor
  · intro h
    cases hm : MatchString possibleISBNv13 (strip s) with
    | false =>
      rw [IsISBNv13_reject s hm] at h
      exact absurd h (by simp)
    | true =>
      obtain ⟨b0, b1, b2, b3, b4, b5, b6, b7, b8, b9, b10, b11, b12, hs, h0, h1, h2, h3, h4, h5, h6, h7, h8, h9, h10, h11, h12⟩ :=
        (isbn13_match _).1 hm
      rw [IsISBNv13_eval s b0 b1 b2 b3 b4 b5 b6 b7 b8 b9 b10 b11 b12 hs h0 h1 h2 h3 h4 h5 h6 h7 h8 h9 h10 h11 h12] at h
      simp only [Option.some.injEq, decide_eq_true_eq] at h
      exact ⟨b0, b1, b2, b3, b4, b5, b6, b7, b8, b9, b10, b11, b12, hs, h0, h1, h2, h3, h4, h5, h6, h7, h8, h9, h10, h11, h12, h⟩
  · rintro ⟨b0, b1, b2, b3, b4, b5, b6, b7, b8, b9, b10, b11, b12, hs, h0, h1, h2, h3, h4, h5, h6, h7, h8, h9, h10, h11, h12, h⟩
    rw [IsISBNv13_eval s b0 b1 b2 b3 b4 b5 b6 b7 b8 b9 b10 b11 b12 hs h0 h1 h2 h3 h4 h5 h6 h7 h8 h9 h10 h11 h12]
    simp only [Option.some.injEq, decide_eq_true_eq]
    exact h

/-- The ISBN predicates see their argument only through the sanitized string. -/
theorem IsISBN_strip (s s1 : GoString) (h : strip s = strip s1) :
    IsISBNv10 s = IsISBNv10 s1 ∧ IsISBNv13 s = IsISBNv13 s1 ∧ IsISBN s = IsISBN s1 := by
  have h10 : IsISBNv10 s = IsISBNv10 s1 := by
    unfold IsISBNv10
    rw [sanitizeISBN_eq, sanitizeISBN_eq, h]
  have h13 : IsISBNv13 s = IsISBNv13 s1 := by
    unfold IsISBNv13
    rw [sanitizeISBN_eq, sanitizeISBN_eq, h]
  refine ⟨h10, h13, ?_⟩
  unfold IsISBN
  rw [h10, h13]

theorem strip_append (x y : GoString) : strip (x ++ y) = strip x ++ strip y := by
  simp [strip]

/-- A string that ends in a lower-case `x` is no ISBN-10. -/
theorem IsISBNv10_lower (p : GoString) : IsISBNv10 (p ++ goStr "x") = some false := by
  apply IsISBNv10_reject
  cases hm : MatchString possibleISBNv10 (strip (p ++ goStr "x")) with
  | false => rfl
  | true =>
    exfalso
    obtain ⟨b0, b1, b2, b3, b4, b5, b6, b7, b8, b9, hs, _, _, _, _, _, _, _, _, _, h9⟩ :=
      (isbn10_match _).1 hm
    have hx : strip (goStr "x") = [0x78] := by decide
    rw [strip_append, hx] at hs
    have hrev := congrArg List.reverse hs
    simp only [List.reverse_append, List.reverse_cons, List.reverse_nil, List.nil_append,
      List.singleton_append, List.cons_append, List.cons.injEq] at hrev
    have hlast := hrev.1
    subst hlast
    rcases h9 with h9 | h9
    · exact absurd h9 (by decide)
    · exact absurd h9 (by decide)


/-! ## The pattern `email` -/

theorem Lang_valid (re : Regex) (h : ClassesValid re) (w : List Nat) (hw : Lang re w) :
    ∀ r ∈ w, r ≠ RuneError := by
  induction re generalizing w with
  | empty => simp only [Lang] at hw; simp [hw]
  | cls fold neg ranges =>
    obtain ⟨r, rfl, hr⟩ := hw
    intro x hx
    simp only [List.mem_singleton] at hx
    subst hx
    rintro rfl
    simp only [ClassesValid] at h
    rw [h] at hr
    exact absurd hr (by simp)
  | cat a b iha ihb =>
    obtain ⟨u, v, rfl, hu, hv⟩ := hw
    intro x hx
    rcases List.mem_append.1 hx with hx | hx
    · exact iha h.1 u hu x hx
    · exact ihb h.2 v hv x hx
  | alt a b iha ihb =>
    rcases hw with hw | hw
    · exact iha h.1 w hw
    · exact ihb h.2 w hw
  | star a iha =>
    obtain ⟨ws, rfl, hws⟩ := hw
    intro x hx
    obtain ⟨y, hy, hxy⟩ := List.mem_flatten.1 hx
    exact iha h y (hws y hy) x hxy
  | bol => exact absurd hw (by simp [Lang])
  | eol => exact absurd hw (by simp [Lang])

theorem ClassesValid_email : ClassesValid email := by
  simp only [email, Regex.seq, Regex.plus, emailLabel, Regex.opt, ClassesValid, Regex.lit,
    localFold, alnumFold, alnumDashFold, and_true, true_and, and_self]
  decide

theorem Lang_email_ne_nil (w : List Nat) (h : Lang email w) : w ≠ [] := by
  unfold email at h
  rw [Lang_seq_cons] at h
  obtain ⟨u, v, rfl, hu, _⟩ := h
  rw [localFold, Lang_plus_cls] at hu
  intro h0
  exact hu.1 (List.append_eq_nil.1 h0).1

/-- A match of a pattern without anchors whose classes hold no `RuneError`
survives any text put before and after the string. -/
theorem MatchString_extend (re : Regex) (hf : anchorFree re = true) (hv : ClassesValid re)
    (hne : ∀ w, Lang re w → w ≠ []) (p s q : GoString) (h : MatchString re s = true) :
    MatchString re (p ++ s ++ q) = true := by
  obtain ⟨a, w, b, hs, hw⟩ := (MatchString_free re hf s).1 h
  obtain ⟨x, y, rfl, hy⟩ := runes_split a (w ++ b) s hs
  have hval := Lang_valid re hv w hw
  obtain ⟨r, w1, rfl⟩ := List.exists_cons_of_ne_nil (hne w hw)
  rcases y with _ | ⟨c, y1⟩
  · simp [runes, tokens_nil] at hy
  have hc : ¬ IsCont c := by
    apply decode_first c y1
    rw [runes, tokens_cons] at hy
    simp only [List.map_cons, List.cons_append, List.cons.injEq] at hy
    rw [hy.1]
    exact hval r (by simp)
  obtain ⟨rest1, hrest⟩ := runes_append_stable (r :: w1) hval (c :: y1) q b hy
  rw [MatchString_free re hf]
  refine ⟨runes (p ++ x), r :: w1, rest1, ?_, hw⟩
  have e : p ++ (x ++ c :: y1) ++ q = (p ++ x) ++ (c :: y1 ++ q) := by simp
  rw [e, runes, tokens_append (p ++ x) (c :: y1 ++ q) (by simpa using hc), List.map_append]
  rw [runes] at hrest
  rw [hrest]
  rfl


theorem isLetter_iff (b : Byte) :
    isLetter b = true ↔ (0x41 ≤ b.val ∧ b.val ≤ 0x5A) ∨ (0x61 ≤ b.val ∧ b.val ≤ 0x7A) := by
  simp [isLetter]

theorem localRanges_eq :
    [rng 'A' 'Z', rng '0' '9'] ++ chars "!#$%&'*+/=?^_\x7b|\x7d~-" =
      [(0x41, 0x5A), (0x30, 0x39), (0x21, 0x21), (0x23, 0x23), (0x24, 0x24), (0x25, 0x25),
        (0x26, 0x26), (0x27, 0x27), (0x2A, 0x2A), (0x2B, 0x2B), (0x2F, 0x2F), (0x3D, 0x3D),
        (0x3F, 0x3F), (0x5E, 0x5E), (0x5F, 0x5F), (0x7B, 0x7B), (0x7C, 0x7C), (0x7D, 0x7D),
        (0x7E, 0x7E), (0x2D, 0x2D)] := by
  decide

/-- The characters the class of the local part accepts: the ASCII letters, the
digits and these nineteen others. -/
theorem classMem_local (c : Byte)
    (h : isLetter c = true ∨ isDigit c = true ∨ c ∈ goStr "!#$%&'*+/=?^_\x7b|\x7d~-") :
    classMem true false ([rng 'A' 'Z', rng '0' '9'] ++ chars "!#$%&'*+/=?^_\x7b|\x7d~-") c.val
      = true := by
  rw [localRanges_eq, classMem_fold, any_simpleFoldOrbit]
  rcases h with h | h | h
  · rw [isLetter_iff] at h
    rcases h with h | h
    · left
      rw [inRanges_cons]
      exact Or.inl h
    · right; right; left
      refine ⟨h.1, h.2, ?_⟩
      rw [inRanges_cons]
      left
      dsimp only
      omega
  · rw [isDigit_iff] at h
    left
    rw [inRanges_cons, inRanges_cons]
    exact Or.inr (Or.inl h)
  · left
    have hl : goStr "!#$%&'*+/=?^_\x7b|\x7d~-" = [0x21, 0x23, 0x24, 0x25, 0x26, 0x27, 0x2A, 0x2B,
        0x2F, 0x3D, 0x3F, 0x5E, 0x5F, 0x7B, 0x7C, 0x7D, 0x7E, 0x2D] := by decide
    rw [hl] at h
    simp only [List.mem_cons, List.mem_singleton, List.not_mem_nil, or_false] at h
    rcases h with rfl | rfl | rfl | rfl | rfl | rfl | rfl | rfl | rfl | rfl | rfl | rfl | rfl |
      rfl | rfl | rfl | rfl | rfl <;> decide

theorem Lang_of_mem_ends (re : Regex) (h : anchorFree re = true) (w : List Nat)
    (hw : [] ∈ re.ends 0 w) : Lang re w := by
  obtain ⟨w1, h1, h2⟩ := (mem_ends_iff 0 re h w []).1 hw
  rw [List.append_nil] at h2
  rw [h2]; exact h1

theorem IsEmail_one_char (c : Byte)
    (h : isLetter c = true ∨ isDigit c = true ∨ c ∈ goStr "!#$%&'*+/=?^_\x7b|\x7d~-") :
    IsEmail (c :: goStr "@bar.com") = true := by
  have hc := classMem_local c h
  have hlt : c.val < 0x80 := by
    rcases h with h | h | h
    · rw [isLetter_iff] at h; omega
    · rw [isDigit_iff] at h; omega
    · have hl : goStr "!#$%&'*+/=?^_\x7b|\x7d~-" = [0x21, 0x23, 0x24, 0x25, 0x26, 0x27, 0x2A,
          0x2B, 0x2F, 0x3D, 0x3F, 0x5E, 0x5F, 0x7B, 0x7C, 0x7D, 0x7E, 0x2D] := by decide
      rw [hl] at h
      simp only [List.mem_cons, List.mem_singleton, List.not_mem_nil, or_false] at h
      rcases h with rfl | rfl | rfl | rfl | rfl | rfl | rfl | rfl | rfl | rfl | rfl | rfl | rfl |
        rfl | rfl | rfl | rfl | rfl <;> decide
  unfold IsEmail
  rw [MatchString_free email (by rfl)]
  have hr : runes (c :: goStr "@bar.com") = c.val :: runes (goStr "@bar.com") := by
    rw [runes, tokens_ascii_cons c _ hlt]; rfl
  refine ⟨[], c.val :: runes (goStr "@bar.com"), [], by rw [hr]; simp, ?_⟩
  unfold email
  rw [Lang_seq_cons]
  refine ⟨[c.val], runes (goStr "@bar.com"), rfl, ?_, ?_⟩
  · rw [localFold, Lang_plus_cls]
    refine ⟨by simp, ?_⟩
    intro r hr
    simp only [List.mem_singleton] at hr
    subst hr
    exact hc
  · apply Lang_of_mem_ends _ (by rfl)
    decide

theorem IsUUIDv4_iff_explicit (s : GoString) :
    IsUUIDv4 s = true ↔
      s.length = 36 ∧
      (∀ i ∈ [8, 13, 18, 23], s[i]? = some 0x2D) ∧
      (∀ i, i < 36 → i ∉ [8, 13, 18, 23] → ∃ b, s[i]? = some b ∧ isHexDigit b = true) ∧
      s[14]? = some 0x34 ∧
      (∃ b, s[19]? = some b ∧ b ∈ goStr "89abAB") := by
  have hmem : ∀ b : Byte, b ∈ goStr "89abAB" ↔
      (b.val = 0x38 ∨ b.val = 0x39 ∨ b.val = 0x41 ∨ b.val = 0x42 ∨ b.val = 0x61 ∨ b.val = 0x62) := by
    intro b
    have : goStr "89abAB" = [0x38, 0x39, 0x61, 0x62, 0x41, 0x42] := by decide
    rw [this]
    simp only [List.mem_cons, List.mem_singleton, List.not_mem_nil, or_false, Fin.ext_iff]
    constructor <;> intro h <;> omega
  rw [IsUUIDv4_iff_aux]
  constructor
  · rintro ⟨hlen, h⟩
    refine ⟨hlen, ?_, ?_, ?_, ?_⟩
    · intro i hi
      have hi1 : i = 8 ∨ i = 13 ∨ i = 18 ∨ i = 23 := by simpa using hi
      have hlt : i < s.length := by omega
      have := h i hlt
      rw [if_pos hi1, classMem_litFold 0x2D _ (by omega)] at this
      rw [List.getElem?_eq_getElem hlt]
      exact congrArg some (Fin.ext (by simpa using this))
    · intro i hi36 hi
      have hi1 : ¬ (i = 8 ∨ i = 13 ∨ i = 18 ∨ i = 23) := by simpa using hi
      have hlt : i < s.length := by omega
      refine ⟨s[i], List.getElem?_eq_getElem hlt, ?_⟩
      have := h i hlt
      rw [if_neg hi1] at this
      rw [isHexDigit_iff]
      split_ifs at this
      · rw [classMem_litFold 0x34 _ (by omega)] at this
        simp only [List.get_eq_getElem] at this
        omega
      · rw [classMem_variant] at this
        simp only [List.get_eq_getElem] at this
        omega
      · rw [classMem_hexFold] at this
        simpa using this
    · have hlt : 14 < s.length := by omega
      have := h 14 hlt
      rw [if_neg (by omega), if_pos rfl, classMem_litFold 0x34 _ (by omega)] at this
      rw [List.getElem?_eq_getElem hlt]
      exact congrArg some (Fin.ext (by simpa using this))
    · have hlt : 19 < s.length := by omega
      have := h 19 hlt
      rw [if_neg (by omega), if_neg (by omega), if_pos rfl, classMem_variant] at this
      exact ⟨s[19], List.getElem?_eq_getElem hlt, (hmem _).2 this⟩
  · rintro ⟨hlen, hdash, hhex, h14, b19, h19, hb19⟩
    refine ⟨hlen, ?_⟩
    intro i hlt
    split_ifs with h1 h2 h3
    · have := hdash i (by simpa using h1)
      rw [List.getElem?_eq_getElem hlt] at this
      simp only [Option.some.injEq] at this
      rw [classMem_litFold 0x2D _ (by omega)]
      simp only [List.get_eq_getElem]
      rw [this]; rfl
    · subst h2
      rw [List.getElem?_eq_getElem hlt] at h14
      simp only [Option.some.injEq] at h14
      rw [classMem_litFold 0x34 _ (by omega)]
      simp only [List.get_eq_getElem]
      rw [h14]; rfl
    · subst h3
      rw [List.getElem?_eq_getElem hlt] at h19
      simp only [Option.some.injEq] at h19
      rw [classMem_variant]
      simp only [List.get_eq_getElem]
      rw [h19]
      exact (hmem _).1 hb19
    · obtain ⟨b, hb, hbh⟩ := hhex i (by omega) (by simpa using h1)
      rw [List.getElem?_eq_getElem hlt] at hb
      simp only [Option.some.injEq] at hb
      rw [classMem_hexFold]
      simp only [List.get_eq_getElem]
      rw [hb]
      exact (isHexDigit_iff b).1 hbh

/-- A string with something before or after a version-4 UUID is none. -/
theorem IsUUIDv4_extra (s p : GoString) (h : IsUUIDv4 s = true) (hp : p ≠ []) :
    IsUUIDv4 (p ++ s) = false ∧ IsUUIDv4 (s ++ p) = false := by
  have hlen := ((IsUUIDv4_iff_aux s).1 h).1
  have hpos : 0 < p.length := List.length_pos.2 hp
  constructor
  · cases h1 : IsUUIDv4 (p ++ s) with
    | false => rfl
    | true =>
      have := ((IsUUIDv4_iff_aux _).1 h1).1
      rw [List.length_append] at this
      omega
  · cases h1 : IsUUIDv4 (s ++ p) with
    | false => rfl
    | true =>
      have := ((IsUUIDv4_iff_aux _).1 h1).1
      rw [List.length_append] at this
      omega

/-! ## The class predicates -/

/-- An anchored `[class]+` over an ASCII class accepts the non-empty strings
whose bytes are all in the class. -/
theorem MatchString_plus_class (ranges : List (Nat × Nat))
    (ha : ∀ r, classMem false false ranges r = true → r < 0x80) (s : GoString) :
    MatchString (.anchored (.plus (.cls false false ranges))) s = true ↔
      s ≠ [] ∧ ∀ b ∈ s, classMem false false ranges b.val = true := by
  have hc : ClassesAscii (Regex.plus (.cls false false ranges)) := ⟨ha, ha⟩
  rw [MatchString_anchored_ascii _ (by rfl) hc, Lang_plus_cls]
  simp

theorem isLetter_class (b : Byte) :
    classMem false false [rng 'A' 'Z', rng 'a' 'z'] b.val = isLetter b := by
  rw [Bool.eq_iff_iff, isLetter_iff]
  simp only [classMem_plain, inRanges_cons, inRanges_nil, rng, Char.reduceToNat, or_false]

theorem alnum_class (b : Byte) :
    classMem false false [rng '0' '9', rng 'A' 'Z', rng 'a' 'z'] b.val =
      (isLetter b || isDigit b) := by
  rw [Bool.eq_iff_iff, Bool.or_eq_true, isLetter_iff, isDigit_iff]
  simp only [classMem_plain, inRanges_cons, inRanges_nil, rng, Char.reduceToNat, or_false]
  constructor <;> intro h <;> omega

theorem xdigit_class (b : Byte) :
    classMem false false [rng '0' '9', rng 'A' 'F', rng 'a' 'f'] b.val = isHexDigit b := by
  rw [Bool.eq_iff_iff, isHexDigit_iff]
  simp only [classMem_plain, inRanges_cons, inRanges_nil, rng, Char.reduceToNat, or_false]

theorem ascii_class (b : Byte) :
    classMem false false [(0x00, 0x7F)] b.val = true ↔ b.val < 0x80 := by
  simp only [classMem_plain, inRanges_cons, inRanges_nil, or_false]
  omega

theorem IsAlpha_iff_aux (s : GoString) :
    IsAlpha s = true ↔ s ≠ [] ∧ ∀ b ∈ s, isLetter b = true := by
  unfold IsAlpha reAlpha
  rw [MatchString_plus_class]
  · simp only [isLetter_class]
  · intro r hr
    simp only [classMem_plain, inRanges_cons, inRanges_nil, rng, Char.reduceToNat, or_false] at hr
    omega

theorem IsAlphanumeric_iff_aux (s : GoString) :
    IsAlphanumeric s = true ↔ s ≠ [] ∧ ∀ b ∈ s, (isLetter b || isDigit b) = true := by
  unfold IsAlphanumeric reAlphanumeric
  rw [MatchString_plus_class]
  · simp only [alnum_class]
  · intro r hr
    simp only [classMem_plain, inRanges_cons, inRanges_nil, rng, Char.reduceToNat, or_false] at hr
    omega

theorem IsHexadecimal_iff_aux (s : GoString) :
    IsHexadecimal s = true ↔ s ≠ [] ∧ ∀ b ∈ s, isHexDigit b = true := by
  unfold IsHexadecimal reHexadecimal
  rw [MatchString_plus_class]
  · simp only [xdigit_class]
  · intro r hr
    simp only [classMem_plain, inRanges_cons, inRanges_nil, rng, Char.reduceToNat, or_false] at hr
    omega

theorem IsAscii_iff_aux (s : GoString) :
    IsAscii s = true ↔ s ≠ [] ∧ ∀ b ∈ s, b.val < 0x80 := by
  unfold IsAscii reAscii
  rw [MatchString_plus_class]
  · simp only [ascii_class]
  · intro r hr
    simp only [classMem_plain, inRanges_cons, inRanges_nil, or_false] at hr
    omega

/-! ## Membership and the constant predicates -/

theorem IsIn_iff_aux (x : GoString) (l : List GoString) : IsIn x l = true ↔ x ∈ l := by
  induction l with
  | nil => simp [IsIn]
  | cons t w ih =>
    unfold IsIn
    by_cases h : t = x
    · simp [h]
    · have h1 : ¬ x = t := fun e => h e.symm
      simp [h, h1, ih]

/-! ## Letter case -/

theorem map_eq_self_iff (f : Byte → Byte) (s : GoString) : s.map f = s ↔ ∀ b ∈ s, f b = b := by
  constructor
  · intro hm
    have h1 : s.map f = s.map id := by rw [List.map_id]; exact hm
    exact fun b hb => List.map_inj_left.1 h1 b hb
  · intro h
    have h1 : s.map f = s.map id := List.map_inj_left.2 h
    rw [h1, List.map_id]

theorem IsLowerCase_ascii (lower : Nat → Nat) (s : GoString) (h : ∀ b ∈ s, b.val < 0x80) :
    IsLowerCase lower s = true ↔ ∀ b ∈ s, ¬ (0x41 ≤ b.val ∧ b.val ≤ 0x5A) := by
  have h1 : s.all (fun c => decide (c.val < 0x80)) = true := by
    simpa [List.all_eq_true] using h
  unfold IsLowerCase ToLower
  simp only [h1, if_true, decide_eq_true_eq]
  by_cases hu : s.any (fun c => decide (0x41 ≤ c.val ∧ c.val ≤ 0x5A)) = true
  · simp only [hu, Bool.not_true, Bool.false_eq_true, if_false]
    obtain ⟨b, hb, hb1⟩ := List.any_eq_true.1 hu
    simp only [decide_eq_true_eq] at hb1
    constructor
    · intro hm
      have h2 := (map_eq_self_iff _ s).1 hm b hb
      rw [if_pos hb1] at h2
      have h3 := congrArg Fin.val h2
      simp only [Fin.ofNat, Nat.succ_eq_add_one, Nat.reduceAdd] at h3
      omega
    · intro hn
      exact absurd hb1 (hn b hb)
  · have hu1 : s.any (fun c => decide (0x41 ≤ c.val ∧ c.val ≤ 0x5A)) = false := by simpa using hu
    simp only [hu1, Bool.not_false, if_true, true_iff]
    intro b hb hb1
    exact hu (List.any_eq_true.2 ⟨b, hb, by simpa using hb1⟩)

theorem IsUpperCase_ascii (upper : Nat → Nat) (s : GoString) (h : ∀ b ∈ s, b.val < 0x80) :
    IsUpperCase upper s = true ↔ ∀ b ∈ s, ¬ (0x61 ≤ b.val ∧ b.val ≤ 0x7A) := by
  have h1 : s.all (fun c => decide (c.val < 0x80)) = true := by
    simpa [List.all_eq_true] using h
  unfold IsUpperCase ToUpper
  simp only [h1, if_true, decide_eq_true_eq]
  by_cases hu : s.any (fun c => decide (0x61 ≤ c.val ∧ c.val ≤ 0x7A)) = true
  · simp only [hu, Bool.not_true, Bool.false_eq_true, if_false]
    obtain ⟨b, hb, hb1⟩ := List.any_eq_true.1 hu
    simp only [decide_eq_true_eq] at hb1
    constructor
    · intro hm
      have h2 := (map_eq_self_iff _ s).1 hm b hb
      rw [if_pos hb1] at h2
      have h3 := congrArg Fin.val h2
      simp only [Fin.ofNat, Nat.succ_eq_add_one, Nat.reduceAdd] at h3
      omega
    · intro hn
      exact absurd hb1 (hn b hb)
  · have hu1 : s.any (fun c => decide (0x61 ≤ c.val ∧ c.val ≤ 0x7A)) = false := by simpa using hu
    simp only [hu1, Bool.not_false, if_true, true_iff]
    intro b hb hb1
    exact hu (List.any_eq_true.2 ⟨b, hb, by simpa using hb1⟩)

theorem isLetter_eq_false_iff (b : Byte) :
    isLetter b = false ↔ ¬ (0x41 ≤ b.val ∧ b.val ≤ 0x5A) ∧ ¬ (0x61 ≤ b.val ∧ b.val ≤ 0x7A) := by
  rw [← Bool.not_eq_true, isLetter_iff]
  omega

/-! ## The conversion `Atoi` -/

theorem natVal_foldl_le (m : Nat) (body : GoString) :
    m ≤ body.foldl (fun n c => n * 10 + (c.val - 0x30)) m := by
  induction body generalizing m with
  | nil => simp
  | cons c rest ih =>
    simp only [List.foldl_cons]
    exact le_trans (by omega) (ih _)

theorem natVal_foldl_lt (m : Nat) (body : GoString) (h : ∀ b ∈ body, isDigit b = true) :
    body.foldl (fun n c => n * 10 + (c.val - 0x30)) m < (m + 1) * 10 ^ body.length := by
  induction body generalizing m with
  | nil => simp
  | cons c rest ih =>
    have hc := (isDigit_iff c).1 (h c (by simp))
    have := ih (m * 10 + (c.val - 0x30)) (fun b hb => h b (by simp [hb]))
    simp only [List.foldl_cons, List.length_cons]
    calc _ < (m * 10 + (c.val - 0x30) + 1) * 10 ^ rest.length := this
      _ ≤ ((m + 1) * 10) * 10 ^ rest.length := Nat.mul_le_mul_right _ (by omega)
      _ = (m + 1) * 10 ^ (rest.length + 1) := by rw [pow_succ]; ring

theorem natVal_lt (body : GoString) (h : ∀ b ∈ body, isDigit b = true) :
    natVal body < 10 ^ body.length := by
  have := natVal_foldl_lt 0 body h
  simpa [natVal] using this

theorem atoiLoop_digits (m : Nat) (body : GoString) (h : ∀ b ∈ body, isDigit b = true) :
    atoiLoop (m : Int) body =
      some ((body.foldl (fun n c => n * 10 + (c.val - 0x30)) m : Nat) : Int) := by
  induction body generalizing m with
  | nil => rfl
  | cons c rest ih =>
    have hc := (isDigit_iff c).1 (h c (by simp))
    have h1 : ¬ 9 < (c.val + 256 - 0x30) % 256 := by omega
    have h2 : ((m : Int) * 10 + (((c.val + 256 - 0x30) % 256 : Nat) : Int)) =
        ((m * 10 + (c.val - 0x30) : Nat) : Int) := by omega
    simp only [atoiLoop, h1, if_false, List.foldl_cons]
    rw [h2]
    exact ih _ (fun b hb => h b (by simp [hb]))

theorem atoiLoop_nondigit (n : Int) (body : GoString) (h : ¬ ∀ b ∈ body, isDigit b = true) :
    atoiLoop n body = none := by
  induction body generalizing n with
  | nil => exact absurd (by simp) h
  | cons c rest ih =>
    by_cases hc : isDigit c = true
    · have hc1 := (isDigit_iff c).1 hc
      have h1 : ¬ 9 < (c.val + 256 - 0x30) % 256 := by omega
      simp only [atoiLoop, h1, if_false]
      apply ih
      intro hr
      apply h
      intro b hb
      rcases List.mem_cons.1 hb with rfl | hb
      · exact hc
      · exact hr b hb
    · have hc1 : ¬ (0x30 ≤ c.val ∧ c.val ≤ 0x39) := fun h2 => hc ((isDigit_iff c).2 h2)
      have h1 : 9 < (c.val + 256 - 0x30) % 256 := by omega
      simp only [atoiLoop, h1, if_true]

/-- The loop of `ParseUint`: without an error the digits are all read and their
number is the result; a syntax error means a byte that is no digit; a range error
means that the digits, if all are digits, denote more than `2^64 - 1`. -/
theorem parseUintLoop_spec (m : Nat) (body : GoString) (hm : m ≤ 2 ^ 64 - 1) :
    ((parseUintLoop m body).2 = none →
      (∀ b ∈ body, isDigit b = true) ∧
        (parseUintLoop m body).1 = body.foldl (fun n c => n * 10 + (c.val - 0x30)) m ∧
        (parseUintLoop m body).1 ≤ 2 ^ 64 - 1) ∧
    ((parseUintLoop m body).2 = some .ErrSyntax → ¬ ∀ b ∈ body, isDigit b = true) ∧
    ((parseUintLoop m body).2 = some .ErrRange →
      (parseUintLoop m body).1 = 2 ^ 64 - 1 ∧
        2 ^ 64 - 1 < body.foldl (fun n c => n * 10 + (c.val - 0x30)) m) := by
  induction body generalizing m with
  | nil =>
    exact ⟨fun _ => ⟨by simp, rfl, hm⟩, by simp [parseUintLoop], by simp [parseUintLoop]⟩
  | cons c rest ih =>
    by_cases hc : 0x30 ≤ c.val ∧ c.val ≤ 0x39
    swap
    · have hd : ¬ (∀ b ∈ c :: rest, isDigit b = true) := by
        intro h
        exact hc ((isDigit_iff c).1 (h c (by simp)))
      exact ⟨by simp [parseUintLoop, hc], fun _ => hd, by simp [parseUintLoop, hc]⟩
    have hdc : isDigit c = true := (isDigit_iff c).2 hc
    by_cases h1 : (2 ^ 64 - 1) / 10 + 1 ≤ m
    · have hge := natVal_foldl_le (m * 10 + (c.val - 0x30)) rest
      simp only [parseUintLoop, hc, not_true_eq_false, if_false, h1, if_true, List.foldl_cons]
      refine ⟨by simp, by simp, fun _ => ⟨rfl, ?_⟩⟩
      omega
    by_cases h2 : 2 ^ 64 - 1 < m * 10 + (c.val - 0x30)
    · have hge := natVal_foldl_le (m * 10 + (c.val - 0x30)) rest
      simp only [parseUintLoop, hc, not_true_eq_false, if_false, h1, h2, if_true,
        List.foldl_cons]
      refine ⟨by simp, by simp, fun _ => ⟨rfl, ?_⟩⟩
      omega
    · have := ih (m * 10 + (c.val - 0x30)) (by omega)
      simp only [parseUintLoop, hc, not_true_eq_false, if_false, h1, h2, List.foldl_cons,
        List.mem_cons, forall_eq_or_imp, hdc, true_and]
      exact this

theorem ParseInt_ok (c : Byte) (rest : GoString) :
    (ParseInt (c :: rest)).2 = none ↔
      (if c.val = 0x2B ∨ c.val = 0x2D then rest else c :: rest) ≠ [] ∧
      (∀ b ∈ (if c.val = 0x2B ∨ c.val = 0x2D then rest else c :: rest), isDigit b = true) ∧
      (if c.val = 0x2D then natVal (if c.val = 0x2B ∨ c.val = 0x2D then rest else c :: rest) ≤ 2 ^ 63
        else natVal (if c.val = 0x2B ∨ c.val = 0x2D then rest else c :: rest) < 2 ^ 63) := by
  generalize hbody : (if c.val = 0x2B ∨ c.val = 0x2D then rest else c :: rest) = body
  have hP : ParseInt (c :: rest) =
      (if (ParseUint body).2 = some .ErrSyntax then (0, (ParseUint body).2)
        else if !decide (c.val = 0x2D) && decide (2 ^ 63 ≤ (ParseUint body).1) then
          (2 ^ 63 - 1, some .ErrRange)
        else if decide (c.val = 0x2D) && decide (2 ^ 63 < (ParseUint body).1) then
          (-(2 ^ 63), some .ErrRange)
        else (if decide (c.val = 0x2D) = true then -((ParseUint body).1 : Int)
          else ((ParseUint body).1 : Int), none)) := by
    simp only [ParseInt, hbody]
  rw [hP]
  by_cases hb : body = []
  · subst hb
    simp [ParseUint]
  have hU : ParseUint body = parseUintLoop 0 body := by simp [ParseUint, hb]
  obtain ⟨s1, s2, s3⟩ := parseUintLoop_spec 0 body (by omega)
  rw [hU]
  rcases hres : (parseUintLoop 0 body).2 with _ | e
  · obtain ⟨hd, hv, hle⟩ := s1 hres
    have hv1 : (parseUintLoop 0 body).1 = natVal body := hv
    simp only [reduceCtorEq, if_false, hv1]
    by_cases hneg : c.val = 0x2D
    · by_cases hr : 9223372036854775808 < natVal body
      · have hr1 : ¬ natVal body ≤ 9223372036854775808 := by omega
        simp [hneg, hr, hr1, hb, hd]
      · have hr1 : natVal body ≤ 9223372036854775808 := by omega
        simp [hneg, hr, hr1, hb]
        exact hd
    · by_cases hr : 9223372036854775808 ≤ natVal body
      · have hr1 : ¬ natVal body < 9223372036854775808 := by omega
        simp [hneg, hr, hr1, hb, hd]
      · have hr1 : natVal body < 9223372036854775808 := by omega
        simp [hneg, hr, hr1, hb]
        exact hd
  · cases e with
    | ErrSyntax =>
      have := s2 hres
      simp only [if_true, reduceCtorEq, false_iff]
      exact fun h => this h.2.1
    | ErrRange =>
      obtain ⟨hmax, hbig⟩ := s3 hres
      have hbig1 : 2 ^ 64 - 1 < natVal body := hbig
      have h0 : ¬ (some NumError.ErrRange = some NumError.ErrSyntax) := by simp
      simp only [h0, if_false]
      have hbig2 : 9223372036854775808 < natVal body := by omega
      have hbig3 : 9223372036854775808 ≤ natVal body := by omega
      by_cases hneg : c.val = 0x2D
      · have hr1 : ¬ natVal body ≤ 9223372036854775808 := by omega
        simp [hneg, hr1, hmax]
      · have hr1 : ¬ natVal body < 9223372036854775808 := by omega
        simp [hneg, hr1, hmax]

/-- When `Atoi` reports no error: after an optional sign come digits, at least one,
and their number fits a 64-bit `int`. -/
theorem Atoi_ok (c : Byte) (rest : GoString) :
    (Atoi (c :: rest)).2 = none ↔
      (if c.val = 0x2B ∨ c.val = 0x2D then rest else c :: rest) ≠ [] ∧
      (∀ b ∈ (if c.val = 0x2B ∨ c.val = 0x2D then rest else c :: rest), isDigit b = true) ∧
      (if c.val = 0x2D then natVal (if c.val = 0x2B ∨ c.val = 0x2D then rest else c :: rest) ≤ 2 ^ 63
        else natVal (if c.val = 0x2B ∨ c.val = 0x2D then rest else c :: rest) < 2 ^ 63) := by
  by_cases hlen : (c :: rest).length < 19
  swap
  · have : Atoi (c :: rest) = ParseInt (c :: rest) := by
      simp only [Atoi, hlen, if_false]
    rw [this]
    exact ParseInt_ok c rest
  have hA : Atoi (c :: rest) =
      (if (decide (c.val = 0x2D ∨ c.val = 0x2B) &&
          decide ((if decide (c.val = 0x2D ∨ c.val = 0x2B) = true then rest else c :: rest).length < 1))
          = true then (0, some .ErrSyntax)
        else
          match atoiLoop 0 (if decide (c.val = 0x2D ∨ c.val = 0x2B) = true then rest else c :: rest) with
          | none => (0, some .ErrSyntax)
          | some n => (if c.val = 0x2D then -n else n, none)) := by
    simp only [Atoi, hlen, if_true]
  rw [hA]
  have hsign : (c.val = 0x2D ∨ c.val = 0x2B) ↔ (c.val = 0x2B ∨ c.val = 0x2D) := Or.comm
  simp only [decide_eq_true_eq, hsign]
  generalize hbody : (if c.val = 0x2B ∨ c.val = 0x2D then rest else c :: rest) = body
  have hblen : body.length ≤ 18 := by
    rw [← hbody]
    split_ifs
    · simp only [List.length_cons] at hlen; omega
    · simp only [List.length_cons] at hlen ⊢; omega
  have hrange : (∀ b ∈ body, isDigit b = true) → natVal body < 2 ^ 63 := by
    intro hd
    have h1 := natVal_lt body hd
    have h2 : 10 ^ body.length ≤ 10 ^ 18 := Nat.pow_le_pow_right (by omega) hblen
    have h3 : (10 : Nat) ^ 18 < 2 ^ 63 := by norm_num
    omega
  by_cases hb : body = []
  · subst hb
    by_cases hs : c.val = 0x2B ∨ c.val = 0x2D
    · simp [hs]
    · rw [if_neg hs] at hbody
      exact absurd hbody (by simp)
  have hb1 : ¬ body.length < 1 := by
    intro h
    exact hb (List.length_eq_zero.1 (by omega))
  simp only [hb1, decide_False, Bool.and_false, Bool.false_eq_true, if_false]
  by_cases hd : ∀ b ∈ body, isDigit b = true
  · have := atoiLoop_digits 0 body hd
    simp only [Nat.cast_zero] at this
    rw [this]
    have hr := hrange hd
    simp only [ne_eq, hb, not_false_eq_true, true_and, true_iff]
    refine ⟨hd, ?_⟩
    split_ifs <;> omega
  · rw [atoiLoop_nondigit 0 body hd]
    simp only [reduceCtorEq, false_iff]
    exact fun h => hd h.2.1

/-- The strings `IsInt` accepts. -/
theorem IsInt_iff_aux (s : GoString) :
    IsInt s = true ↔
      ∃ sign body : GoString, s = sign ++ body ∧
        (sign = [] ∨ sign = goStr "+" ∨ sign = goStr "-") ∧
        body ≠ [] ∧ (∀ b ∈ body, isDigit b = true) ∧
        -(2 : Int) ^ 63 ≤ intVal sign body ∧ intVal sign body ≤ 2 ^ 63 - 1 := by
  have hplus : goStr "+" = [0x2B] := by decide
  have hminus : goStr "-" = [0x2D] := by decide
  have hI : IsInt s = true ↔ (Atoi s).2 = none := by
    unfold IsInt
    by_cases h : (Atoi s).2 = none <;> simp [h]
  rw [hI, hplus, hminus]
  rcases s with _ | ⟨c, rest⟩
  · constructor
    · intro h
      exact absurd h (by simp [Atoi, ParseInt])
    · rintro ⟨sign, body, hs, _, hb, _⟩
      exact absurd (List.append_eq_nil.1 hs.symm).2 hb
  rw [Atoi_ok]
  have hne1 : ¬ ([0x2B] : GoString) = [0x2D] := by decide
  have hne2 : ¬ ([] : GoString) = [0x2D] := by decide
  by_cases hp : c.val = 0x2B
  · have hc : c = 0x2B := Fin.ext hp
    have hs : c.val = 0x2B ∨ c.val = 0x2D := Or.inl hp
    have hm : ¬ c.val = 0x2D := by omega
    simp only [if_pos hs, if_neg hm]
    constructor
    · rintro ⟨hb, hd, hr⟩
      refine ⟨[0x2B], rest, by rw [hc]; rfl, Or.inr (Or.inl rfl), hb, hd, ?_⟩
      simp only [intVal, hminus, hne1, if_false]
      omega
    · rintro ⟨sign, body, hs, hsign, hb, hd, hr1, hr2⟩
      rcases hsign with rfl | rfl | rfl
      · simp only [List.nil_append] at hs
        subst hs
        have := (isDigit_iff c).1 (hd c (by simp))
        omega
      · simp only [List.singleton_append, List.cons.injEq] at hs
        obtain ⟨_, rfl⟩ := hs
        simp only [intVal, hminus, hne1, if_false] at hr2
        exact ⟨hb, hd, by omega⟩
      · simp only [List.singleton_append, List.cons.injEq] at hs
        rw [hs.1] at hp
        exact absurd hp (by decide)
  by_cases hm : c.val = 0x2D
  · have hc : c = 0x2D := Fin.ext hm
    have hs : c.val = 0x2B ∨ c.val = 0x2D := Or.inr hm
    simp only [if_pos hs, if_pos hm]
    constructor
    · rintro ⟨hb, hd, hr⟩
      refine ⟨[0x2D], rest, by rw [hc]; rfl, Or.inr (Or.inr rfl), hb, hd, ?_⟩
      simp only [intVal, hminus, if_true]
      omega
    · rintro ⟨sign, body, hs, hsign, hb, hd, hr1, hr2⟩
      rcases hsign with rfl | rfl | rfl
      · simp only [List.nil_append] at hs
        subst hs
        have := (isDigit_iff c).1 (hd c (by simp))
        omega
      · simp only [List.singleton_append, List.cons.injEq] at hs
        rw [hs.1] at hm
        exact absurd hm (by decide)
      · simp only [List.singleton_append, List.cons.injEq] at hs
        obtain ⟨_, rfl⟩ := hs
        simp only [intVal, hminus, if_true] at hr1
        exact ⟨hb, hd, by omega⟩
  · have hs : ¬ (c.val = 0x2B ∨ c.val = 0x2D) := by omega
    simp only [if_neg hs, if_neg hm]
    constructor
    · rintro ⟨hb, hd, hr⟩
      refine ⟨[], c :: rest, rfl, Or.inl rfl, hb, hd, ?_⟩
      simp only [intVal, hminus, hne2, if_false]
      omega
    · rintro ⟨sign, body, hs, hsign, hb, hd, hr1, hr2⟩
      rcases hsign with rfl | rfl | rfl
      · simp only [List.nil_append] at hs
        subst hs
        simp only [intVal, hminus, hne2, if_false] at hr2
        exact ⟨hb, hd, by omega⟩
      · simp only [List.singleton_append, List.cons.injEq] at hs
        rw [hs.1] at hp
        exact absurd rfl hp
      · simp only [List.singleton_append, List.cons.injEq] at hs
        rw [hs.1] at hm
        exact absurd rfl hm

/-- The index and slice expressions of `IsISBNv10` are in range and its digit
conversions succeed once the pattern has accepted the sanitized string. -/
theorem IsISBNv10_safe (t : GoString) (hm : MatchString possibleISBNv10 t = true) :
    t.length = 10 ∧ (∀ b ∈ t, b.val < 0x80) ∧
      (∃ head, sliceTo t 9 = some head ∧
        ∀ p ∈ rangeString head, ∃ d : Byte, isDigit d = true ∧ EncodeRune p.2 = [d] ∧
          (Atoi (EncodeRune p.2)).2 = none) ∧
      (∃ c, t[9]? = some c ∧
        (EncodeRune c.val = goStr "X" ∨
          (isDigit c = true ∧ (Atoi (EncodeRune c.val)).2 = none))) := by
  obtain ⟨b0, b1, b2, b3, b4, b5, b6, b7, b8, b9, rfl, h0, h1, h2, h3, h4, h5, h6, h7, h8, h9⟩ :=
    (isbn10_match _).1 hm
  have a0 := isDigit_lt _ h0
  have a1 := isDigit_lt _ h1
  have a2 := isDigit_lt _ h2
  have a3 := isDigit_lt _ h3
  have a4 := isDigit_lt _ h4
  have a5 := isDigit_lt _ h5
  have a6 := isDigit_lt _ h6
  have a7 := isDigit_lt _ h7
  have a8 := isDigit_lt _ h8
  have a9 : b9.val < 0x80 := by
    rcases h9 with h9 | rfl
    · exact isDigit_lt _ h9
    · decide
  refine ⟨rfl, ?_, ?_, ?_⟩
  · simp only [List.mem_cons, List.mem_singleton, List.not_mem_nil, or_false, forall_eq_or_imp,
      forall_eq]
    exact ⟨a0, a1, a2, a3, a4, a5, a6, a7, a8, a9⟩
  · refine ⟨[b0, b1, b2, b3, b4, b5, b6, b7, b8], rfl, ?_⟩
    have hr : rangeString [b0, b1, b2, b3, b4, b5, b6, b7, b8] =
        [(0, b0.val), (1, b1.val), (2, b2.val), (3, b3.val), (4, b4.val), (5, b5.val),
          (6, b6.val), (7, b7.val), (8, b8.val)] := by
      unfold rangeString
      rw [rangeAux_ascii_cons _ _ _ a0, rangeAux_ascii_cons _ _ _ a1, rangeAux_ascii_cons _ _ _ a2,
        rangeAux_ascii_cons _ _ _ a3, rangeAux_ascii_cons _ _ _ a4, rangeAux_ascii_cons _ _ _ a5,
        rangeAux_ascii_cons _ _ _ a6, rangeAux_ascii_cons _ _ _ a7, rangeAux_ascii_cons _ _ _ a8,
        rangeAux_tokens_nil]
    rw [hr]
    have key : ∀ b : Byte, isDigit b = true → ∃ d : Byte, isDigit d = true ∧
        EncodeRune b.val = [d] ∧ (Atoi (EncodeRune b.val)).2 = none := by
      intro b hb
      refine ⟨b, hb, EncodeRune_ascii b (isDigit_lt _ hb), ?_⟩
      rw [EncodeRune_ascii b (isDigit_lt _ hb), Atoi_digit b hb]
    simp only [List.mem_cons, List.mem_singleton, List.not_mem_nil, or_false, forall_eq_or_imp,
      forall_eq]
    exact ⟨key _ h0, key _ h1, key _ h2, key _ h3, key _ h4, key _ h5, key _ h6, key _ h7,
      key _ h8⟩
  · refine ⟨b9, rfl, ?_⟩
    rcases h9 with h9 | rfl
    · right
      refine ⟨h9, ?_⟩
      rw [EncodeRune_ascii b9 a9, Atoi_digit b9 h9]
    · left
      decide

/-- The index and slice expressions of `IsISBNv13` are in range and its digit
conversions succeed once the pattern has accepted the sanitized string. -/
theorem IsISBNv13_safe (t : GoString) (hm : MatchString possibleISBNv13 t = true) :
    t.length = 13 ∧ (∀ b ∈ t, b.val < 0x80) ∧
      (∃ head, sliceTo t 12 = some head ∧
        ∀ p ∈ rangeString head, ∃ d : Byte, isDigit d = true ∧ EncodeRune p.2 = [d] ∧
          (Atoi (EncodeRune p.2)).2 = none) ∧
      (∃ c, t[12]? = some c ∧ isDigit c = true ∧ (Atoi (EncodeRune c.val)).2 = none) := by
  obtain ⟨b0, b1, b2, b3, b4, b5, b6, b7, b8, b9, b10, b11, b12, rfl, h0, h1, h2, h3, h4, h5, h6,
    h7, h8, h9, h10, h11, h12⟩ := (isbn13_match _).1 hm
  have a0 := isDigit_lt _ h0
  have a1 := isDigit_lt _ h1
  have a2 := isDigit_lt _ h2
  have a3 := isDigit_lt _ h3
  have a4 := isDigit_lt _ h4
  have a5 := isDigit_lt _ h5
  have a6 := isDigit_lt _ h6
  have a7 := isDigit_lt _ h7
  have a8 := isDigit_lt _ h8
  have a9 := isDigit_lt _ h9
  have a10 := isDigit_lt _ h10
  have a11 := isDigit_lt _ h11
  have a12 := isDigit_lt _ h12
  refine ⟨rfl, ?_, ?_, ?_⟩
  · simp only [List.mem_cons, List.mem_singleton, List.not_mem_nil, or_false, forall_eq_or_imp,
      forall_eq]
    exact ⟨a0, a1, a2, a3, a4, a5, a6, a7, a8, a9, a10, a11, a12⟩
  · refine ⟨[b0, b1, b2, b3, b4, b5, b6, b7, b8, b9, b10, b11], rfl, ?_⟩
    have hr : rangeString [b0, b1, b2, b3, b4, b5, b6, b7, b8, b9, b10, b11] =
        [(0, b0.val), (1, b1.val), (2, b2.val), (3, b3.val), (4, b4.val), (5, b5.val),
          (6, b6.val), (7, b7.val), (8, b8.val), (9, b9.val), (10, b10.val), (11, b11.val)] := by
      unfold rangeString
      rw [rangeAux_ascii_cons _ _ _ a0, rangeAux_ascii_cons _ _ _ a1, rangeAux_ascii_cons _ _ _ a2,
        rangeAux_ascii_cons _ _ _ a3, rangeAux_ascii_cons _ _ _ a4, rangeAux_ascii_cons _ _ _ a5,
        rangeAux_ascii_cons _ _ _ a6, rangeAux_ascii_cons _ _ _ a7, rangeAux_ascii_cons _ _ _ a8,
        rangeAux_ascii_cons _ _ _ a9, rangeAux_ascii_cons _ _ _ a10,
        rangeAux_ascii_cons _ _ _ a11, rangeAux_tokens_nil]
    rw [hr]
    have key : ∀ b : Byte, isDigit b = true → ∃ d : Byte, isDigit d = true ∧
        EncodeRune b.val = [d] ∧ (Atoi (EncodeRune b.val)).2 = none := by
      intro b hb
      refine ⟨b, hb, EncodeRune_ascii b (isDigit_lt _ hb), ?_⟩
      rw [EncodeRune_ascii b (isDigit_lt _ hb), Atoi_digit b hb]
    simp only [List.mem_cons, List.mem_singleton, List.not_mem_nil, or_false, forall_eq_or_imp,
      forall_eq]
    exact ⟨key _ h0, key _ h1, key _ h2, key _ h3, key _ h4, key _ h5, key _ h6, key _ h7,
      key _ h8, key _ h9, key _ h10, key _ h11⟩
  · refine ⟨b12, rfl, h12, ?_⟩
    rw [EncodeRune_ascii b12 a12, Atoi_digit b12 h12]

/-- The predicate `IsISBNv10` returns a boolean on every input. -/
theorem IsISBNv10_total (s : GoString) : ∃ b, IsISBNv10 s = some b := by
  cases hm : MatchString possibleISBNv10 (strip s) with
  | false => exact ⟨false, IsISBNv10_reject s hm⟩
  | true =>
    obtain ⟨b0, b1, b2, b3, b4, b5, b6, b7, b8, b9, hs, h0, h1, h2, h3, h4, h5, h6, h7, h8, h9⟩ :=
      (isbn10_match _).1 hm
    exact ⟨_, IsISBNv10_eval s b0 b1 b2 b3 b4 b5 b6 b7 b8 b9 hs h0 h1 h2 h3 h4 h5 h6 h7 h8 h9⟩

/-- The predicate `IsISBNv13` returns a boolean on every input. -/
theorem IsISBNv13_total (s : GoString) : ∃ b, IsISBNv13 s = some b := by
  cases hm : MatchString possibleISBNv13 (strip s) with
  | false => exact ⟨false, IsISBNv13_reject s hm⟩
  | true =>
    obtain ⟨b0, b1, b2, b3, b4, b5, b6, b7, b8, b9, b10, b11, b12, hs, h0, h1, h2, h3, h4, h5, h6,
      h7, h8, h9, h10, h11, h12⟩ := (isbn13_match _).1 hm
    exact ⟨_, IsISBNv13_eval s b0 b1 b2 b3 b4 b5 b6 b7 b8 b9 b10 b11 b12 hs h0 h1 h2 h3 h4 h5 h6 h7
      h8 h9 h10 h11 h12⟩

/-- Neither a decimal digit nor `X` is a hyphen or a whitespace character. -/
theorem isSeparator_isbn (b : Byte) (h : isDigit b = true ∨ b = 0x58) : isSeparator b = false := by
  rcases h with h | rfl
  · rw [isDigit_iff] at h
    simp only [isSeparator, Bool.or_eq_false_iff, decide_eq_false_iff_not]
    omega
  · decide

/-- Sanitizing changes nothing in a string of decimal digits and `X`. -/
theorem strip_isbn (s : GoString) (h : ∀ b ∈ s, isDigit b = true ∨ b = 0x58) : strip s = s := by
  unfold strip
  rw [List.filter_eq_self]
  intro b hb
  rw [isSeparator_isbn b (h b hb)]
  rfl

/-- A string that keeps its length when sanitized has no separator. -/
theorem strip_eq_of_length (t : GoString) (h : (strip t).length = t.length) : strip t = t := by
  unfold strip at h ⊢
  rw [List.filter_eq_self]
  exact List.filter_length_eq_length.1 h

/-- A weight between 1 and 10 is invertible modulo 11: two sums that differ in one
weighted term only are not both multiples of 11. -/
theorem mod11_cancel (w d e R : Nat) (hw : 1 ≤ w ∧ w ≤ 10) (hd : d ≤ 10) (he : e ≤ 10)
    (hne : d ≠ e) (h1 : (w * d + R) % 11 = 0) : ¬ (w * e + R) % 11 = 0 := by
  intro h2
  have h : w * d + R ≡ w * e + R [MOD 11] := by
    unfold Nat.ModEq
    rw [h1, h2]
  have h3 : w * d ≡ w * e [MOD 11] := Nat.ModEq.add_right_cancel' R h
  have hcop : Nat.gcd 11 w = 1 := by
    obtain ⟨hw1, hw2⟩ := hw
    interval_cases w <;> decide
  have h4 : d ≡ e [MOD 11] := Nat.ModEq.cancel_left_of_coprime hcop h3
  exact hne (Nat.ModEq.eq_of_lt_of_lt h4 (by omega) (by omega))

theorem checkVal_le (b : Byte) (h : isDigit b = true ∨ b = 0x58) : checkVal b ≤ 10 := by
  rcases h with h | rfl
  · rw [isDigit_iff] at h
    unfold checkVal
    split_ifs <;> omega
  · decide

theorem checkVal_inj (b c : Byte) (hb : isDigit b = true ∨ b = 0x58)
    (hc : isDigit c = true ∨ c = 0x58) (h : checkVal b = checkVal c) : b = c := by
  rcases hb with hb | rfl <;> rcases hc with hc | rfl
  · rw [isDigit_iff] at hb hc
    have h1 : ¬ b = 0x58 := fun h => by rw [h] at hb; exact absurd hb (by decide)
    have h2 : ¬ c = 0x58 := fun h => by rw [h] at hc; exact absurd hc (by decide)
    simp only [checkVal, if_neg h1, if_neg h2] at h
    exact Fin.ext (by omega)
  · rw [isDigit_iff] at hb
    have h1 : ¬ b = 0x58 := fun h => by rw [h] at hb; exact absurd hb (by decide)
    simp only [checkVal, if_neg h1, if_true] at h
    omega
  · rw [isDigit_iff] at hc
    have h2 : ¬ c = 0x58 := fun h => by rw [h] at hc; exact absurd hc (by decide)
    simp only [checkVal, if_neg h2, if_true] at h
    omega
  · rfl

theorem digitVal_le (b : Byte) (h : isDigit b = true) : digitVal b ≤ 10 := by
  rw [isDigit_iff] at h
  unfold digitVal
  omega

theorem digitVal_inj (b c : Byte) (hb : isDigit b = true) (hc : isDigit c = true)
    (h : digitVal b = digitVal c) : b = c := by
  rw [isDigit_iff] at hb hc
  unfold digitVal at h
  exact Fin.ext (by omega)

theorem digitVal_le_nine (b : Byte) (h : isDigit b = true) : digitVal b ≤ 9 := by
  rw [isDigit_iff] at h
  unfold digitVal
  omega

/-- The weights 1 and 3 are invertible modulo 10: two sums that differ in one
weighted digit only do not have the same check digit. -/
theorem mod10_cancel (w d e R k : Nat) (hw : w = 1 ∨ w = 3) (hd : d ≤ 9) (he : e ≤ 9)
    (hne : d ≠ e) (h1 : k = (10 - (w * d + R) % 10) % 10) :
    ¬ k = (10 - (w * e + R) % 10) % 10 := by
  rcases hw with rfl | rfl <;> omega

/-- Every value from 0 to 10 is the value of a decimal digit or of `X`. -/
theorem checkVal_surj (v : Nat) (hv : v ≤ 10) :
    ∃ c : Byte, (isDigit c = true ∨ c = 0x58) ∧ checkVal c = v := by
  interval_cases v
  · exact ⟨0x30, by decide⟩
  · exact ⟨0x31, by decide⟩
  · exact ⟨0x32, by decide⟩
  · exact ⟨0x33, by decide⟩
  · exact ⟨0x34, by decide⟩
  · exact ⟨0x35, by decide⟩
  · exact ⟨0x36, by decide⟩
  · exact ⟨0x37, by decide⟩
  · exact ⟨0x38, by decide⟩
  · exact ⟨0x39, by decide⟩
  · exact ⟨0x58, by decide⟩

/-- Every value from 0 to 9 is the value of a decimal digit. -/
theorem digitVal_surj (v : Nat) (hv : v ≤ 9) :
    ∃ c : Byte, isDigit c = true ∧ digitVal c = v := by
  interval_cases v
  · exact ⟨0x30, by decide⟩
  · exact ⟨0x31, by decide⟩
  · exact ⟨0x32, by decide⟩
  · exact ⟨0x33, by decide⟩
  · exact ⟨0x34, by decide⟩
  · exact ⟨0x35, by decide⟩
  · exact ⟨0x36, by decide⟩
  · exact ⟨0x37, by decide⟩
  · exact ⟨0x38, by decide⟩
  · exact ⟨0x39, by decide⟩

/-- The check characters that complete nine digits to an ISBN-10. -/
theorem IsISBNv10_check (p : GoString) (hp : p.length = 9) (hpd : ∀ b ∈ p, isDigit b = true) :
    ∃ S : Nat, ∀ c : Byte, isDigit c = true ∨ c = 0x58 →
      (IsISBNv10 (p ++ [c]) = some true ↔ (S + 10 * checkVal c) % 11 = 0) := by
  rcases p with _ | ⟨b0, p⟩
  · simp only [List.length_cons, List.length_nil] at hp; omega
  rcases p with _ | ⟨b1, p⟩
  · simp only [List.length_cons, List.length_nil] at hp; omega
  rcases p with _ | ⟨b2, p⟩
  · simp only [List.length_cons, List.length_nil] at hp; omega
  rcases p with _ | ⟨b3, p⟩
  · simp only [List.length_cons, List.length_nil] at hp; omega
  rcases p with _ | ⟨b4, p⟩
  · simp only [List.length_cons, List.length_nil] at hp; omega
  rcases p with _ | ⟨b5, p⟩
  · simp only [List.length_cons, List.length_nil] at hp; omega
  rcases p with _ | ⟨b6, p⟩
  · simp only [List.length_cons, List.length_nil] at hp; omega
  rcases p with _ | ⟨b7, p⟩
  · simp only [List.length_cons, List.length_nil] at hp; omega
  rcases p with _ | ⟨b8, p⟩
  · simp only [List.length_cons, List.length_nil] at hp; omega
  rcases p with _ | ⟨x, p⟩
  swap
  · simp only [List.length_cons] at hp; omega
  refine ⟨1 * digitVal b0 + 2 * digitVal b1 + 3 * digitVal b2 + 4 * digitVal b3 + 5 * digitVal b4 + 6 * digitVal b5 + 7 * digitVal b6 + 8 * digitVal b7 + 9 * digitVal b8, fun c hc => ?_⟩
  show IsISBNv10 [b0, b1, b2, b3, b4, b5, b6, b7, b8, c] = some true ↔ _
  rw [IsISBNv10_eval _ b0 b1 b2 b3 b4 b5 b6 b7 b8 c (strip_isbn _ (by
    intro y hy
    rcases List.mem_append.1 (show y ∈ [b0, b1, b2, b3, b4, b5, b6, b7, b8] ++ [c] from hy) with h | h
    · exact Or.inl (hpd y h)
    · rw [List.mem_singleton.1 h]; exact hc))
    (hpd b0 (by simp)) (hpd b1 (by simp)) (hpd b2 (by simp)) (hpd b3 (by simp)) (hpd b4 (by simp)) (hpd b5 (by simp)) (hpd b6 (by simp)) (hpd b7 (by simp)) (hpd b8 (by simp)) hc]
  rw [Option.some.injEq, decide_eq_true_eq]
  rfl

/-- The check digit that completes twelve digits to an ISBN-13. -/
theorem IsISBNv13_check (q : GoString) (hq : q.length = 12) (hqd : ∀ b ∈ q, isDigit b = true) :
    ∃ T : Nat, ∀ c : Byte, isDigit c = true →
      (IsISBNv13 (q ++ [c]) = some true ↔ digitVal c = (10 - T % 10) % 10) := by
  rcases q with _ | ⟨d0, q⟩
  · simp only [List.length_cons, List.length_nil] at hq; omega
  rcases q with _ | ⟨d1, q⟩
  · simp only [List.length_cons, List.length_nil] at hq; omega
  rcases q with _ | ⟨d2, q⟩
  · simp only [List.length_cons, List.length_nil] at hq; omega
  rcases q with _ | ⟨d3, q⟩
  · simp only [List.length_cons, List.length_nil] at hq; omega
  rcases q with _ | ⟨d4, q⟩
  · simp only [List.length_cons, List.length_nil] at hq; omega
  rcases q with _ | ⟨d5, q⟩
  · simp only [List.length_cons, List.length_nil] at hq; omega
  rcases q with _ | ⟨d6, q⟩
  · simp only [List.length_cons, List.length_nil] at hq; omega
  rcases q with _ | ⟨d7, q⟩
  · simp only [List.length_cons, List.length_nil] at hq; omega
  rcases q with _ | ⟨d8, q⟩
  · simp only [List.length_cons, List.length_nil] at hq; omega
  rcases q with _ | ⟨d9, q⟩
  · simp only [List.length_cons, List.length_nil] at hq; omega
  rcases q with _ | ⟨d10, q⟩
  · simp only [List.length_cons, List.length_nil] at hq; omega
  rcases q with _ | ⟨d11, q⟩
  · simp only [List.length_cons, List.length_nil] at hq; omega
  rcases q with _ | ⟨x, q⟩
  swap
  · simp only [List.length_cons] at hq; omega
  refine ⟨1 * digitVal d0 + 3 * digitVal d1 + 1 * digitVal d2 + 3 * digitVal d3 + 1 * digitVal d4 + 3 * digitVal d5 + 1 * digitVal d6 + 3 * digitVal d7 + 1 * digitVal d8 + 3 * digitVal d9 + 1 * digitVal d10 + 3 * digitVal d11, fun c hc => ?_⟩
  show IsISBNv13 [d0, d1, d2, d3, d4, d5, d6, d7, d8, d9, d10, d11, c] = some true ↔ _
  rw [IsISBNv13_eval _ d0 d1 d2 d3 d4 d5 d6 d7 d8 d9 d10 d11 c (strip_isbn _ (by
    intro y hy
    rcases List.mem_append.1 (show y ∈ [d0, d1, d2, d3, d4, d5, d6, d7, d8, d9, d10, d11] ++ [c] from hy) with h | h
    · exact Or.inl (hqd y h)
    · rw [List.mem_singleton.1 h]; exact Or.inl hc))
    (hqd d0 (by simp)) (hqd d1 (by simp)) (hqd d2 (by simp)) (hqd d3 (by simp)) (hqd d4 (by simp)) (hqd d5 (by simp)) (hqd d6 (by simp)) (hqd d7 (by simp)) (hqd d8 (by simp)) (hqd d9 (by simp)) (hqd d10 (by simp)) (hqd d11 (by simp)) hc]
  rw [Option.some.injEq, decide_eq_true_eq]
  rfl

/-! ## The claims -/

/-- C1. `IsISBNv10(s)` is true exactly when `s` without hyphens and ASCII whitespace
is ten characters, nine decimal digits `d0..d8` and a decimal digit or `X` (worth
10) `d9`, with `(1*d0 + 2*d1 + ... + 9*d8 + 10*d9) mod 11 = 0`;
`IsISBNv10("340101319X")` is true and `IsISBNv10("3423214121")` is false. -/
theorem IsISBNv10_iff :
    (∀ s : GoString, IsISBNv10 s = some true ↔
      ∃ b0 b1 b2 b3 b4 b5 b6 b7 b8 b9 : Byte,
        strip s = [b0, b1, b2, b3, b4, b5, b6, b7, b8, b9] ∧
        isDigit b0 = true ∧ isDigit b1 = true ∧ isDigit b2 = true ∧ isDigit b3 = true ∧
        isDigit b4 = true ∧ isDigit b5 = true ∧ isDigit b6 = true ∧ isDigit b7 = true ∧
        isDigit b8 = true ∧ (isDigit b9 = true ∨ b9 = 0x58) ∧
        (1 * digitVal b0 + 2 * digitVal b1 + 3 * digitVal b2 + 4 * digitVal b3 +
          5 * digitVal b4 + 6 * digitVal b5 + 7 * digitVal b6 + 8 * digitVal b7 +
          9 * digitVal b8 + 10 * checkVal b9) % 11 = 0) ∧
    IsISBNv10 (goStr "340101319X") = some true ∧
    IsISBNv10 (goStr "3423214121") = some false :=
  ⟨IsISBNv10_iff_aux, by decide, by decide⟩

/-- C2. `IsISBNv13(s)` is true exactly when `s` without hyphens and ASCII whitespace
is thirteen decimal digits `d0..d12` with
`d12 = (10 - ((d0 + 3*d1 + d2 + 3*d3 + ... + d10 + 3*d11) mod 10)) mod 10`;
`IsISBNv13("9784873113685")` is true and `IsISBNv13("9783836221190")` is false. -/
theorem IsISBNv13_iff :
    (∀ s : GoString, IsISBNv13 s = some true ↔
      ∃ b0 b1 b2 b3 b4 b5 b6 b7 b8 b9 b10 b11 b12 : Byte,
        strip s = [b0, b1, b2, b3, b4, b5, b6, b7, b8, b9, b10, b11, b12] ∧
        isDigit b0 = true ∧ isDigit b1 = true ∧ isDigit b2 = true ∧ isDigit b3 = true ∧
        isDigit b4 = true ∧ isDigit b5 = true ∧ isDigit b6 = true ∧ isDigit b7 = true ∧
        isDigit b8 = true ∧ isDigit b9 = true ∧ isDigit b10 = true ∧ isDigit b11 = true ∧
        isDigit b12 = true ∧
        digitVal b12 = (10 - (1 * digitVal b0 + 3 * digitVal b1 + 1 * digitVal b2 + 3 * digitVal b3 +
          1 * digitVal b4 + 3 * digitVal b5 + 1 * digitVal b6 + 3 * digitVal b7 +
          1 * digitVal b8 + 3 * digitVal b9 + 1 * digitVal b10 + 3 * digitVal b11) % 10) % 10) ∧
    IsISBNv13 (goStr "9784873113685") = some true ∧
    IsISBNv13 (goStr "9783836221190") = some false :=
  ⟨IsISBNv13_iff_aux, by decide, by decide⟩

/-- C3. Two strings that are equal once their hyphens and ASCII whitespace
characters are deleted get the same answer from `IsISBNv10`, from `IsISBNv13` and
from `IsISBN`. -/
theorem ISBN_separator_invariant (s s1 : GoString) (h : strip s = strip s1) :
    IsISBNv10 s = IsISBNv10 s1 ∧ IsISBNv13 s = IsISBNv13 s1 ∧ IsISBN s = IsISBN s1 :=
  IsISBN_strip s s1 h

/-- C3, witness: `3-8362-2119-5` and `3 8362 2119 5` are both `3836221195` once
sanitized, and `IsISBNv10` is true on all three. -/
theorem ISBN_separator_invariant_witness :
    (strip (goStr "3-8362-2119-5") = strip (goStr "3 8362 2119 5") ∧
      strip (goStr "3-8362-2119-5") = goStr "3836221195" ∧
      IsISBNv10 (goStr "3836221195") = some true) ∧
    (IsISBNv10 (goStr "3-8362-2119-5") = IsISBNv10 (goStr "3 8362 2119 5") ∧
      IsISBNv13 (goStr "3-8362-2119-5") = IsISBNv13 (goStr "3 8362 2119 5") ∧
      IsISBN (goStr "3-8362-2119-5") = IsISBN (goStr "3 8362 2119 5")) :=
  ⟨by decide, ISBN_separator_invariant _ _ (by decide)⟩

/-- C4, counterexample. For the nine digits `340101319`, `IsISBNv10("340101319x")`
is false and `IsISBNv10("340101319X")` is true. -/
theorem IsISBNv10_lower_counterexample :
    (goStr "340101319").length = 9 ∧ (goStr "340101319").all isDigit = true ∧
      IsISBNv10 (goStr "340101319" ++ goStr "x") ≠ IsISBNv10 (goStr "340101319" ++ goStr "X") := by
  decide

/-- C4, amended. The check character `X` is accepted in upper case only: for
every string `p`, of nine decimal digits or not, `IsISBNv10(p + "x")` is false;
so `IsISBNv10("340101319x")` is false, while `IsISBNv10("340101319X")` is true. -/
theorem IsISBNv10_lower_x :
    (∀ p : GoString, IsISBNv10 (p ++ goStr "x") = some false) ∧
      IsISBNv10 (goStr "340101319x") = some false ∧
      IsISBNv10 (goStr "340101319X") = some true :=
  ⟨IsISBNv10_lower, by decide, by decide⟩

/-- C5, counterexample. The test string `A987FBC9-4BED-3078-CF07-9141BA07C9F3` is
accepted by `IsUUIDv3` although its character at index 19 is `C`, which is none
of `8`, `9`, `A`, `B`, `a`, `b`. -/
theorem IsUUIDv3_variant_counterexample :
    IsUUIDv3 (goStr "A987FBC9-4BED-3078-CF07-9141BA07C9F3") = true ∧
      (goStr "A987FBC9-4BED-3078-CF07-9141BA07C9F3")[19]? = some 0x43 ∧
      (0x43 : Byte) ∉ goStr "89ABab" := by
  decide

/-- C5, amended. When `IsUUIDv3(s)` is true, the character of `s` at index 19 is a
hexadecimal digit (`0-9`, `a-f`, `A-F`). -/
theorem IsUUIDv3_variant (s : GoString) (h : IsUUIDv3 s = true) :
    ∃ b, s[19]? = some b ∧ isHexDigit b = true := by
  obtain ⟨hlen, h1⟩ := (IsUUIDv3_iff_aux s).1 h
  have hlt : 19 < s.length := by omega
  refine ⟨s[19], List.getElem?_eq_getElem hlt, ?_⟩
  have := h1 19 hlt
  rw [if_neg (by omega), if_neg (by omega), classMem_hexFold] at this
  exact (isHexDigit_iff _).2 this

/-- C5, witness: the amended statement at the test string of the package. -/
theorem IsUUIDv3_variant_witness :
    IsUUIDv3 (goStr "A987FBC9-4BED-3078-CF07-9141BA07C9F3") = true ∧
      ∃ b, (goStr "A987FBC9-4BED-3078-CF07-9141BA07C9F3")[19]? = some b ∧
        isHexDigit b = true :=
  ⟨by decide, IsUUIDv3_variant _ (by decide)⟩

/-- C6. `IsUUIDv4(s)` is true exactly when `s` has 36 characters, hyphens at the
indices 8, 13, 18 and 23, a hexadecimal digit (`0-9`, `a-f`, `A-F`) at every
other index, the character `4` at index 14 and one of `8`, `9`, `a`, `b`, `A`,
`B` at index 19. So a canonical version-4 UUID is accepted in lower and in upper
case, and no string with something before or after one is accepted. -/
theorem IsUUIDv4_iff :
    (∀ s : GoString, IsUUIDv4 s = true ↔
      s.length = 36 ∧
      (∀ i ∈ [8, 13, 18, 23], s[i]? = some 0x2D) ∧
      (∀ i, i < 36 → i ∉ [8, 13, 18, 23] → ∃ b, s[i]? = some b ∧ isHexDigit b = true) ∧
      s[14]? = some 0x34 ∧
      (∃ b, s[19]? = some b ∧ b ∈ goStr "89abAB")) ∧
    (∀ s p : GoString, IsUUIDv4 s = true → p ≠ [] →
      IsUUIDv4 (p ++ s) = false ∧ IsUUIDv4 (s ++ p) = false) ∧
    IsUUIDv4 (goStr "713ae7e3-cb32-45f9-adcb-7c4fa86b90c1") = true ∧
    IsUUIDv4 (goStr "A987FBC9-4BED-4078-8F07-9141BA07C9F3") = true ∧
    IsUUIDv4 (goStr "xxx713ae7e3-cb32-45f9-adcb-7c4fa86b90c1") = false :=
  ⟨IsUUIDv4_iff_explicit, IsUUIDv4_extra, by decide, by decide, by decide⟩

/-- C7, counterexample. The backquote is a character of the class the claim lists,
and `IsEmail` rejects it as a one-character local part. -/
theorem IsEmail_backquote_counterexample :
    (0x60 : Byte) ∈ goStr "!#$%&'*+/=?^_`\x7b|\x7d~-" ∧
      IsEmail ((0x60 : Byte) :: goStr "@bar.com") = false := by
  decide

/-- C7, amended. Every character of the local-part class of the pattern is accepted
as a one-character local part: for every `c` that is an ASCII letter, an ASCII
digit or one of `! # $ % & ' * + / = ? ^ _ { | } ~ -` (the backquote is not
among them), `IsEmail(c + "@bar.com")` is true. -/
theorem IsEmail_local_char (c : Byte)
    (h : isLetter c = true ∨ isDigit c = true ∨ c ∈ goStr "!#$%&'*+/=?^_\x7b|\x7d~-") :
    IsEmail (c :: goStr "@bar.com") = true :=
  IsEmail_one_char c h

/-- C7, witness: the amended statement at the character `+`. -/
theorem IsEmail_local_char_witness :
    (isLetter 0x2B = true ∨ isDigit 0x2B = true ∨
        (0x2B : Byte) ∈ goStr "!#$%&'*+/=?^_\x7b|\x7d~-") ∧
      IsEmail ((0x2B : Byte) :: goStr "@bar.com") = true :=
  ⟨by decide, IsEmail_local_char 0x2B (by decide)⟩

/-- C8. The pattern of `IsEmail` has no anchors: when `IsEmail(s)` is true, so is
`IsEmail(p + s + q)` for all strings `p` and `q`. -/
theorem IsEmail_extend (p s q : GoString) (h : IsEmail s = true) :
    IsEmail (p ++ s ++ q) = true :=
  MatchString_extend email (by rfl) ClassesValid_email Lang_email_ne_nil p s q h

/-- C8, witness: `IsEmail("  foo@bar.com !!")` is true because
`IsEmail("foo@bar.com")` is. -/
theorem IsEmail_extend_witness :
    IsEmail (goStr "foo@bar.com") = true ∧
      IsEmail (goStr "  " ++ goStr "foo@bar.com" ++ goStr " !!") = true :=
  ⟨by decide, IsEmail_extend _ _ _ (by decide)⟩

/-- C9. `IsHexColor(s)` is true exactly when `s`, without at most one leading `#`,
is 3 or 6 hexadecimal digits; nothing may follow, and the test strings of the
package are classified as stated. -/
theorem IsHexColor_iff :
    (∀ s : GoString, IsHexColor s = true ↔
      ∃ body : GoString, (s = body ∨ s = 0x23 :: body) ∧
        (body.length = 3 ∨ body.length = 6) ∧ ∀ b ∈ body, isHexDigit b = true) ∧
    IsHexColor (goStr "#f00") = true ∧ IsHexColor (goStr "fff") = true ∧
    IsHexColor (goStr "#ff") = false ∧ IsHexColor (goStr "fff0") = false ∧
    IsHexColor (goStr "#ff12FG") = false ∧ IsHexColor (goStr "fff\n") = false ∧
    IsHexColor (goStr "##fff") = false :=
  ⟨IsHexColor_iff_aux, by decide, by decide, by decide, by decide, by decide, by decide,
    by decide⟩

/-- C10, counterexample. The string `tRUE` is `true` once lower-cased, and `IsBool`
rejects it. -/
theorem IsBool_case_counterexample :
    (goStr "tRUE").map asciiLower = goStr "true" ∧ IsBool (goStr "tRUE") = false := by
  decide

/-- C10, amended. `IsBool(s)` is true exactly when `s` is one of the twelve
spellings `1`, `t`, `T`, `TRUE`, `true`, `True`, `0`, `f`, `F`, `FALSE`, `false`,
`False`; so `True`, `TRUE` and `true` are accepted and `00`, `01`, `fv` are
rejected. -/
theorem IsBool_iff :
    (∀ s : GoString, IsBool s = true ↔
      s ∈ [goStr "1", goStr "t", goStr "T", goStr "TRUE", goStr "true", goStr "True",
        goStr "0", goStr "f", goStr "F", goStr "FALSE", goStr "false", goStr "False"]) ∧
    IsBool (goStr "True") = true ∧ IsBool (goStr "TRUE") = true ∧
    IsBool (goStr "true") = true ∧ IsBool (goStr "00") = false ∧
    IsBool (goStr "01") = false ∧ IsBool (goStr "fv") = false := by
  refine ⟨?_, by decide, by decide, by decide, by decide, by decide, by decide⟩
  intro s
  by_cases h1 : s ∈ [goStr "1", goStr "t", goStr "T", goStr "true", goStr "TRUE", goStr "True"]
  · have e : IsBool s = true := by simp [IsBool, ParseBool, h1]
    simp only [List.mem_cons, List.mem_singleton, List.not_mem_nil, or_false] at h1
    simp only [e, List.mem_cons, List.mem_singleton, List.not_mem_nil, or_false, true_iff]
    tauto
  by_cases h2 : s ∈ [goStr "0", goStr "f", goStr "F", goStr "false", goStr "FALSE",
      goStr "False"]
  · have e : IsBool s = true := by simp [IsBool, ParseBool, h1, h2]
    simp only [List.mem_cons, List.mem_singleton, List.not_mem_nil, or_false] at h2
    simp only [e, List.mem_cons, List.mem_singleton, List.not_mem_nil, or_false, true_iff]
    tauto
  · have e : IsBool s = false := by simp [IsBool, ParseBool, h1, h2]
    simp only [List.mem_cons, List.mem_singleton, List.not_mem_nil, or_false] at h1 h2
    simp only [e, List.mem_cons, List.mem_singleton, List.not_mem_nil, or_false,
      Bool.false_eq_true, false_iff]
    tauto

/-- C15. `IsAlpha`, `IsAlphanumeric`, `IsHexadecimal` and `IsAscii` are true exactly
on the non-empty strings whose characters are all in `A-Za-z`, in `A-Za-z0-9`,
in `0-9a-fA-F`, in the code points 0 to 127; one other character anywhere,
a trailing newline or space or the letter `é`, makes the result false. -/
theorem class_predicates_iff :
    (∀ s : GoString, IsAlpha s = true ↔ s ≠ [] ∧ ∀ b ∈ s, isLetter b = true) ∧
    (∀ s : GoString, IsAlphanumeric s = true ↔
      s ≠ [] ∧ ∀ b ∈ s, (isLetter b || isDigit b) = true) ∧
    (∀ s : GoString, IsHexadecimal s = true ↔ s ≠ [] ∧ ∀ b ∈ s, isHexDigit b = true) ∧
    (∀ s : GoString, IsAscii s = true ↔ s ≠ [] ∧ ∀ b ∈ s, b.val < 0x80) ∧
    (IsAlpha (goStr "abc\n") = false ∧ IsAlphanumeric (goStr "abc1\n") = false ∧
      IsHexadecimal (goStr "ff00\n") = false) ∧
    (IsAlpha (goStr "abc ") = false ∧ IsAlphanumeric (goStr "abc1 ") = false ∧
      IsHexadecimal (goStr "ff00 ") = false) ∧
    (IsAlpha (goStr "abcé") = false ∧ IsAlphanumeric (goStr "abcé") = false ∧
      IsHexadecimal (goStr "abcé") = false ∧ IsAscii (goStr "abcé") = false) :=
  ⟨IsAlpha_iff_aux, IsAlphanumeric_iff_aux, IsHexadecimal_iff_aux, IsAscii_iff_aux,
    by decide, by decide, by decide⟩

/-- C12. `IsIn(x, L)` is true exactly when `x` is an element of `L`, also for the
empty list; two lists with the same elements, in whatever order and number, give
the same answer. -/
theorem IsIn_iff :
    (∀ (x : GoString) (l : List GoString), IsIn x l = true ↔ x ∈ l) ∧
    (∀ x : GoString, IsIn x [] = false) ∧
    (∀ (x : GoString) (l l1 : List GoString), (∀ y, y ∈ l ↔ y ∈ l1) → IsIn x l = IsIn x l1) ∧
    IsIn (goStr "groucho") [goStr "moe", goStr "larry", goStr "curly"] = false ∧
    IsIn (goStr "moe") [goStr "moe", goStr "larry", goStr "curly"] = true ∧
    IsIn (goStr "Moe") [goStr "moe", goStr "larry", goStr "curly"] = false ∧
    IsIn (goStr "moe ") [goStr "moe", goStr "larry", goStr "curly"] = false := by
  refine ⟨IsIn_iff_aux, fun _ => rfl, ?_, by decide, by decide, by decide, by decide⟩
  intro x l l1 h
  rw [Bool.eq_iff_iff, IsIn_iff_aux, IsIn_iff_aux]
  exact h x

/-- C14. `IsCreditCard`, `IsLength` and `IsDate` are false on every string:
`IsCreditCard` also on `4111 1111 1111 1111`, which passes its pattern once the
characters that are no digits are deleted, `IsDate` also on `2011-08-04`. -/
theorem constant_false :
    (∀ s : GoString, IsCreditCard s = false ∧ IsLength s = false ∧ IsDate s = false) ∧
    MatchString creditCard
      (ReplaceAllString sanitizeCreditCard (goStr "4111 1111 1111 1111") []) = true ∧
    IsCreditCard (goStr "4111 1111 1111 1111") = false ∧
    IsDate (goStr "2011-08-04") = false := by
  refine ⟨fun s => ⟨?_, rfl, rfl⟩, by decide, by decide, rfl⟩
  unfold IsCreditCard
  simp

/-- C13. For a string `s` of ASCII characters, `IsLowerCase(s)` and `IsUpperCase(s)`
are both true exactly when `s` has no letter `A-Z` or `a-z`; so they are not both
true for a string with a letter. The tables `unicode.ToLower` and
`unicode.ToUpper`, which an ASCII string does not reach, are arbitrary. -/
theorem IsLowerCase_and_IsUpperCase (lower upper : Nat → Nat) (s : GoString)
    (h : ∀ b ∈ s, b.val < 0x80) :
    ((IsLowerCase lower s = true ∧ IsUpperCase upper s = true) ↔
      ∀ b ∈ s, isLetter b = false) ∧
    ((∃ b ∈ s, isLetter b = true) →
      ¬ (IsLowerCase lower s = true ∧ IsUpperCase upper s = true)) := by
  have key : (IsLowerCase lower s = true ∧ IsUpperCase upper s = true) ↔
      ∀ b ∈ s, isLetter b = false := by
    rw [IsLowerCase_ascii lower s h, IsUpperCase_ascii upper s h]
    constructor
    · rintro ⟨h1, h2⟩ b hb
      exact (isLetter_eq_false_iff b).2 ⟨h1 b hb, h2 b hb⟩
    · intro h1
      exact ⟨fun b hb => ((isLetter_eq_false_iff b).1 (h1 b hb)).1,
        fun b hb => ((isLetter_eq_false_iff b).1 (h1 b hb)).2⟩
  refine ⟨key, ?_⟩
  rintro ⟨b, hb, hl⟩ hboth
  have := key.1 hboth b hb
  rw [hl] at this
  exact absurd this (by simp)

/-- C13, witness: the empty string, a string of digits and a string of punctuation
are lower case and upper case at once; `a1` is not. -/
theorem IsLowerCase_and_IsUpperCase_witness :
    (∀ b ∈ goStr "2011-08!", b.val < 0x80) ∧
    (((IsLowerCase id (goStr "2011-08!") = true ∧ IsUpperCase id (goStr "2011-08!") = true) ↔
      ∀ b ∈ goStr "2011-08!", isLetter b = false) ∧
    ((∃ b ∈ goStr "2011-08!", isLetter b = true) →
      ¬ (IsLowerCase id (goStr "2011-08!") = true ∧
        IsUpperCase id (goStr "2011-08!") = true))) ∧
    (IsLowerCase id (goStr "") = true ∧ IsUpperCase id (goStr "") = true) ∧
    (IsLowerCase id (goStr "0123") = true ∧ IsUpperCase id (goStr "0123") = true) ∧
    (IsLowerCase id (goStr "!?-.") = true ∧ IsUpperCase id (goStr "!?-.") = true) ∧
    (IsLowerCase id (goStr "a1") = true ∧ IsUpperCase id (goStr "a1") = false) :=
  have h : ∀ b ∈ goStr "2011-08!", b.val < 0x80 := fun b hb =>
    of_decide_eq_true (List.all_eq_true.1
      (by decide : (goStr "2011-08!").all (fun b => decide (b.val < 0x80)) = true) b hb)
  ⟨h, IsLowerCase_and_IsUpperCase id id _ h, by decide, by decide, by decide, by decide⟩

/-- C16. On the empty string `IsNull`, `IsLowerCase` and `IsUpperCase` are true, every
other predicate of one argument is false, none of them faults, and `IsIn("", L)` is
true exactly when the empty string is an element of `L`. The parts of the standard
library that are parameters of `IsLowerCase`, `IsUpperCase`, `IsFloat`, `IsIP` and
`IsIPv4` are arbitrary. -/
theorem empty_string (lower upper : Nat → Nat) (atof : GoString → Option NumError)
    (parseIPv4 parseIPv6 : GoString → Option (List Byte)) :
    goStr "" = [] ∧
    IsNull (goStr "") = true ∧ IsLowerCase lower (goStr "") = true ∧
    IsUpperCase upper (goStr "") = true ∧
    IsAlpha (goStr "") = false ∧ IsAlphanumeric (goStr "") = false ∧
    IsAscii (goStr "") = false ∧ IsHexadecimal (goStr "") = false ∧
    IsHexColor (goStr "") = false ∧ IsEmail (goStr "") = false ∧
    IsUUID (goStr "") = false ∧ IsUUIDv3 (goStr "") = false ∧
    IsUUIDv4 (goStr "") = false ∧ IsUUIDv5 (goStr "") = false ∧
    IsInt (goStr "") = false ∧ IsFloat atof (goStr "") = false ∧
    IsBool (goStr "") = false ∧
    IsISBN (goStr "") = some false ∧ IsISBNv10 (goStr "") = some false ∧
    IsISBNv13 (goStr "") = some false ∧
    IsCreditCard (goStr "") = false ∧
    IsIP parseIPv4 parseIPv6 (goStr "") = false ∧
    IsIPv4 parseIPv4 parseIPv6 (goStr "") = false ∧
    IsLength (goStr "") = false ∧ IsDate (goStr "") = false ∧
    (∀ l : List GoString, IsIn (goStr "") l = true ↔ goStr "" ∈ l) := by
  have e : goStr "" = [] := rfl
  refine ⟨e, by decide, ?_, ?_, by decide, by decide, by decide, by decide, by decide, by decide,
    by decide, by decide, by decide, by decide, by decide, ?_, by decide, by decide, by decide,
    by decide, by decide, ?_, ?_, rfl, rfl, fun l => IsIn_iff_aux _ l⟩
  · rw [e]; simp [IsLowerCase, ToLower]
  · rw [e]; simp [IsUpperCase, ToUpper]
  · rw [e]; simp [IsFloat, ParseFloat]
  · rw [e]; simp [IsIP, ParseIP, parseIPLoop]
  · rw [e]; simp [IsIPv4, ParseIP, parseIPLoop]

/-- C11. `IsInt(s)` is true exactly when `s` is an optional sign `+` or `-` followed
by one or more decimal digits and nothing else, and the integer written lies
between `-2^63` and `2^63 - 1`, for a 64-bit `int`. -/
theorem IsInt_iff :
    (∀ s : GoString, IsInt s = true ↔
      ∃ sign body : GoString, s = sign ++ body ∧
        (sign = [] ∨ sign = goStr "+" ∨ sign = goStr "-") ∧
        body ≠ [] ∧ (∀ b ∈ body, isDigit b = true) ∧
        -(2 : Int) ^ 63 ≤ intVal sign body ∧ intVal sign body ≤ 2 ^ 63 - 1) ∧
    IsInt (goStr "-0") = true ∧ IsInt (goStr "0") = true ∧ IsInt (goStr "12") = true ∧
    IsInt (goStr "") = false ∧ IsInt (goStr "  ") = false ∧ IsInt (goStr "foo") = false ∧
    IsInt (goStr "123.123") = false ∧ IsInt (goStr "1_000") = false ∧
    IsInt (goStr "9223372036854775807") = true ∧
    IsInt (goStr "9223372036854775808") = false ∧
    IsInt (goStr "-9223372036854775808") = true ∧
    IsInt (goStr "-9223372036854775809") = false :=
  ⟨IsInt_iff_aux, by decide, by decide, by decide, by decide, by decide, by decide, by decide,
    by decide, by decide, by decide, by decide, by decide⟩

/-- C17. `IsISBNv10` and `IsISBNv13` (and `IsISBN`) return a boolean on every
input and never panic. When the pattern has accepted the sanitized string, which
is the only way the code after the pattern test is reached, that string has
exactly 10 (13) bytes, all of them below 0x80, so `sanitized[:9]` and
`sanitized[9]` (`sanitized[:12]` and `sanitized[12]`) are in range; every
character of the slice is one decimal digit, on which `strconv.Atoi` returns no
error; the last character is `X`, which is not converted, or a decimal digit
(for ISBN-13 always a digit). The empty string, short strings, invalid UTF-8 and
strings with NUL bytes give `false`. -/
theorem ISBN_never_panics :
    (∀ s : GoString,
      (∃ b, IsISBNv10 s = some b) ∧ (∃ b, IsISBNv13 s = some b) ∧ (∃ b, IsISBN s = some b) ∧
      (MatchString possibleISBNv10 (ReplaceAllString sanitizeISBN s []) = true →
        (ReplaceAllString sanitizeISBN s []).length = 10 ∧
        (∀ b ∈ ReplaceAllString sanitizeISBN s [], b.val < 0x80) ∧
        (∃ head, sliceTo (ReplaceAllString sanitizeISBN s []) 9 = some head ∧
          ∀ p ∈ rangeString head, ∃ d : Byte, isDigit d = true ∧ EncodeRune p.2 = [d] ∧
            (Atoi (EncodeRune p.2)).2 = none) ∧
        (∃ c, (ReplaceAllString sanitizeISBN s [])[9]? = some c ∧
          (EncodeRune c.val = goStr "X" ∨
            (isDigit c = true ∧ (Atoi (EncodeRune c.val)).2 = none)))) ∧
      (MatchString possibleISBNv13 (ReplaceAllString sanitizeISBN s []) = true →
        (ReplaceAllString sanitizeISBN s []).length = 13 ∧
        (∀ b ∈ ReplaceAllString sanitizeISBN s [], b.val < 0x80) ∧
        (∃ head, sliceTo (ReplaceAllString sanitizeISBN s []) 12 = some head ∧
          ∀ p ∈ rangeString head, ∃ d : Byte, isDigit d = true ∧ EncodeRune p.2 = [d] ∧
            (Atoi (EncodeRune p.2)).2 = none) ∧
        (∃ c, (ReplaceAllString sanitizeISBN s [])[12]? = some c ∧ isDigit c = true ∧
          (Atoi (EncodeRune c.val)).2 = none))) ∧
    IsISBNv10 [] = some false ∧ IsISBNv13 [] = some false ∧
    IsISBNv10 (goStr "383622119") = some false ∧ IsISBNv13 (goStr "978383622119") = some false ∧
    IsISBNv10 (goStr "38362211é5") = some false ∧
    IsISBNv10 [0x33, 0x38, 0x33, 0x36, 0x32, 0x32, 0x31, 0x31, 0xFF, 0x35] = some false ∧
    IsISBNv10 [0x33, 0x38, 0x33, 0x36, 0x32, 0x32, 0x31, 0x31, 0x00, 0x35] = some false ∧
    IsISBNv13 [0x39, 0x37, 0x38, 0x33, 0x38, 0x33, 0x36, 0x32, 0x32, 0x31, 0x31, 0x00, 0x31]
      = some false ∧
    IsISBNv10 (goStr "3836221195") = some true ∧
    IsISBNv13 (goStr "9783836221191") = some true := by
  refine ⟨fun s => ⟨IsISBNv10_total s, IsISBNv13_total s, ?_, IsISBNv10_safe _, IsISBNv13_safe _⟩,
    by decide, by decide, by decide, by decide, by decide, by decide, by decide, by decide,
    by decide, by decide⟩
  obtain ⟨a, ha⟩ := IsISBNv10_total s
  obtain ⟨b, hb⟩ := IsISBNv13_total s
  unfold IsISBN
  rw [ha, hb]
  cases a
  · exact ⟨b, rfl⟩
  · exact ⟨true, rfl⟩

/-- C17, witness: the pattern tests succeed on a hyphenated ISBN-10 and ISBN-13, and
the sanitized strings have 10 and 13 bytes. -/
theorem ISBN_never_panics_witness :
    MatchString possibleISBNv10 (ReplaceAllString sanitizeISBN (goStr "3-8362-2119-5") []) = true ∧
    (ReplaceAllString sanitizeISBN (goStr "3-8362-2119-5") []).length = 10 ∧
    MatchString possibleISBNv13 (ReplaceAllString sanitizeISBN (goStr "978-3836221191") []) = true ∧
    (ReplaceAllString sanitizeISBN (goStr "978-3836221191") []).length = 13 :=
  ⟨by decide, ((ISBN_never_panics.1 (goStr "3-8362-2119-5")).2.2.2.1 (by decide)).1,
    by decide, ((ISBN_never_panics.1 (goStr "978-3836221191")).2.2.2.2 (by decide)).1⟩

/-- C18. The ISBN-10 checksum detects every substitution of one character: when a
string `t` of ten characters is accepted by `IsISBNv10` and the character at one
position `i` is replaced by a different one, a decimal digit at any position or
`X` at position 9, the result is rejected by `IsISBNv10`. -/
theorem IsISBNv10_substitution (t : GoString) (i : Nat) (c : Byte)
    (hlen : t.length = 10) (ht : IsISBNv10 t = some true) (hi : i < 10)
    (hc : isDigit c = true ∨ (i = 9 ∧ c = 0x58)) (hne : t[i]? ≠ some c) :
    IsISBNv10 (t.set i c) = some false := by
  obtain ⟨b0, b1, b2, b3, b4, b5, b6, b7, b8, b9, hs, h0, h1, h2, h3, h4, h5, h6, h7, h8, h9, hsum⟩ :=
    (IsISBNv10_iff_aux t).1 ht
  have hst : strip t = t := strip_eq_of_length t (by rw [hs, hlen]; rfl)
  rw [hst] at hs
  subst hs
  interval_cases i
  · show IsISBNv10 [c, b1, b2, b3, b4, b5, b6, b7, b8, b9] = some false
    have hcd : isDigit c = true := by
      rcases hc with h | ⟨h, _⟩
      · exact h
      · exact absurd h (by decide)
    have hcv : c ≠ b0 := fun h => hne (by rw [h]; rfl)
    rw [IsISBNv10_eval _ c b1 b2 b3 b4 b5 b6 b7 b8 b9 (strip_isbn _ (by
      simp only [List.mem_cons, List.mem_singleton, List.not_mem_nil, or_false,
        forall_eq_or_imp, forall_eq]
      exact ⟨Or.inl hcd, Or.inl h1, Or.inl h2, Or.inl h3, Or.inl h4, Or.inl h5, Or.inl h6, Or.inl h7, Or.inl h8, h9⟩)) hcd h1 h2 h3 h4 h5 h6 h7 h8 h9]
    rw [Option.some.injEq, decide_eq_false_iff_not]
    have e : 1 * digitVal c + 2 * digitVal b1 + 3 * digitVal b2 + 4 * digitVal b3 + 5 * digitVal b4 + 6 * digitVal b5 + 7 * digitVal b6 + 8 * digitVal b7 + 9 * digitVal b8 + 10 * checkVal b9 = 1 * digitVal c + (2 * digitVal b1 + 3 * digitVal b2 + 4 * digitVal b3 + 5 * digitVal b4 + 6 * digitVal b5 + 7 * digitVal b6 + 8 * digitVal b7 + 9 * digitVal b8 + 10 * checkVal b9) := by ring
    have e0 : 1 * digitVal b0 + 2 * digitVal b1 + 3 * digitVal b2 + 4 * digitVal b3 + 5 * digitVal b4 + 6 * digitVal b5 + 7 * digitVal b6 + 8 * digitVal b7 + 9 * digitVal b8 + 10 * checkVal b9 = 1 * digitVal b0 + (2 * digitVal b1 + 3 * digitVal b2 + 4 * digitVal b3 + 5 * digitVal b4 + 6 * digitVal b5 + 7 * digitVal b6 + 8 * digitVal b7 + 9 * digitVal b8 + 10 * checkVal b9) := by ring
    show ¬ (1 * digitVal c + 2 * digitVal b1 + 3 * digitVal b2 + 4 * digitVal b3 + 5 * digitVal b4 + 6 * digitVal b5 + 7 * digitVal b6 + 8 * digitVal b7 + 9 * digitVal b8 + 10 * checkVal b9) % 11 = 0
    rw [e]
    rw [e0] at hsum
    refine mod11_cancel 1 (digitVal b0) (digitVal c)
      (2 * digitVal b1 + 3 * digitVal b2 + 4 * digitVal b3 + 5 * digitVal b4 + 6 * digitVal b5 + 7 * digitVal b6 + 8 * digitVal b7 + 9 * digitVal b8 + 10 * checkVal b9)
      ⟨by decide, by decide⟩ (digitVal_le b0 h0) (digitVal_le c hcd)
      (fun h => hcv (digitVal_inj b0 c h0 hcd h).symm) ?_
    exact hsum
  · show IsISBNv10 [b0, c, b2, b3, b4, b5, b6, b7, b8, b9] = some false
    have hcd : isDigit c = true := by
      rcases hc with h | ⟨h, _⟩
      · exact h
      · exact absurd h (by decide)
    have hcv : c ≠ b1 := fun h => hne (by rw [h]; rfl)
    rw [IsISBNv10_eval _ b0 c b2 b3 b4 b5 b6 b7 b8 b9 (strip_isbn _ (by
      simp only [List.mem_cons, List.mem_singleton, List.not_mem_nil, or_false,
        forall_eq_or_imp, forall_eq]
      exact ⟨Or.inl h0, Or.inl hcd, Or.inl h2, Or.inl h3, Or.inl h4, Or.inl h5, Or.inl h6, Or.inl h7, Or.inl h8, h9⟩)) h0 hcd h2 h3 h4 h5 h6 h7 h8 h9]
    rw [Option.some.injEq, decide_eq_false_iff_not]
    have e : 1 * digitVal b0 + 2 * digitVal c + 3 * digitVal b2 + 4 * digitVal b3 + 5 * digitVal b4 + 6 * digitVal b5 + 7 * digitVal b6 + 8 * digitVal b7 + 9 * digitVal b8 + 10 * checkVal b9 = 2 * digitVal c + (1 * digitVal b0 + 3 * digitVal b2 + 4 * digitVal b3 + 5 * digitVal b4 + 6 * digitVal b5 + 7 * digitVal b6 + 8 * digitVal b7 + 9 * digitVal b8 + 10 * checkVal b9) := by ring
    have e0 : 1 * digitVal b0 + 2 * digitVal b1 + 3 * digitVal b2 + 4 * digitVal b3 + 5 * digitVal b4 + 6 * digitVal b5 + 7 * digitVal b6 + 8 * digitVal b7 + 9 * digitVal b8 + 10 * checkVal b9 = 2 * digitVal b1 + (1 * digitVal b0 + 3 * digitVal b2 + 4 * digitVal b3 + 5 * digitVal b4 + 6 * digitVal b5 + 7 * digitVal b6 + 8 * digitVal b7 + 9 * digitVal b8 + 10 * checkVal b9) := by ring
    show ¬ (1 * digitVal b0 + 2 * digitVal c + 3 * digitVal b2 + 4 * digitVal b3 + 5 * digitVal b4 + 6 * digitVal b5 + 7 * digitVal b6 + 8 * digitVal b7 + 9 * digitVal b8 + 10 * checkVal b9) % 11 = 0
    rw [e]
    rw [e0] at hsum
    refine mod11_cancel 2 (digitVal b1) (digitVal c)
      (1 * digitVal b0 + 3 * digitVal b2 + 4 * digitVal b3 + 5 * digitVal b4 + 6 * digitVal b5 + 7 * digitVal b6 + 8 * digitVal b7 + 9 * digitVal b8 + 10 * checkVal b9)
      ⟨by decide, by decide⟩ (digitVal_le b1 h1) (digitVal_le c hcd)
      (fun h => hcv (digitVal_inj b1 c h1 hcd h).symm) ?_
    exact hsum
  · show IsISBNv10 [b0, b1, c, b3, b4, b5, b6, b7, b8, b9] = some false
    have hcd : isDigit c = true := by
      rcases hc with h | ⟨h, _⟩
      · exact h
      · exact absurd h (by decide)
    have hcv : c ≠ b2 := fun h => hne (by rw [h]; rfl)
    rw [IsISBNv10_eval _ b0 b1 c b3 b4 b5 b6 b7 b8 b9 (strip_isbn _ (by
      simp only [List.mem_cons, List.mem_singleton, List.not_mem_nil, or_false,
        forall_eq_or_imp, forall_eq]
      exact ⟨Or.inl h0, Or.inl h1, Or.inl hcd, Or.inl h3, Or.inl h4, Or.inl h5, Or.inl h6, Or.inl h7, Or.inl h8, h9⟩)) h0 h1 hcd h3 h4 h5 h6 h7 h8 h9]
    rw [Option.some.injEq, decide_eq_false_iff_not]
    have e : 1 * digitVal b0 + 2 * digitVal b1 + 3 * digitVal c + 4 * digitVal b3 + 5 * digitVal b4 + 6 * digitVal b5 + 7 * digitVal b6 + 8 * digitVal b7 + 9 * digitVal b8 + 10 * checkVal b9 = 3 * digitVal c + (1 * digitVal b0 + 2 * digitVal b1 + 4 * digitVal b3 + 5 * digitVal b4 + 6 * digitVal b5 + 7 * digitVal b6 + 8 * digitVal b7 + 9 * digitVal b8 + 10 * checkVal b9) := by ring
    have e0 : 1 * digitVal b0 + 2 * digitVal b1 + 3 * digitVal b2 + 4 * digitVal b3 + 5 * digitVal b4 + 6 * digitVal b5 + 7 * digitVal b6 + 8 * digitVal b7 + 9 * digitVal b8 + 10 * checkVal b9 = 3 * digitVal b2 + (1 * digitVal b0 + 2 * digitVal b1 + 4 * digitVal b3 + 5 * digitVal b4 + 6 * digitVal b5 + 7 * digitVal b6 + 8 * digitVal b7 + 9 * digitVal b8 + 10 * checkVal b9) := by ring
    show ¬ (1 * digitVal b0 + 2 * digitVal b1 + 3 * digitVal c + 4 * digitVal b3 + 5 * digitVal b4 + 6 * digitVal b5 + 7 * digitVal b6 + 8 * digitVal b7 + 9 * digitVal b8 + 10 * checkVal b9) % 11 = 0
    rw [e]
    rw [e0] at hsum
    refine mod11_cancel 3 (digitVal b2) (digitVal c)
      (1 * digitVal b0 + 2 * digitVal b1 + 4 * digitVal b3 + 5 * digitVal b4 + 6 * digitVal b5 + 7 * digitVal b6 + 8 * digitVal b7 + 9 * digitVal b8 + 10 * checkVal b9)
      ⟨by decide, by decide⟩ (digitVal_le b2 h2) (digitVal_le c hcd)
      (fun h => hcv (digitVal_inj b2 c h2 hcd h).symm) ?_
    exact hsum
  · show IsISBNv10 [b0, b1, b2, c, b4, b5, b6, b7, b8, b9] = some false
    have hcd : isDigit c = true := by
      rcases hc with h | ⟨h, _⟩
      · exact h
      · exact absurd h (by decide)
    have hcv : c ≠ b3 := fun h => hne (by rw [h]; rfl)
    rw [IsISBNv10_eval _ b0 b1 b2 c b4 b5 b6 b7 b8 b9 (strip_isbn _ (by
      simp only [List.mem_cons, List.mem_singleton, List.not_mem_nil, or_false,
        forall_eq_or_imp, forall_eq]
      exact ⟨Or.inl h0, Or.inl h1, Or.inl h2, Or.inl hcd, Or.inl h4, Or.inl h5, Or.inl h6, Or.inl h7, Or.inl h8, h9⟩)) h0 h1 h2 hcd h4 h5 h6 h7 h8 h9]
    rw [Option.some.injEq, decide_eq_false_iff_not]
    have e : 1 * digitVal b0 + 2 * digitVal b1 + 3 * digitVal b2 + 4 * digitVal c + 5 * digitVal b4 + 6 * digitVal b5 + 7 * digitVal b6 + 8 * digitVal b7 + 9 * digitVal b8 + 10 * checkVal b9 = 4 * digitVal c + (1 * digitVal b0 + 2 * digitVal b1 + 3 * digitVal b2 + 5 * digitVal b4 + 6 * digitVal b5 + 7 * digitVal b6 + 8 * digitVal b7 + 9 * digitVal b8 + 10 * checkVal b9) := by ring
    have e0 : 1 * digitVal b0 + 2 * digitVal b1 + 3 * digitVal b2 + 4 * digitVal b3 + 5 * digitVal b4 + 6 * digitVal b5 + 7 * digitVal b6 + 8 * digitVal b7 + 9 * digitVal b8 + 10 * checkVal b9 = 4 * digitVal b3 + (1 * digitVal b0 + 2 * digitVal b1 + 3 * digitVal b2 + 5 * digitVal b4 + 6 * digitVal b5 + 7 * digitVal b6 + 8 * digitVal b7 + 9 * digitVal b8 + 10 * checkVal b9) := by ring
    show ¬ (1 * digitVal b0 + 2 * digitVal b1 + 3 * digitVal b2 + 4 * digitVal c + 5 * digitVal b4 + 6 * digitVal b5 + 7 * digitVal b6 + 8 * digitVal b7 + 9 * digitVal b8 + 10 * checkVal b9) % 11 = 0
    rw [e]
    rw [e0] at hsum
    refine mod11_cancel 4 (digitVal b3) (digitVal c)
      (1 * digitVal b0 + 2 * digitVal b1 + 3 * digitVal b2 + 5 * digitVal b4 + 6 * digitVal b5 + 7 * digitVal b6 + 8 * digitVal b7 + 9 * digitVal b8 + 10 * checkVal b9)
      ⟨by decide, by decide⟩ (digitVal_le b3 h3) (digitVal_le c hcd)
      (fun h => hcv (digitVal_inj b3 c h3 hcd h).symm) ?_
    exact hsum
  · show IsISBNv10 [b0, b1, b2, b3, c, b5, b6, b7, b8, b9] = some false
    have hcd : isDigit c = true := by
      rcases hc with h | ⟨h, _⟩
      · exact h
      · exact absurd h (by decide)
    have hcv : c ≠ b4 := fun h => hne (by rw [h]; rfl)
    rw [IsISBNv10_eval _ b0 b1 b2 b3 c b5 b6 b7 b8 b9 (strip_isbn _ (by
      simp only [List.mem_cons, List.mem_singleton, List.not_mem_nil, or_false,
        forall_eq_or_imp, forall_eq]
      exact ⟨Or.inl h0, Or.inl h1, Or.inl h2, Or.inl h3, Or.inl hcd, Or.inl h5, Or.inl h6, Or.inl h7, Or.inl h8, h9⟩)) h0 h1 h2 h3 hcd h5 h6 h7 h8 h9]
    rw [Option.some.injEq, decide_eq_false_iff_not]
    have e : 1 * digitVal b0 + 2 * digitVal b1 + 3 * digitVal b2 + 4 * digitVal b3 + 5 * digitVal c + 6 * digitVal b5 + 7 * digitVal b6 + 8 * digitVal b7 + 9 * digitVal b8 + 10 * checkVal b9 = 5 * digitVal c + (1 * digitVal b0 + 2 * digitVal b1 + 3 * digitVal b2 + 4 * digitVal b3 + 6 * digitVal b5 + 7 * digitVal b6 + 8 * digitVal b7 + 9 * digitVal b8 + 10 * checkVal b9) := by ring
    have e0 : 1 * digitVal b0 + 2 * digitVal b1 + 3 * digitVal b2 + 4 * digitVal b3 + 5 * digitVal b4 + 6 * digitVal b5 + 7 * digitVal b6 + 8 * digitVal b7 + 9 * digitVal b8 + 10 * checkVal b9 = 5 * digitVal b4 + (1 * digitVal b0 + 2 * digitVal b1 + 3 * digitVal b2 + 4 * digitVal b3 + 6 * digitVal b5 + 7 * digitVal b6 + 8 * digitVal b7 + 9 * digitVal b8 + 10 * checkVal b9) := by ring
    show ¬ (1 * digitVal b0 + 2 * digitVal b1 + 3 * digitVal b2 + 4 * digitVal b3 + 5 * digitVal c + 6 * digitVal b5 + 7 * digitVal b6 + 8 * digitVal b7 + 9 * digitVal b8 + 10 * checkVal b9) % 11 = 0
    rw [e]
    rw [e0] at hsum
    refine mod11_cancel 5 (digitVal b4) (digitVal c)
      (1 * digitVal b0 + 2 * digitVal b1 + 3 * digitVal b2 + 4 * digitVal b3 + 6 * digitVal b5 + 7 * digitVal b6 + 8 * digitVal b7 + 9 * digitVal b8 + 10 * checkVal b9)
      ⟨by decide, by decide⟩ (digitVal_le b4 h4) (digitVal_le c hcd)
      (fun h => hcv (digitVal_inj b4 c h4 hcd h).symm) ?_
    exact hsum
  · show IsISBNv10 [b0, b1, b2, b3, b4, c, b6, b7, b8, b9] = some false
    have hcd : isDigit c = true := by
      rcases hc with h | ⟨h, _⟩
      · exact h
      · exact absurd h (by decide)
    have hcv : c ≠ b5 := fun h => hne (by rw [h]; rfl)
    rw [IsISBNv10_eval _ b0 b1 b2 b3 b4 c b6 b7 b8 b9 (strip_isbn _ (by
      simp only [List.mem_cons, List.mem_singleton, List.not_mem_nil, or_false,
        forall_eq_or_imp, forall_eq]
      exact ⟨Or.inl h0, Or.inl h1, Or.inl h2, Or.inl h3, Or.inl h4, Or.inl hcd, Or.inl h6, Or.inl h7, Or.inl h8, h9⟩)) h0 h1 h2 h3 h4 hcd h6 h7 h8 h9]
    rw [Option.some.injEq, decide_eq_false_iff_not]
    have e : 1 * digitVal b0 + 2 * digitVal b1 + 3 * digitVal b2 + 4 * digitVal b3 + 5 * digitVal b4 + 6 * digitVal c + 7 * digitVal b6 + 8 * digitVal b7 + 9 * digitVal b8 + 10 * checkVal b9 = 6 * digitVal c + (1 * digitVal b0 + 2 * digitVal b1 + 3 * digitVal b2 + 4 * digitVal b3 + 5 * digitVal b4 + 7 * digitVal b6 + 8 * digitVal b7 + 9 * digitVal b8 + 10 * checkVal b9) := by ring
    have e0 : 1 * digitVal b0 + 2 * digitVal b1 + 3 * digitVal b2 + 4 * digitVal b3 + 5 * digitVal b4 + 6 * digitVal b5 + 7 * digitVal b6 + 8 * digitVal b7 + 9 * digitVal b8 + 10 * checkVal b9 = 6 * digitVal b5 + (1 * digitVal b0 + 2 * digitVal b1 + 3 * digitVal b2 + 4 * digitVal b3 + 5 * digitVal b4 + 7 * digitVal b6 + 8 * digitVal b7 + 9 * digitVal b8 + 10 * checkVal b9) := by ring
    show ¬ (1 * digitVal b0 + 2 * digitVal b1 + 3 * digitVal b2 + 4 * digitVal b3 + 5 * digitVal b4 + 6 * digitVal c + 7 * digitVal b6 + 8 * digitVal b7 + 9 * digitVal b8 + 10 * checkVal b9) % 11 = 0
    rw [e]
    rw [e0] at hsum
    refine mod11_cancel 6 (digitVal b5) (digitVal c)
      (1 * digitVal b0 + 2 * digitVal b1 + 3 * digitVal b2 + 4 * digitVal b3 + 5 * digitVal b4 + 7 * digitVal b6 + 8 * digitVal b7 + 9 * digitVal b8 + 10 * checkVal b9)
      ⟨by decide, by decide⟩ (digitVal_le b5 h5) (digitVal_le c hcd)
      (fun h => hcv (digitVal_inj b5 c h5 hcd h).symm) ?_
    exact hsum
  · show IsISBNv10 [b0, b1, b2, b3, b4, b5, c, b7, b8, b9] = some false
    have hcd : isDigit c = true := by
      rcases hc with h | ⟨h, _⟩
      · exact h
      · exact absurd h (by decide)
    have hcv : c ≠ b6 := fun h => hne (by rw [h]; rfl)
    rw [IsISBNv10_eval _ b0 b1 b2 b3 b4 b5 c b7 b8 b9 (strip_isbn _ (by
      simp only [List.mem_cons, List.mem_singleton, List.not_mem_nil, or_false,
        forall_eq_or_imp, forall_eq]
      exact ⟨Or.inl h0, Or.inl h1, Or.inl h2, Or.inl h3, Or.inl h4, Or.inl h5, Or.inl hcd, Or.inl h7, Or.inl h8, h9⟩)) h0 h1 h2 h3 h4 h5 hcd h7 h8 h9]
    rw [Option.some.injEq, decide_eq_false_iff_not]
    have e : 1 * digitVal b0 + 2 * digitVal b1 + 3 * digitVal b2 + 4 * digitVal b3 + 5 * digitVal b4 + 6 * digitVal b5 + 7 * digitVal c + 8 * digitVal b7 + 9 * digitVal b8 + 10 * checkVal b9 = 7 * digitVal c + (1 * digitVal b0 + 2 * digitVal b1 + 3 * digitVal b2 + 4 * digitVal b3 + 5 * digitVal b4 + 6 * digitVal b5 + 8 * digitVal b7 + 9 * digitVal b8 + 10 * checkVal b9) := by ring
    have e0 : 1 * digitVal b0 + 2 * digitVal b1 + 3 * digitVal b2 + 4 * digitVal b3 + 5 * digitVal b4 + 6 * digitVal b5 + 7 * digitVal b6 + 8 * digitVal b7 + 9 * digitVal b8 + 10 * checkVal b9 = 7 * digitVal b6 + (1 * digitVal b0 + 2 * digitVal b1 + 3 * digitVal b2 + 4 * digitVal b3 + 5 * digitVal b4 + 6 * digitVal b5 + 8 * digitVal b7 + 9 * digitVal b8 + 10 * checkVal b9) := by ring
    show ¬ (1 * digitVal b0 + 2 * digitVal b1 + 3 * digitVal b2 + 4 * digitVal b3 + 5 * digitVal b4 + 6 * digitVal b5 + 7 * digitVal c + 8 * digitVal b7 + 9 * digitVal b8 + 10 * checkVal b9) % 11 = 0
    rw [e]
    rw [e0] at hsum
    refine mod11_cancel 7 (digitVal b6) (digitVal c)
      (1 * digitVal b0 + 2 * digitVal b1 + 3 * digitVal b2 + 4 * digitVal b3 + 5 * digitVal b4 + 6 * digitVal b5 + 8 * digitVal b7 + 9 * digitVal b8 + 10 * checkVal b9)
      ⟨by decide, by decide⟩ (digitVal_le b6 h6) (digitVal_le c hcd)
      (fun h => hcv (digitVal_inj b6 c h6 hcd h).symm) ?_
    exact hsum
  · show IsISBNv10 [b0, b1, b2, b3, b4, b5, b6, c, b8, b9] = some false
    have hcd : isDigit c = true := by
      rcases hc with h | ⟨h, _⟩
      · exact h
      · exact absurd h (by decide)
    have hcv : c ≠ b7 := fun h => hne (by rw [h]; rfl)
    rw [IsISBNv10_eval _ b0 b1 b2 b3 b4 b5 b6 c b8 b9 (strip_isbn _ (by
      simp only [List.mem_cons, List.mem_singleton, List.not_mem_nil, or_false,
        forall_eq_or_imp, forall_eq]
      exact ⟨Or.inl h0, Or.inl h1, Or.inl h2, Or.inl h3, Or.inl h4, Or.inl h5, Or.inl h6, Or.inl hcd, Or.inl h8, h9⟩)) h0 h1 h2 h3 h4 h5 h6 hcd h8 h9]
    rw [Option.some.injEq, decide_eq_false_iff_not]
    have e : 1 * digitVal b0 + 2 * digitVal b1 + 3 * digitVal b2 + 4 * digitVal b3 + 5 * digitVal b4 + 6 * digitVal b5 + 7 * digitVal b6 + 8 * digitVal c + 9 * digitVal b8 + 10 * checkVal b9 = 8 * digitVal c + (1 * digitVal b0 + 2 * digitVal b1 + 3 * digitVal b2 + 4 * digitVal b3 + 5 * digitVal b4 + 6 * digitVal b5 + 7 * digitVal b6 + 9 * digitVal b8 + 10 * checkVal b9) := by ring
    have e0 : 1 * digitVal b0 + 2 * digitVal b1 + 3 * digitVal b2 + 4 * digitVal b3 + 5 * digitVal b4 + 6 * digitVal b5 + 7 * digitVal b6 + 8 * digitVal b7 + 9 * digitVal b8 + 10 * checkVal b9 = 8 * digitVal b7 + (1 * digitVal b0 + 2 * digitVal b1 + 3 * digitVal b2 + 4 * digitVal b3 + 5 * digitVal b4 + 6 * digitVal b5 + 7 * digitVal b6 + 9 * digitVal b8 + 10 * checkVal b9) := by ring
    show ¬ (1 * digitVal b0 + 2 * digitVal b1 + 3 * digitVal b2 + 4 * digitVal b3 + 5 * digitVal b4 + 6 * digitVal b5 + 7 * digitVal b6 + 8 * digitVal c + 9 * digitVal b8 + 10 * checkVal b9) % 11 = 0
    rw [e]
    rw [e0] at hsum
    refine mod11_cancel 8 (digitVal b7) (digitVal c)
      (1 * digitVal b0 + 2 * digitVal b1 + 3 * digitVal b2 + 4 * digitVal b3 + 5 * digitVal b4 + 6 * digitVal b5 + 7 * digitVal b6 + 9 * digitVal b8 + 10 * checkVal b9)
      ⟨by decide, by decide⟩ (digitVal_le b7 h7) (digitVal_le c hcd)
      (fun h => hcv (digitVal_inj b7 c h7 hcd h).symm) ?_
    exact hsum
  · show IsISBNv10 [b0, b1, b2, b3, b4, b5, b6, b7, c, b9] = some false
    have hcd : isDigit c = true := by
      rcases hc with h | ⟨h, _⟩
      · exact h
      · exact absurd h (by decide)
    have hcv : c ≠ b8 := fun h => hne (by rw [h]; rfl)
    rw [IsISBNv10_eval _ b0 b1 b2 b3 b4 b5 b6 b7 c b9 (strip_isbn _ (by
      simp only [List.mem_cons, List.mem_singleton, List.not_mem_nil, or_false,
        forall_eq_or_imp, forall_eq]
      exact ⟨Or.inl h0, Or.inl h1, Or.inl h2, Or.inl h3, Or.inl h4, Or.inl h5, Or.inl h6, Or.inl h7, Or.inl hcd, h9⟩)) h0 h1 h2 h3 h4 h5 h6 h7 hcd h9]
    rw [Option.some.injEq, decide_eq_false_iff_not]
    have e : 1 * digitVal b0 + 2 * digitVal b1 + 3 * digitVal b2 + 4 * digitVal b3 + 5 * digitVal b4 + 6 * digitVal b5 + 7 * digitVal b6 + 8 * digitVal b7 + 9 * digitVal c + 10 * checkVal b9 = 9 * digitVal c + (1 * digitVal b0 + 2 * digitVal b1 + 3 * digitVal b2 + 4 * digitVal b3 + 5 * digitVal b4 + 6 * digitVal b5 + 7 * digitVal b6 + 8 * digitVal b7 + 10 * checkVal b9) := by ring
    have e0 : 1 * digitVal b0 + 2 * digitVal b1 + 3 * digitVal b2 + 4 * digitVal b3 + 5 * digitVal b4 + 6 * digitVal b5 + 7 * digitVal b6 + 8 * digitVal b7 + 9 * digitVal b8 + 10 * checkVal b9 = 9 * digitVal b8 + (1 * digitVal b0 + 2 * digitVal b1 + 3 * digitVal b2 + 4 * digitVal b3 + 5 * digitVal b4 + 6 * digitVal b5 + 7 * digitVal b6 + 8 * digitVal b7 + 10 * checkVal b9) := by ring
    show ¬ (1 * digitVal b0 + 2 * digitVal b1 + 3 * digitVal b2 + 4 * digitVal b3 + 5 * digitVal b4 + 6 * digitVal b5 + 7 * digitVal b6 + 8 * digitVal b7 + 9 * digitVal c + 10 * checkVal b9) % 11 = 0
    rw [e]
    rw [e0] at hsum
    refine mod11_cancel 9 (digitVal b8) (digitVal c)
      (1 * digitVal b0 + 2 * digitVal b1 + 3 * digitVal b2 + 4 * digitVal b3 + 5 * digitVal b4 + 6 * digitVal b5 + 7 * digitVal b6 + 8 * digitVal b7 + 10 * checkVal b9)
      ⟨by decide, by decide⟩ (digitVal_le b8 h8) (digitVal_le c hcd)
      (fun h => hcv (digitVal_inj b8 c h8 hcd h).symm) ?_
    exact hsum
  · show IsISBNv10 [b0, b1, b2, b3, b4, b5, b6, b7, b8, c] = some false
    have hc9 : isDigit c = true ∨ c = 0x58 := by
      rcases hc with h | ⟨_, h⟩
      · exact Or.inl h
      · exact Or.inr h
    have hcv : c ≠ b9 := fun h => hne (by rw [h]; rfl)
    rw [IsISBNv10_eval _ b0 b1 b2 b3 b4 b5 b6 b7 b8 c (strip_isbn _ (by
      simp only [List.mem_cons, List.mem_singleton, List.not_mem_nil, or_false,
        forall_eq_or_imp, forall_eq]
      exact ⟨Or.inl h0, Or.inl h1, Or.inl h2, Or.inl h3, Or.inl h4, Or.inl h5, Or.inl h6, Or.inl h7, Or.inl h8, hc9⟩)) h0 h1 h2 h3 h4 h5 h6 h7 h8 hc9]
    rw [Option.some.injEq, decide_eq_false_iff_not]
    have e : 1 * digitVal b0 + 2 * digitVal b1 + 3 * digitVal b2 + 4 * digitVal b3 + 5 * digitVal b4 + 6 * digitVal b5 + 7 * digitVal b6 + 8 * digitVal b7 + 9 * digitVal b8 + 10 * checkVal c = 10 * checkVal c + (1 * digitVal b0 + 2 * digitVal b1 + 3 * digitVal b2 + 4 * digitVal b3 + 5 * digitVal b4 + 6 * digitVal b5 + 7 * digitVal b6 + 8 * digitVal b7 + 9 * digitVal b8) := by ring
    have e0 : 1 * digitVal b0 + 2 * digitVal b1 + 3 * digitVal b2 + 4 * digitVal b3 + 5 * digitVal b4 + 6 * digitVal b5 + 7 * digitVal b6 + 8 * digitVal b7 + 9 * digitVal b8 + 10 * checkVal b9 = 10 * checkVal b9 + (1 * digitVal b0 + 2 * digitVal b1 + 3 * digitVal b2 + 4 * digitVal b3 + 5 * digitVal b4 + 6 * digitVal b5 + 7 * digitVal b6 + 8 * digitVal b7 + 9 * digitVal b8) := by ring
    show ¬ (1 * digitVal b0 + 2 * digitVal b1 + 3 * digitVal b2 + 4 * digitVal b3 + 5 * digitVal b4 + 6 * digitVal b5 + 7 * digitVal b6 + 8 * digitVal b7 + 9 * digitVal b8 + 10 * checkVal c) % 11 = 0
    rw [e]
    rw [e0] at hsum
    refine mod11_cancel 10 (checkVal b9) (checkVal c)
      (1 * digitVal b0 + 2 * digitVal b1 + 3 * digitVal b2 + 4 * digitVal b3 + 5 * digitVal b4 + 6 * digitVal b5 + 7 * digitVal b6 + 8 * digitVal b7 + 9 * digitVal b8)
      ⟨by decide, by decide⟩ (checkVal_le b9 h9) (checkVal_le c hc9)
      (fun h => hcv (checkVal_inj b9 c h9 hc9 h).symm) ?_
    exact hsum

/-- C18, witness: `3836221195` is an ISBN-10; with its digit at index 4 replaced by
`7`, or its check digit by `X`, it is none. -/
theorem IsISBNv10_substitution_witness :
    IsISBNv10 (goStr "3836221195") = some true ∧
    IsISBNv10 ((goStr "3836221195").set 4 0x37) = some false ∧
    (goStr "3836221195").set 4 0x37 = goStr "3836721195" ∧
    IsISBNv10 ((goStr "3836221195").set 9 0x58) = some false ∧
    (goStr "3836221195").set 9 0x58 = goStr "383622119X" :=
  ⟨by decide,
    IsISBNv10_substitution (goStr "3836221195") 4 0x37 (by decide) (by decide) (by decide)
      (by decide) (by decide),
    by decide,
    IsISBNv10_substitution (goStr "3836221195") 9 0x58 (by decide) (by decide) (by decide)
      (by decide) (by decide),
    by decide⟩

/-- C19. The ISBN-13 checksum detects every substitution of one digit: when a
string `t` of thirteen characters is accepted by `IsISBNv13`, so that it consists
of thirteen decimal digits, and the digit at one position `i` is replaced by a
different decimal digit, the result is rejected by `IsISBNv13`. -/
theorem IsISBNv13_substitution (t : GoString) (i : Nat) (c : Byte)
    (hlen : t.length = 13) (ht : IsISBNv13 t = some true) (hi : i < 13)
    (hc : isDigit c = true) (hne : t[i]? ≠ some c) :
    IsISBNv13 (t.set i c) = some false := by
  obtain ⟨b0, b1, b2, b3, b4, b5, b6, b7, b8, b9, b10, b11, b12, hs, h0, h1, h2, h3, h4, h5, h6, h7, h8, h9, h10, h11, h12, hsum⟩ :=
    (IsISBNv13_iff_aux t).1 ht
  have hst : strip t = t := strip_eq_of_length t (by rw [hs, hlen]; rfl)
  rw [hst] at hs
  subst hs
  interval_cases i
  · show IsISBNv13 [c, b1, b2, b3, b4, b5, b6, b7, b8, b9, b10, b11, b12] = some false
    have hcv : c ≠ b0 := fun h => hne (by rw [h]; rfl)
    rw [IsISBNv13_eval _ c b1 b2 b3 b4 b5 b6 b7 b8 b9 b10 b11 b12 (strip_isbn _ (by
      simp only [List.mem_cons, List.mem_singleton, List.not_mem_nil, or_false,
        forall_eq_or_imp, forall_eq]
      exact ⟨Or.inl hc, Or.inl h1, Or.inl h2, Or.inl h3, Or.inl h4, Or.inl h5, Or.inl h6, Or.inl h7, Or.inl h8, Or.inl h9, Or.inl h10, Or.inl h11, Or.inl h12⟩)) hc h1 h2 h3 h4 h5 h6 h7 h8 h9 h10 h11 h12]
    rw [Option.some.injEq, decide_eq_false_iff_not]
    have e : 1 * digitVal c + 3 * digitVal b1 + 1 * digitVal b2 + 3 * digitVal b3 + 1 * digitVal b4 + 3 * digitVal b5 + 1 * digitVal b6 + 3 * digitVal b7 + 1 * digitVal b8 + 3 * digitVal b9 + 1 * digitVal b10 + 3 * digitVal b11 = 1 * digitVal c + (3 * digitVal b1 + 1 * digitVal b2 + 3 * digitVal b3 + 1 * digitVal b4 + 3 * digitVal b5 + 1 * digitVal b6 + 3 * digitVal b7 + 1 * digitVal b8 + 3 * digitVal b9 + 1 * digitVal b10 + 3 * digitVal b11) := by ring
    have e0 : 1 * digitVal b0 + 3 * digitVal b1 + 1 * digitVal b2 + 3 * digitVal b3 + 1 * digitVal b4 + 3 * digitVal b5 + 1 * digitVal b6 + 3 * digitVal b7 + 1 * digitVal b8 + 3 * digitVal b9 + 1 * digitVal b10 + 3 * digitVal b11 = 1 * digitVal b0 + (3 * digitVal b1 + 1 * digitVal b2 + 3 * digitVal b3 + 1 * digitVal b4 + 3 * digitVal b5 + 1 * digitVal b6 + 3 * digitVal b7 + 1 * digitVal b8 + 3 * digitVal b9 + 1 * digitVal b10 + 3 * digitVal b11) := by ring
    show ¬ digitVal b12 = (10 - (1 * digitVal c + 3 * digitVal b1 + 1 * digitVal b2 + 3 * digitVal b3 + 1 * digitVal b4 + 3 * digitVal b5 + 1 * digitVal b6 + 3 * digitVal b7 + 1 * digitVal b8 + 3 * digitVal b9 + 1 * digitVal b10 + 3 * digitVal b11) % 10) % 10
    rw [e]
    rw [e0] at hsum
    exact mod10_cancel 1 (digitVal b0) (digitVal c)
      (3 * digitVal b1 + 1 * digitVal b2 + 3 * digitVal b3 + 1 * digitVal b4 + 3 * digitVal b5 + 1 * digitVal b6 + 3 * digitVal b7 + 1 * digitVal b8 + 3 * digitVal b9 + 1 * digitVal b10 + 3 * digitVal b11) (digitVal b12)
      (by decide) (digitVal_le_nine b0 h0) (digitVal_le_nine c hc)
      (fun h => hcv (digitVal_inj b0 c h0 hc h).symm) hsum
  · show IsISBNv13 [b0, c, b2, b3, b4, b5, b6, b7, b8, b9, b10, b11, b12] = some false
    have hcv : c ≠ b1 := fun h => hne (by rw [h]; rfl)
    rw [IsISBNv13_eval _ b0 c b2 b3 b4 b5 b6 b7 b8 b9 b10 b11 b12 (strip_isbn _ (by
      simp only [List.mem_cons, List.mem_singleton, List.not_mem_nil, or_false,
        forall_eq_or_imp, forall_eq]
      exact ⟨Or.inl h0, Or.inl hc, Or.inl h2, Or.inl h3, Or.inl h4, Or.inl h5, Or.inl h6, Or.inl h7, Or.inl h8, Or.inl h9, Or.inl h10, Or.inl h11, Or.inl h12⟩)) h0 hc h2 h3 h4 h5 h6 h7 h8 h9 h10 h11 h12]
    rw [Option.some.injEq, decide_eq_false_iff_not]
    have e : 1 * digitVal b0 + 3 * digitVal c + 1 * digitVal b2 + 3 * digitVal b3 + 1 * digitVal b4 + 3 * digitVal b5 + 1 * digitVal b6 + 3 * digitVal b7 + 1 * digitVal b8 + 3 * digitVal b9 + 1 * digitVal b10 + 3 * digitVal b11 = 3 * digitVal c + (1 * digitVal b0 + 1 * digitVal b2 + 3 * digitVal b3 + 1 * digitVal b4 + 3 * digitVal b5 + 1 * digitVal b6 + 3 * digitVal b7 + 1 * digitVal b8 + 3 * digitVal b9 + 1 * digitVal b10 + 3 * digitVal b11) := by ring
    have e0 : 1 * digitVal b0 + 3 * digitVal b1 + 1 * digitVal b2 + 3 * digitVal b3 + 1 * digitVal b4 + 3 * digitVal b5 + 1 * digitVal b6 + 3 * digitVal b7 + 1 * digitVal b8 + 3 * digitVal b9 + 1 * digitVal b10 + 3 * digitVal b11 = 3 * digitVal b1 + (1 * digitVal b0 + 1 * digitVal b2 + 3 * digitVal b3 + 1 * digitVal b4 + 3 * digitVal b5 + 1 * digitVal b6 + 3 * digitVal b7 + 1 * digitVal b8 + 3 * digitVal b9 + 1 * digitVal b10 + 3 * digitVal b11) := by ring
    show ¬ digitVal b12 = (10 - (1 * digitVal b0 + 3 * digitVal c + 1 * digitVal b2 + 3 * digitVal b3 + 1 * digitVal b4 + 3 * digitVal b5 + 1 * digitVal b6 + 3 * digitVal b7 + 1 * digitVal b8 + 3 * digitVal b9 + 1 * digitVal b10 + 3 * digitVal b11) % 10) % 10
    rw [e]
    rw [e0] at hsum
    exact mod10_cancel 3 (digitVal b1) (digitVal c)
      (1 * digitVal b0 + 1 * digitVal b2 + 3 * digitVal b3 + 1 * digitVal b4 + 3 * digitVal b5 + 1 * digitVal b6 + 3 * digitVal b7 + 1 * digitVal b8 + 3 * digitVal b9 + 1 * digitVal b10 + 3 * digitVal b11) (digitVal b12)
      (by decide) (digitVal_le_nine b1 h1) (digitVal_le_nine c hc)
      (fun h => hcv (digitVal_inj b1 c h1 hc h).symm) hsum
  · show IsISBNv13 [b0, b1, c, b3, b4, b5, b6, b7, b8, b9, b10, b11, b12] = some false
    have hcv : c ≠ b2 := fun h => hne (by rw [h]; rfl)
    rw [IsISBNv13_eval _ b0 b1 c b3 b4 b5 b6 b7 b8 b9 b10 b11 b12 (strip_isbn _ (by
      simp only [List.mem_cons, List.mem_singleton, List.not_mem_nil, or_false,
        forall_eq_or_imp, forall_eq]
      exact ⟨Or.inl h0, Or.inl h1, Or.inl hc, Or.inl h3, Or.inl h4, Or.inl h5, Or.inl h6, Or.inl h7, Or.inl h8, Or.inl h9, Or.inl h10, Or.inl h11, Or.inl h12⟩)) h0 h1 hc h3 h4 h5 h6 h7 h8 h9 h10 h11 h12]
    rw [Option.some.injEq, decide_eq_false_iff_not]
    have e : 1 * digitVal b0 + 3 * digitVal b1 + 1 * digitVal c + 3 * digitVal b3 + 1 * digitVal b4 + 3 * digitVal b5 + 1 * digitVal b6 + 3 * digitVal b7 + 1 * digitVal b8 + 3 * digitVal b9 + 1 * digitVal b10 + 3 * digitVal b11 = 1 * digitVal c + (1 * digitVal b0 + 3 * digitVal b1 + 3 * digitVal b3 + 1 * digitVal b4 + 3 * digitVal b5 + 1 * digitVal b6 + 3 * digitVal b7 + 1 * digitVal b8 + 3 * digitVal b9 + 1 * digitVal b10 + 3 * digitVal b11) := by ring
    have e0 : 1 * digitVal b0 + 3 * digitVal b1 + 1 * digitVal b2 + 3 * digitVal b3 + 1 * digitVal b4 + 3 * digitVal b5 + 1 * digitVal b6 + 3 * digitVal b7 + 1 * digitVal b8 + 3 * digitVal b9 + 1 * digitVal b10 + 3 * digitVal b11 = 1 * digitVal b2 + (1 * digitVal b0 + 3 * digitVal b1 + 3 * digitVal b3 + 1 * digitVal b4 + 3 * digitVal b5 + 1 * digitVal b6 + 3 * digitVal b7 + 1 * digitVal b8 + 3 * digitVal b9 + 1 * digitVal b10 + 3 * digitVal b11) := by ring
    show ¬ digitVal b12 = (10 - (1 * digitVal b0 + 3 * digitVal b1 + 1 * digitVal c + 3 * digitVal b3 + 1 * digitVal b4 + 3 * digitVal b5 + 1 * digitVal b6 + 3 * digitVal b7 + 1 * digitVal b8 + 3 * digitVal b9 + 1 * digitVal b10 + 3 * digitVal b11) % 10) % 10
    rw [e]
    rw [e0] at hsum
    exact mod10_cancel 1 (digitVal b2) (digitVal c)
      (1 * digitVal b0 + 3 * digitVal b1 + 3 * digitVal b3 + 1 * digitVal b4 + 3 * digitVal b5 + 1 * digitVal b6 + 3 * digitVal b7 + 1 * digitVal b8 + 3 * digitVal b9 + 1 * digitVal b10 + 3 * digitVal b11) (digitVal b12)
      (by decide) (digitVal_le_nine b2 h2) (digitVal_le_nine c hc)
      (fun h => hcv (digitVal_inj b2 c h2 hc h).symm) hsum
  · show IsISBNv13 [b0, b1, b2, c, b4, b5, b6, b7, b8, b9, b10, b11, b12] = some false
    have hcv : c ≠ b3 := fun h => hne (by rw [h]; rfl)
    rw [IsISBNv13_eval _ b0 b1 b2 c b4 b5 b6 b7 b8 b9 b10 b11 b12 (strip_isbn _ (by
      simp only [List.mem_cons, List.mem_singleton, List.not_mem_nil, or_false,
        forall_eq_or_imp, forall_eq]
      exact ⟨Or.inl h0, Or.inl h1, Or.inl h2, Or.inl hc, Or.inl h4, Or.inl h5, Or.inl h6, Or.inl h7, Or.inl h8, Or.inl h9, Or.inl h10, Or.inl h11, Or.inl h12⟩)) h0 h1 h2 hc h4 h5 h6 h7 h8 h9 h10 h11 h12]
    rw [Option.some.injEq, decide_eq_false_iff_not]
    have e : 1 * digitVal b0 + 3 * digitVal b1 + 1 * digitVal b2 + 3 * digitVal c + 1 * digitVal b4 + 3 * digitVal b5 + 1 * digitVal b6 + 3 * digitVal b7 + 1 * digitVal b8 + 3 * digitVal b9 + 1 * digitVal b10 + 3 * digitVal b11 = 3 * digitVal c + (1 * digitVal b0 + 3 * digitVal b1 + 1 * digitVal b2 + 1 * digitVal b4 + 3 * digitVal b5 + 1 * digitVal b6 + 3 * digitVal b7 + 1 * digitVal b8 + 3 * digitVal b9 + 1 * digitVal b10 + 3 * digitVal b11) := by ring
    have e0 : 1 * digitVal b0 + 3 * digitVal b1 + 1 * digitVal b2 + 3 * digitVal b3 + 1 * digitVal b4 + 3 * digitVal b5 + 1 * digitVal b6 + 3 * digitVal b7 + 1 * digitVal b8 + 3 * digitVal b9 + 1 * digitVal b10 + 3 * digitVal b11 = 3 * digitVal b3 + (1 * digitVal b0 + 3 * digitVal b1 + 1 * digitVal b2 + 1 * digitVal b4 + 3 * digitVal b5 + 1 * digitVal b6 + 3 * digitVal b7 + 1 * digitVal b8 + 3 * digitVal b9 + 1 * digitVal b10 + 3 * digitVal b11) := by ring
    show ¬ digitVal b12 = (10 - (1 * digitVal b0 + 3 * digitVal b1 + 1 * digitVal b2 + 3 * digitVal c + 1 * digitVal b4 + 3 * digitVal b5 + 1 * digitVal b6 + 3 * digitVal b7 + 1 * digitVal b8 + 3 * digitVal b9 + 1 * digitVal b10 + 3 * digitVal b11) % 10) % 10
    rw [e]
    rw [e0] at hsum
    exact mod10_cancel 3 (digitVal b3) (digitVal c)
      (1 * digitVal b0 + 3 * digitVal b1 + 1 * digitVal b2 + 1 * digitVal b4 + 3 * digitVal b5 + 1 * digitVal b6 + 3 * digitVal b7 + 1 * digitVal b8 + 3 * digitVal b9 + 1 * digitVal b10 + 3 * digitVal b11) (digitVal b12)
      (by decide) (digitVal_le_nine b3 h3) (digitVal_le_nine c hc)
      (fun h => hcv (digitVal_inj b3 c h3 hc h).symm) hsum
  · show IsISBNv13 [b0, b1, b2, b3, c, b5, b6, b7, b8, b9, b10, b11, b12] = some false
    have hcv : c ≠ b4 := fun h => hne (by rw [h]; rfl)
    rw [IsISBNv13_eval _ b0 b1 b2 b3 c b5 b6 b7 b8 b9 b10 b11 b12 (strip_isbn _ (by
      simp only [List.mem_cons, List.mem_singleton, List.not_mem_nil, or_false,
        forall_eq_or_imp, forall_eq]
      exact ⟨Or.inl h0, Or.inl h1, Or.inl h2, Or.inl h3, Or.inl hc, Or.inl h5, Or.inl h6, Or.inl h7, Or.inl h8, Or.inl h9, Or.inl h10, Or.inl h11, Or.inl h12⟩)) h0 h1 h2 h3 hc h5 h6 h7 h8 h9 h10 h11 h12]
    rw [Option.some.injEq, decide_eq_false_iff_not]
    have e : 1 * digitVal b0 + 3 * digitVal b1 + 1 * digitVal b2 + 3 * digitVal b3 + 1 * digitVal c + 3 * digitVal b5 + 1 * digitVal b6 + 3 * digitVal b7 + 1 * digitVal b8 + 3 * digitVal b9 + 1 * digitVal b10 + 3 * digitVal b11 = 1 * digitVal c + (1 * digitVal b0 + 3 * digitVal b1 + 1 * digitVal b2 + 3 * digitVal b3 + 3 * digitVal b5 + 1 * digitVal b6 + 3 * digitVal b7 + 1 * digitVal b8 + 3 * digitVal b9 + 1 * digitVal b10 + 3 * digitVal b11) := by ring
    have e0 : 1 * digitVal b0 + 3 * digitVal b1 + 1 * digitVal b2 + 3 * digitVal b3 + 1 * digitVal b4 + 3 * digitVal b5 + 1 * digitVal b6 + 3 * digitVal b7 + 1 * digitVal b8 + 3 * digitVal b9 + 1 * digitVal b10 + 3 * digitVal b11 = 1 * digitVal b4 + (1 * digitVal b0 + 3 * digitVal b1 + 1 * digitVal b2 + 3 * digitVal b3 + 3 * digitVal b5 + 1 * digitVal b6 + 3 * digitVal b7 + 1 * digitVal b8 + 3 * digitVal b9 + 1 * digitVal b10 + 3 * digitVal b11) := by ring
    show ¬ digitVal b12 = (10 - (1 * digitVal b0 + 3 * digitVal b1 + 1 * digitVal b2 + 3 * digitVal b3 + 1 * digitVal c + 3 * digitVal b5 + 1 * digitVal b6 + 3 * digitVal b7 + 1 * digitVal b8 + 3 * digitVal b9 + 1 * digitVal b10 + 3 * digitVal b11) % 10) % 10
    rw [e]
    rw [e0] at hsum
    exact mod10_cancel 1 (digitVal b4) (digitVal c)
      (1 * digitVal b0 + 3 * digitVal b1 + 1 * digitVal b2 + 3 * digitVal b3 + 3 * digitVal b5 + 1 * digitVal b6 + 3 * digitVal b7 + 1 * digitVal b8 + 3 * digitVal b9 + 1 * digitVal b10 + 3 * digitVal b11) (digitVal b12)
      (by decide) (digitVal_le_nine b4 h4) (digitVal_le_nine c hc)
      (fun h => hcv (digitVal_inj b4 c h4 hc h).symm) hsum
  · show IsISBNv13 [b0, b1, b2, b3, b4, c, b6, b7, b8, b9, b10, b11, b12] = some false
    have hcv : c ≠ b5 := fun h => hne (by rw [h]; rfl)
    rw [IsISBNv13_eval _ b0 b1 b2 b3 b4 c b6 b7 b8 b9 b10 b11 b12 (strip_isbn _ (by
      simp only [List.mem_cons, List.mem_singleton, List.not_mem_nil, or_false,
        forall_eq_or_imp, forall_eq]
      exact ⟨Or.inl h0, Or.inl h1, Or.inl h2, Or.inl h3, Or.inl h4, Or.inl hc, Or.inl h6, Or.inl h7, Or.inl h8, Or.inl h9, Or.inl h10, Or.inl h11, Or.inl h12⟩)) h0 h1 h2 h3 h4 hc h6 h7 h8 h9 h10 h11 h12]
    rw [Option.some.injEq, decide_eq_false_iff_not]
    have e : 1 * digitVal b0 + 3 * digitVal b1 + 1 * digitVal b2 + 3 * digitVal b3 + 1 * digitVal b4 + 3 * digitVal c + 1 * digitVal b6 + 3 * digitVal b7 + 1 * digitVal b8 + 3 * digitVal b9 + 1 * digitVal b10 + 3 * digitVal b11 = 3 * digitVal c + (1 * digitVal b0 + 3 * digitVal b1 + 1 * digitVal b2 + 3 * digitVal b3 + 1 * digitVal b4 + 1 * digitVal b6 + 3 * digitVal b7 + 1 * digitVal b8 + 3 * digitVal b9 + 1 * digitVal b10 + 3 * digitVal b11) := by ring
    have e0 : 1 * digitVal b0 + 3 * digitVal b1 + 1 * digitVal b2 + 3 * digitVal b3 + 1 * digitVal b4 + 3 * digitVal b5 + 1 * digitVal b6 + 3 * digitVal b7 + 1 * digitVal b8 + 3 * digitVal b9 + 1 * digitVal b10 + 3 * digitVal b11 = 3 * digitVal b5 + (1 * digitVal b0 + 3 * digitVal b1 + 1 * digitVal b2 + 3 * digitVal b3 + 1 * digitVal b4 + 1 * digitVal b6 + 3 * digitVal b7 + 1 * digitVal b8 + 3 * digitVal b9 + 1 * digitVal b10 + 3 * digitVal b11) := by ring
    show ¬ digitVal b12 = (10 - (1 * digitVal b0 + 3 * digitVal b1 + 1 * digitVal b2 + 3 * digitVal b3 + 1 * digitVal b4 + 3 * digitVal c + 1 * digitVal b6 + 3 * digitVal b7 + 1 * digitVal b8 + 3 * digitVal b9 + 1 * digitVal b10 + 3 * digitVal b11) % 10) % 10
    rw [e]
    rw [e0] at hsum
    exact mod10_cancel 3 (digitVal b5) (digitVal c)
      (1 * digitVal b0 + 3 * digitVal b1 + 1 * digitVal b2 + 3 * digitVal b3 + 1 * digitVal b4 + 1 * digitVal b6 + 3 * digitVal b7 + 1 * digitVal b8 + 3 * digitVal b9 + 1 * digitVal b10 + 3 * digitVal b11) (digitVal b12)
      (by decide) (digitVal_le_nine b5 h5) (digitVal_le_nine c hc)
      (fun h => hcv (digitVal_inj b5 c h5 hc h).symm) hsum
  · show IsISBNv13 [b0, b1, b2, b3, b4, b5, c, b7, b8, b9, b10, b11, b12] = some false
    have hcv : c ≠ b6 := fun h => hne (by rw [h]; rfl)
    rw [IsISBNv13_eval _ b0 b1 b2 b3 b4 b5 c b7 b8 b9 b10 b11 b12 (strip_isbn _ (by
      simp only [List.mem_cons, List.mem_singleton, List.not_mem_nil, or_false,
        forall_eq_or_imp, forall_eq]
      exact ⟨Or.inl h0, Or.inl h1, Or.inl h2, Or.inl h3, Or.inl h4, Or.inl h5, Or.inl hc, Or.inl h7, Or.inl h8, Or.inl h9, Or.inl h10, Or.inl h11, Or.inl h12⟩)) h0 h1 h2 h3 h4 h5 hc h7 h8 h9 h10 h11 h12]
    rw [Option.some.injEq, decide_eq_false_iff_not]
    have e : 1 * digitVal b0 + 3 * digitVal b1 + 1 * digitVal b2 + 3 * digitVal b3 + 1 * digitVal b4 + 3 * digitVal b5 + 1 * digitVal c + 3 * digitVal b7 + 1 * digitVal b8 + 3 * digitVal b9 + 1 * digitVal b10 + 3 * digitVal b11 = 1 * digitVal c + (1 * digitVal b0 + 3 * digitVal b1 + 1 * digitVal b2 + 3 * digitVal b3 + 1 * digitVal b4 + 3 * digitVal b5 + 3 * digitVal b7 + 1 * digitVal b8 + 3 * digitVal b9 + 1 * digitVal b10 + 3 * digitVal b11) := by ring
    have e0 : 1 * digitVal b0 + 3 * digitVal b1 + 1 * digitVal b2 + 3 * digitVal b3 + 1 * digitVal b4 + 3 * digitVal b5 + 1 * digitVal b6 + 3 * digitVal b7 + 1 * digitVal b8 + 3 * digitVal b9 + 1 * digitVal b10 + 3 * digitVal b11 = 1 * digitVal b6 + (1 * digitVal b0 + 3 * digitVal b1 + 1 * digitVal b2 + 3 * digitVal b3 + 1 * digitVal b4 + 3 * digitVal b5 + 3 * digitVal b7 + 1 * digitVal b8 + 3 * digitVal b9 + 1 * digitVal b10 + 3 * digitVal b11) := by ring
    show ¬ digitVal b12 = (10 - (1 * digitVal b0 + 3 * digitVal b1 + 1 * digitVal b2 + 3 * digitVal b3 + 1 * digitVal b4 + 3 * digitVal b5 + 1 * digitVal c + 3 * digitVal b7 + 1 * digitVal b8 + 3 * digitVal b9 + 1 * digitVal b10 + 3 * digitVal b11) % 10) % 10
    rw [e]
    rw [e0] at hsum
    exact mod10_cancel 1 (digitVal b6) (digitVal c)
      (1 * digitVal b0 + 3 * digitVal b1 + 1 * digitVal b2 + 3 * digitVal b3 + 1 * digitVal b4 + 3 * digitVal b5 + 3 * digitVal b7 + 1 * digitVal b8 + 3 * digitVal b9 + 1 * digitVal b10 + 3 * digitVal b11) (digitVal b12)
      (by decide) (digitVal_le_nine b6 h6) (digitVal_le_nine c hc)
      (fun h => hcv (digitVal_inj b6 c h6 hc h).symm) hsum
  · show IsISBNv13 [b0, b1, b2, b3, b4, b5, b6, c, b8, b9, b10, b11, b12] = some false
    have hcv : c ≠ b7 := fun h => hne (by rw [h]; rfl)
    rw [IsISBNv13_eval _ b0 b1 b2 b3 b4 b5 b6 c b8 b9 b10 b11 b12 (strip_isbn _ (by
      simp only [List.mem_cons, List.mem_singleton, List.not_mem_nil, or_false,
        forall_eq_or_imp, forall_eq]
      exact ⟨Or.inl h0, Or.inl h1, Or.inl h2, Or.inl h3, Or.inl h4, Or.inl h5, Or.inl h6, Or.inl hc, Or.inl h8, Or.inl h9, Or.inl h10, Or.inl h11, Or.inl h12⟩)) h0 h1 h2 h3 h4 h5 h6 hc h8 h9 h10 h11 h12]
    rw [Option.some.injEq, decide_eq_false_iff_not]
    have e : 1 * digitVal b0 + 3 * digitVal b1 + 1 * digitVal b2 + 3 * digitVal b3 + 1 * digitVal b4 + 3 * digitVal b5 + 1 * digitVal b6 + 3 * digitVal c + 1 * digitVal b8 + 3 * digitVal b9 + 1 * digitVal b10 + 3 * digitVal b11 = 3 * digitVal c + (1 * digitVal b0 + 3 * digitVal b1 + 1 * digitVal b2 + 3 * digitVal b3 + 1 * digitVal b4 + 3 * digitVal b5 + 1 * digitVal b6 + 1 * digitVal b8 + 3 * digitVal b9 + 1 * digitVal b10 + 3 * digitVal b11) := by ring
    have e0 : 1 * digitVal b0 + 3 * digitVal b1 + 1 * digitVal b2 + 3 * digitVal b3 + 1 * digitVal b4 + 3 * digitVal b5 + 1 * digitVal b6 + 3 * digitVal b7 + 1 * digitVal b8 + 3 * digitVal b9 + 1 * digitVal b10 + 3 * digitVal b11 = 3 * digitVal b7 + (1 * digitVal b0 + 3 * digitVal b1 + 1 * digitVal b2 + 3 * digitVal b3 + 1 * digitVal b4 + 3 * digitVal b5 + 1 * digitVal b6 + 1 * digitVal b8 + 3 * digitVal b9 + 1 * digitVal b10 + 3 * digitVal b11) := by ring
    show ¬ digitVal b12 = (10 - (1 * digitVal b0 + 3 * digitVal b1 + 1 * digitVal b2 + 3 * digitVal b3 + 1 * digitVal b4 + 3 * digitVal b5 + 1 * digitVal b6 + 3 * digitVal c + 1 * digitVal b8 + 3 * digitVal b9 + 1 * digitVal b10 + 3 * digitVal b11) % 10) % 10
    rw [e]
    rw [e0] at hsum
    exact mod10_cancel 3 (digitVal b7) (digitVal c)
      (1 * digitVal b0 + 3 * digitVal b1 + 1 * digitVal b2 + 3 * digitVal b3 + 1 * digitVal b4 + 3 * digitVal b5 + 1 * digitVal b6 + 1 * digitVal b8 + 3 * digitVal b9 + 1 * digitVal b10 + 3 * digitVal b11) (digitVal b12)
      (by decide) (digitVal_le_nine b7 h7) (digitVal_le_nine c hc)
      (fun h => hcv (digitVal_inj b7 c h7 hc h).symm) hsum
  · show IsISBNv13 [b0, b1, b2, b3, b4, b5, b6, b7, c, b9, b10, b11, b12] = some false
    have hcv : c ≠ b8 := fun h => hne (by rw [h]; rfl)
    rw [IsISBNv13_eval _ b0 b1 b2 b3 b4 b5 b6 b7 c b9 b10 b11 b12 (strip_isbn _ (by
      simp only [List.mem_cons, List.mem_singleton, List.not_mem_nil, or_false,
        forall_eq_or_imp, forall_eq]
      exact ⟨Or.inl h0, Or.inl h1, Or.inl h2, Or.inl h3, Or.inl h4, Or.inl h5, Or.inl h6, Or.inl h7, Or.inl hc, Or.inl h9, Or.inl h10, Or.inl h11, Or.inl h12⟩)) h0 h1 h2 h3 h4 h5 h6 h7 hc h9 h10 h11 h12]
    rw [Option.some.injEq, decide_eq_false_iff_not]
    have e : 1 * digitVal b0 + 3 * digitVal b1 + 1 * digitVal b2 + 3 * digitVal b3 + 1 * digitVal b4 + 3 * digitVal b5 + 1 * digitVal b6 + 3 * digitVal b7 + 1 * digitVal c + 3 * digitVal b9 + 1 * digitVal b10 + 3 * digitVal b11 = 1 * digitVal c + (1 * digitVal b0 + 3 * digitVal b1 + 1 * digitVal b2 + 3 * digitVal b3 + 1 * digitVal b4 + 3 * digitVal b5 + 1 * digitVal b6 + 3 * digitVal b7 + 3 * digitVal b9 + 1 * digitVal b10 + 3 * digitVal b11) := by ring
    have e0 : 1 * digitVal b0 + 3 * digitVal b1 + 1 * digitVal b2 + 3 * digitVal b3 + 1 * digitVal b4 + 3 * digitVal b5 + 1 * digitVal b6 + 3 * digitVal b7 + 1 * digitVal b8 + 3 * digitVal b9 + 1 * digitVal b10 + 3 * digitVal b11 = 1 * digitVal b8 + (1 * digitVal b0 + 3 * digitVal b1 + 1 * digitVal b2 + 3 * digitVal b3 + 1 * digitVal b4 + 3 * digitVal b5 + 1 * digitVal b6 + 3 * digitVal b7 + 3 * digitVal b9 + 1 * digitVal b10 + 3 * digitVal b11) := by ring
    show ¬ digitVal b12 = (10 - (1 * digitVal b0 + 3 * digitVal b1 + 1 * digitVal b2 + 3 * digitVal b3 + 1 * digitVal b4 + 3 * digitVal b5 + 1 * digitVal b6 + 3 * digitVal b7 + 1 * digitVal c + 3 * digitVal b9 + 1 * digitVal b10 + 3 * digitVal b11) % 10) % 10
    rw [e]
    rw [e0] at hsum
    exact mod10_cancel 1 (digitVal b8) (digitVal c)
      (1 * digitVal b0 + 3 * digitVal b1 + 1 * digitVal b2 + 3 * digitVal b3 + 1 * digitVal b4 + 3 * digitVal b5 + 1 * digitVal b6 + 3 * digitVal b7 + 3 * digitVal b9 + 1 * digitVal b10 + 3 * digitVal b11) (digitVal b12)
      (by decide) (digitVal_le_nine b8 h8) (digitVal_le_nine c hc)
      (fun h => hcv (digitVal_inj b8 c h8 hc h).symm) hsum
  · show IsISBNv13 [b0, b1, b2, b3, b4, b5, b6, b7, b8, c, b10, b11, b12] = some false
    have hcv : c ≠ b9 := fun h => hne (by rw [h]; rfl)
    rw [IsISBNv13_eval _ b0 b1 b2 b3 b4 b5 b6 b7 b8 c b10 b11 b12 (strip_isbn _ (by
      simp only [List.mem_cons, List.mem_singleton, List.not_mem_nil, or_false,
        forall_eq_or_imp, forall_eq]
      exact ⟨Or.inl h0, Or.inl h1, Or.inl h2, Or.inl h3, Or.inl h4, Or.inl h5, Or.inl h6, Or.inl h7, Or.inl h8, Or.inl hc, Or.inl h10, Or.inl h11, Or.inl h12⟩)) h0 h1 h2 h3 h4 h5 h6 h7 h8 hc h10 h11 h12]
    rw [Option.some.injEq, decide_eq_false_iff_not]
    have e : 1 * digitVal b0 + 3 * digitVal b1 + 1 * digitVal b2 + 3 * digitVal b3 + 1 * digitVal b4 + 3 * digitVal b5 + 1 * digitVal b6 + 3 * digitVal b7 + 1 * digitVal b8 + 3 * digitVal c + 1 * digitVal b10 + 3 * digitVal b11 = 3 * digitVal c + (1 * digitVal b0 + 3 * digitVal b1 + 1 * digitVal b2 + 3 * digitVal b3 + 1 * digitVal b4 + 3 * digitVal b5 + 1 * digitVal b6 + 3 * digitVal b7 + 1 * digitVal b8 + 1 * digitVal b10 + 3 * digitVal b11) := by ring
    have e0 : 1 * digitVal b0 + 3 * digitVal b1 + 1 * digitVal b2 + 3 * digitVal b3 + 1 * digitVal b4 + 3 * digitVal b5 + 1 * digitVal b6 + 3 * digitVal b7 + 1 * digitVal b8 + 3 * digitVal b9 + 1 * digitVal b10 + 3 * digitVal b11 = 3 * digitVal b9 + (1 * digitVal b0 + 3 * digitVal b1 + 1 * digitVal b2 + 3 * digitVal b3 + 1 * digitVal b4 + 3 * digitVal b5 + 1 * digitVal b6 + 3 * digitVal b7 + 1 * digitVal b8 + 1 * digitVal b10 + 3 * digitVal b11) := by ring
    show ¬ digitVal b12 = (10 - (1 * digitVal b0 + 3 * digitVal b1 + 1 * digitVal b2 + 3 * digitVal b3 + 1 * digitVal b4 + 3 * digitVal b5 + 1 * digitVal b6 + 3 * digitVal b7 + 1 * digitVal b8 + 3 * digitVal c + 1 * digitVal b10 + 3 * digitVal b11) % 10) % 10
    rw [e]
    rw [e0] at hsum
    exact mod10_cancel 3 (digitVal b9) (digitVal c)
      (1 * digitVal b0 + 3 * digitVal b1 + 1 * digitVal b2 + 3 * digitVal b3 + 1 * digitVal b4 + 3 * digitVal b5 + 1 * digitVal b6 + 3 * digitVal b7 + 1 * digitVal b8 + 1 * digitVal b10 + 3 * digitVal b11) (digitVal b12)
      (by decide) (digitVal_le_nine b9 h9) (digitVal_le_nine c hc)
      (fun h => hcv (digitVal_inj b9 c h9 hc h).symm) hsum
  · show IsISBNv13 [b0, b1, b2, b3, b4, b5, b6, b7, b8, b9, c, b11, b12] = some false
    have hcv : c ≠ b10 := fun h => hne (by rw [h]; rfl)
    rw [IsISBNv13_eval _ b0 b1 b2 b3 b4 b5 b6 b7 b8 b9 c b11 b12 (strip_isbn _ (by
      simp only [List.mem_cons, List.mem_singleton, List.not_mem_nil, or_false,
        forall_eq_or_imp, forall_eq]
      exact ⟨Or.inl h0, Or.inl h1, Or.inl h2, Or.inl h3, Or.inl h4, Or.inl h5, Or.inl h6, Or.inl h7, Or.inl h8, Or.inl h9, Or.inl hc, Or.inl h11, Or.inl h12⟩)) h0 h1 h2 h3 h4 h5 h6 h7 h8 h9 hc h11 h12]
    rw [Option.some.injEq, decide_eq_false_iff_not]
    have e : 1 * digitVal b0 + 3 * digitVal b1 + 1 * digitVal b2 + 3 * digitVal b3 + 1 * digitVal b4 + 3 * digitVal b5 + 1 * digitVal b6 + 3 * digitVal b7 + 1 * digitVal b8 + 3 * digitVal b9 + 1 * digitVal c + 3 * digitVal b11 = 1 * digitVal c + (1 * digitVal b0 + 3 * digitVal b1 + 1 * digitVal b2 + 3 * digitVal b3 + 1 * digitVal b4 + 3 * digitVal b5 + 1 * digitVal b6 + 3 * digitVal b7 + 1 * digitVal b8 + 3 * digitVal b9 + 3 * digitVal b11) := by ring
    have e0 : 1 * digitVal b0 + 3 * digitVal b1 + 1 * digitVal b2 + 3 * digitVal b3 + 1 * digitVal b4 + 3 * digitVal b5 + 1 * digitVal b6 + 3 * digitVal b7 + 1 * digitVal b8 + 3 * digitVal b9 + 1 * digitVal b10 + 3 * digitVal b11 = 1 * digitVal b10 + (1 * digitVal b0 + 3 * digitVal b1 + 1 * digitVal b2 + 3 * digitVal b3 + 1 * digitVal b4 + 3 * digitVal b5 + 1 * digitVal b6 + 3 * digitVal b7 + 1 * digitVal b8 + 3 * digitVal b9 + 3 * digitVal b11) := by ring
    show ¬ digitVal b12 = (10 - (1 * digitVal b0 + 3 * digitVal b1 + 1 * digitVal b2 + 3 * digitVal b3 + 1 * digitVal b4 + 3 * digitVal b5 + 1 * digitVal b6 + 3 * digitVal b7 + 1 * digitVal b8 + 3 * digitVal b9 + 1 * digitVal c + 3 * digitVal b11) % 10) % 10
    rw [e]
    rw [e0] at hsum
    exact mod10_cancel 1 (digitVal b10) (digitVal c)
      (1 * digitVal b0 + 3 * digitVal b1 + 1 * digitVal b2 + 3 * digitVal b3 + 1 * digitVal b4 + 3 * digitVal b5 + 1 * digitVal b6 + 3 * digitVal b7 + 1 * digitVal b8 + 3 * digitVal b9 + 3 * digitVal b11) (digitVal b12)
      (by decide) (digitVal_le_nine b10 h10) (digitVal_le_nine c hc)
      (fun h => hcv (digitVal_inj b10 c h10 hc h).symm) hsum
  · show IsISBNv13 [b0, b1, b2, b3, b4, b5, b6, b7, b8, b9, b10, c, b12] = some false
    have hcv : c ≠ b11 := fun h => hne (by rw [h]; rfl)
    rw [IsISBNv13_eval _ b0 b1 b2 b3 b4 b5 b6 b7 b8 b9 b10 c b12 (strip_isbn _ (by
      simp only [List.mem_cons, List.mem_singleton, List.not_mem_nil, or_false,
        forall_eq_or_imp, forall_eq]
      exact ⟨Or.inl h0, Or.inl h1, Or.inl h2, Or.inl h3, Or.inl h4, Or.inl h5, Or.inl h6, Or.inl h7, Or.inl h8, Or.inl h9, Or.inl h10, Or.inl hc, Or.inl h12⟩)) h0 h1 h2 h3 h4 h5 h6 h7 h8 h9 h10 hc h12]
    rw [Option.some.injEq, decide_eq_false_iff_not]
    have e : 1 * digitVal b0 + 3 * digitVal b1 + 1 * digitVal b2 + 3 * digitVal b3 + 1 * digitVal b4 + 3 * digitVal b5 + 1 * digitVal b6 + 3 * digitVal b7 + 1 * digitVal b8 + 3 * digitVal b9 + 1 * digitVal b10 + 3 * digitVal c = 3 * digitVal c + (1 * digitVal b0 + 3 * digitVal b1 + 1 * digitVal b2 + 3 * digitVal b3 + 1 * digitVal b4 + 3 * digitVal b5 + 1 * digitVal b6 + 3 * digitVal b7 + 1 * digitVal b8 + 3 * digitVal b9 + 1 * digitVal b10) := by ring
    have e0 : 1 * digitVal b0 + 3 * digitVal b1 + 1 * digitVal b2 + 3 * digitVal b3 + 1 * digitVal b4 + 3 * digitVal b5 + 1 * digitVal b6 + 3 * digitVal b7 + 1 * digitVal b8 + 3 * digitVal b9 + 1 * digitVal b10 + 3 * digitVal b11 = 3 * digitVal b11 + (1 * digitVal b0 + 3 * digitVal b1 + 1 * digitVal b2 + 3 * digitVal b3 + 1 * digitVal b4 + 3 * digitVal b5 + 1 * digitVal b6 + 3 * digitVal b7 + 1 * digitVal b8 + 3 * digitVal b9 + 1 * digitVal b10) := by ring
    show ¬ digitVal b12 = (10 - (1 * digitVal b0 + 3 * digitVal b1 + 1 * digitVal b2 + 3 * digitVal b3 + 1 * digitVal b4 + 3 * digitVal b5 + 1 * digitVal b6 + 3 * digitVal b7 + 1 * digitVal b8 + 3 * digitVal b9 + 1 * digitVal b10 + 3 * digitVal c) % 10) % 10
    rw [e]
    rw [e0] at hsum
    exact mod10_cancel 3 (digitVal b11) (digitVal c)
      (1 * digitVal b0 + 3 * digitVal b1 + 1 * digitVal b2 + 3 * digitVal b3 + 1 * digitVal b4 + 3 * digitVal b5 + 1 * digitVal b6 + 3 * digitVal b7 + 1 * digitVal b8 + 3 * digitVal b9 + 1 * digitVal b10) (digitVal b12)
      (by decide) (digitVal_le_nine b11 h11) (digitVal_le_nine c hc)
      (fun h => hcv (digitVal_inj b11 c h11 hc h).symm) hsum
  · show IsISBNv13 [b0, b1, b2, b3, b4, b5, b6, b7, b8, b9, b10, b11, c] = some false
    have hcv : c ≠ b12 := fun h => hne (by rw [h]; rfl)
    rw [IsISBNv13_eval _ b0 b1 b2 b3 b4 b5 b6 b7 b8 b9 b10 b11 c (strip_isbn _ (by
      simp only [List.mem_cons, List.mem_singleton, List.not_mem_nil, or_false,
        forall_eq_or_imp, forall_eq]
      exact ⟨Or.inl h0, Or.inl h1, Or.inl h2, Or.inl h3, Or.inl h4, Or.inl h5, Or.inl h6, Or.inl h7, Or.inl h8, Or.inl h9, Or.inl h10, Or.inl h11, Or.inl hc⟩)) h0 h1 h2 h3 h4 h5 h6 h7 h8 h9 h10 h11 hc]
    rw [Option.some.injEq, decide_eq_false_iff_not]
    show ¬ digitVal c = (10 - (1 * digitVal b0 + 3 * digitVal b1 + 1 * digitVal b2 + 3 * digitVal b3 + 1 * digitVal b4 + 3 * digitVal b5 + 1 * digitVal b6 + 3 * digitVal b7 + 1 * digitVal b8 + 3 * digitVal b9 + 1 * digitVal b10 + 3 * digitVal b11) % 10) % 10
    rw [← hsum]
    exact fun h => hcv (digitVal_inj c b12 hc h12 h)

/-- C19, witness: `9783836221191` is an ISBN-13, and with its last digit replaced
by `0`, or its first digit by `8`, it is none. -/
theorem IsISBNv13_substitution_witness :
    IsISBNv13 (goStr "9783836221191") = some true ∧
    (goStr "9783836221191").set 12 0x30 = goStr "9783836221190" ∧
    IsISBNv13 (goStr "9783836221190") = some false ∧
    IsISBNv13 ((goStr "9783836221191").set 0 0x38) = some false :=
  ⟨by decide, by decide,
    IsISBNv13_substitution (goStr "9783836221191") 12 0x30 (by decide) (by decide) (by decide)
      (by decide) (by decide),
    IsISBNv13_substitution (goStr "9783836221191") 0 0x38 (by decide) (by decide) (by decide)
      (by decide) (by decide)⟩

/-- C20. Every prefix has exactly one valid check character: for a string `p` of
nine decimal digits exactly one character `c` among the decimal digits and `X`
makes `IsISBNv10 (p ++ c)` true, and for a string `q` of twelve decimal digits
exactly one decimal digit `c` makes `IsISBNv13 (q ++ c)` true. -/
theorem ISBN_unique_check (p q : GoString)
    (hp : p.length = 9) (hpd : ∀ b ∈ p, isDigit b = true)
    (hq : q.length = 12) (hqd : ∀ b ∈ q, isDigit b = true) :
    (∃! c : Byte, (isDigit c = true ∨ c = 0x58) ∧ IsISBNv10 (p ++ [c]) = some true) ∧
    (∃! c : Byte, isDigit c = true ∧ IsISBNv13 (q ++ [c]) = some true) := by
  constructor
  · obtain ⟨S, hS⟩ := IsISBNv10_check p hp hpd
    obtain ⟨c, hc, hv⟩ := checkVal_surj (S % 11) (by omega)
    refine ⟨c, ⟨hc, (hS c hc).2 (by rw [hv]; omega)⟩, ?_⟩
    rintro y ⟨hy, hy1⟩
    have h1 := (hS y hy).1 hy1
    have h2 := checkVal_le y hy
    exact checkVal_inj y c hy hc (by rw [hv]; omega)
  · obtain ⟨T, hT⟩ := IsISBNv13_check q hq hqd
    obtain ⟨c, hc, hv⟩ := digitVal_surj ((10 - T % 10) % 10) (by omega)
    refine ⟨c, ⟨hc, (hT c hc).2 hv⟩, ?_⟩
    rintro y ⟨hy, hy1⟩
    exact digitVal_inj y c hy hc (by rw [hv]; exact (hT y hy).1 hy1)

/-- C20, witness: the prefixes `383622119` and `978383622119` have one check
character each, `5` and `1`; the prefix `340101319` has the check character `X`. -/
theorem ISBN_unique_check_witness :
    ((∃! c : Byte, (isDigit c = true ∨ c = 0x58) ∧
        IsISBNv10 (goStr "383622119" ++ [c]) = some true) ∧
      (∃! c : Byte, isDigit c = true ∧ IsISBNv13 (goStr "978383622119" ++ [c]) = some true)) ∧
    IsISBNv10 (goStr "383622119" ++ [0x35]) = some true ∧
    IsISBNv13 (goStr "978383622119" ++ [0x31]) = some true ∧
    IsISBNv10 (goStr "340101319" ++ [0x58]) = some true :=
  ⟨ISBN_unique_check (goStr "383622119") (goStr "978383622119") (by decide)
      (fun b hb => of_decide_eq_true (List.all_eq_true.1
        (by decide : (goStr "383622119").all (fun b => decide (isDigit b = true)) = true) b hb))
      (by decide)
      (fun b hb => of_decide_eq_true (List.all_eq_true.1
        (by decide : (goStr "978383622119").all (fun b => decide (isDigit b = true)) = true)
        b hb)),
    by decide, by decide, by decide⟩

end Validator
